import Mathlib

/-!
Shallow embedding of the SlotNVM library (SlotNVM.h, template
SlotNVM<BASE, CLUSTER_SIZE, PROVISION, LAST_SLOT, CRC_FUNC, RND_TYPE, RND_FUNC>).

Modelling conventions:
* The NVM medium is a total byte function `Nat → Nat`; the RAM-backed mock
  adapter never fails on in-range accesses, so reads always succeed and
  return the stored byte (addresses past the medium read as 0).  Every
  single-byte write is appended to a write-event trace, mirroring the
  byte-at-a-time EEPROM write model; block reads/writes of the adapter are
  byte loops, exactly as in the mock adapter.
* The two in-RAM bitsets m_usedCluster and m_slotAvail are modelled as
  `Nat → Bool` maps; the C code packs them into byte arrays with identical
  set/clear/test semantics (m_slotAvail stores slot s at bit s - S_FIRST_SLOT
  guarded by the slot range check, which is kept literally).
* The injected CRC function is an optional `Nat → Nat → Nat`
  (CRC_FUNC == NULL corresponds to `none`); the injected random function is
  passed to writeSlot as an optional already-drawn value `rnd`, such that
  RND_FUNC() == r corresponds to `some r` and RND_FUNC == NULL to `none`.
* uint8_t increment wrap-around (in nextFreeCluster) is modelled with % 256;
  loops whose C termination is data bounded are given explicit fuel that is
  provably larger than every terminating C iteration count, identical to the
  C bound where the C code itself uses a bound (clearClusters' maxDeep).
-/

namespace SlotNVM

/-- One NVM write event: address and byte value. -/
abbrev WEvent := Nat × Nat

/-- Compile-time template configuration of SlotNVM: BASE::S_SIZE,
CLUSTER_SIZE, PROVISION, LAST_SLOT and the optional CRC_FUNC. -/
structure Cfg where
  size : Nat
  clusterSize : Nat
  provision : Nat
  lastSlotParam : Nat
  crc : Option (Nat → Nat → Nat)

/-- S_CLUSTER_CNT = BASE::S_SIZE / CLUSTER_SIZE. -/
def Cfg.clusterCnt (cfg : Cfg) : Nat := cfg.size / cfg.clusterSize

/-- S_USER_DATA_PER_CLUSTER = CLUSTER_SIZE - 6 + (CRC_FUNC == NULL ? 1 : 0). -/
def Cfg.userData (cfg : Cfg) : Nat :=
  cfg.clusterSize - 6 + (if cfg.crc.isNone then 1 else 0)

/-- S_PROVISION: PROVISION rounded up to a multiple of S_USER_DATA_PER_CLUSTER. -/
def Cfg.sProvision (cfg : Cfg) : Nat :=
  ((cfg.provision + cfg.userData - 1) / cfg.userData) * cfg.userData

/-- S_LAST_SLOT = LAST_SLOT == 0 ? min(S_CLUSTER_CNT, 250) : min(LAST_SLOT, 250). -/
def Cfg.lastSlot (cfg : Cfg) : Nat :=
  if cfg.lastSlotParam = 0 then
    (if cfg.clusterCnt > 250 then 250 else cfg.clusterCnt)
  else
    (if cfg.lastSlotParam > 250 then 250 else cfg.lastSlotParam)

/-- S_END_BYTE = 0xA0 without CRC, 0xA1 with CRC. -/
def Cfg.endByte (cfg : Cfg) : Nat := 0xA0 + (if cfg.crc.isNone then 0 else 1)

/-- getSize() = S_CLUSTER_CNT * S_USER_DATA_PER_CLUSTER. -/
def Cfg.getSize (cfg : Cfg) : Nat := cfg.clusterCnt * cfg.userData

/-- S_AGE_BITS_TO_OLDEST lookup table (low two bits: age to try; high nibble
0xF marks the error encodings of the table comment). -/
def S_AGE_BITS_TO_OLDEST : List Nat :=
  [0xF0, 0x00, 0x01, 0x01, 0x02, 0xF2, 0x02, 0xF2,
   0x03, 0x00, 0xF3, 0xF1, 0x03, 0xF0, 0xF3, 0xF3]

/-- Point update of a Nat-indexed boolean map (one bitset bit). -/
def updB (f : Nat → Bool) (i : Nat) (v : Bool) : Nat → Bool :=
  fun j => if j = i then v else f j

/-- Point update of a Nat-indexed byte map (one medium byte). -/
def updN (f : Nat → Nat) (i v : Nat) : Nat → Nat :=
  fun j => if j = i then v else f j

/-- Full state of a SlotNVM object together with its medium:
medium bytes, write-event trace, m_initDone, m_slotAvail, m_usedCluster. -/
structure St where
  mem : Nat → Nat
  trace : List WEvent
  initDone : Bool
  slotAvail : Nat → Bool
  usedCluster : Nat → Bool

/-- A medium given by a byte list (bytes past the list read as 0). -/
def memOf (l : List Nat) : Nat → Nat := fun a => l.getD a 0

/-- Freshly constructed SlotNVM object on a given medium
(constructor zeroes m_initDone, m_slotAvail, m_usedCluster). -/
def initSt (mem : Nat → Nat) : St :=
  { mem := mem, trace := [], initDone := false,
    slotAvail := fun _ => false, usedCluster := fun _ => false }

/-- BASE::write(addr, byte): store the byte and log the write event. -/
def nvmWrite (st : St) (a v : Nat) : St :=
  { st with mem := updN st.mem a v, trace := st.trace ++ [(a, v)] }

/-- BASE::write(addr, buf, len): byte loop of single writes. -/
def nvmWriteBuf : St → Nat → List Nat → St
  | st, _, [] => st
  | st, a, v :: rest => nvmWriteBuf (nvmWrite st a v) (a + 1) rest

/-- BASE::read(addr, buf, len): the len bytes starting at addr. -/
def readBufPure (mem : Nat → Nat) (a n : Nat) : List Nat :=
  (List.range n).map (fun i => mem (a + i))

/-- setSlotBit: guarded by the slot range check, stores slot s at
bit s - S_FIRST_SLOT. -/
def setSlotBitF (cfg : Cfg) (avail : Nat → Bool) (slot : Nat) : Nat → Bool :=
  if 1 ≤ slot ∧ slot ≤ cfg.lastSlot then updB avail (slot - 1) true else avail

/-- clearSlotBit: guarded by the slot range check. -/
def clearSlotBitF (cfg : Cfg) (avail : Nat → Bool) (slot : Nat) : Nat → Bool :=
  if 1 ≤ slot ∧ slot ≤ cfg.lastSlot then updB avail (slot - 1) false else avail

/-- isSlotBitSet: guarded by the slot range check. -/
def isSlotBitSetF (cfg : Cfg) (avail : Nat → Bool) (slot : Nat) : Bool :=
  if 1 ≤ slot ∧ slot ≤ cfg.lastSlot then avail (slot - 1) else false

/-- isSlotAvailable(slot) on a state. -/
def isSlotAvailable (cfg : Cfg) (st : St) (slot : Nat) : Bool :=
  isSlotBitSetF cfg st.slotAvail slot

/-- Pass-1 acceptance test of begin() for one cluster: slot number in
[S_FIRST_SLOT, S_LAST_SLOT], end byte equals S_END_BYTE, and with CRC the
length sanity check plus the CRC comparison of the cluster. -/
def clusterValid (cfg : Cfg) (mem : Nat → Nat) (c : Nat) : Bool :=
  let cAddr := c * cfg.clusterSize
  let slotv := mem cAddr
  if slotv < 1 ∨ cfg.lastSlot < slotv then false
  else if mem (cAddr + cfg.clusterSize - 1) ≠ cfg.endByte then false
  else
    match cfg.crc with
    | none => true
    | some f =>
      let flags := mem (cAddr + 1)
      let isFirst := (flags &&& 0x20) ≠ 0
      let linkv := mem (cAddr + 2)
      let lenB := mem (cAddr + 3)
      if ¬isFirst ∧ cfg.userData < lenB then false
      else
        let plen := if isFirst then min (lenB + 1) cfg.userData else lenB
        let crcv := List.foldl f (List.foldl f 0 [slotv, flags, linkv, lenB])
          (readBufPure mem (cAddr + 4) plen)
        decide (mem (cAddr + cfg.clusterSize - 2) = crcv)

/-- One cluster of begin() pass 1: a surviving cluster is marked in
m_usedCluster and its slot in m_slotAvail. -/
def pass1Step (cfg : Cfg) (st : St) (c : Nat) : St :=
  if clusterValid cfg st.mem c then
    { st with usedCluster := updB st.usedCluster c true,
              slotAvail := setSlotBitF cfg st.slotAvail (st.mem (c * cfg.clusterSize)) }
  else st

/-- begin() pass 1 over all clusters. -/
def pass1 (cfg : Cfg) (st : St) : St :=
  (List.range cfg.clusterCnt).foldl (pass1Step cfg) st

/-- Accumulator of the per-slot cluster collection of begin() pass 2:
clusterUsedBySlot, firstCluster[4] and firstClusterMask. -/
structure SlotScan where
  usedBySlot : Nat → Bool
  firstCl : Nat → Nat
  mask : Nat

/-- One cluster of the per-slot collection loop of begin() pass 2. -/
def collectStep (cfg : Cfg) (st : St) (slot : Nat) (acc : SlotScan) (c : Nat) : SlotScan :=
  if !st.usedCluster c then acc
  else if st.mem (c * cfg.clusterSize) ≠ slot then acc
  else
    let acc := { acc with usedBySlot := updB acc.usedBySlot c true }
    let flags := st.mem (c * cfg.clusterSize + 1)
    let age := (flags &&& 0xC0) >>> 6
    if (flags &&& 0x20) ≠ 0 then
      { acc with firstCl := updN acc.firstCl age c, mask := acc.mask ||| (1 <<< age) }
    else acc

/-- The per-slot cluster collection loop of begin() pass 2. -/
def collectSlot (cfg : Cfg) (st : St) (slot : Nat) : SlotScan :=
  (List.range cfg.clusterCnt).foldl (collectStep cfg st slot)
    { usedBySlot := fun _ => false, firstCl := fun _ => 0, mask := 0 }

/-- Chain walk of begin() pass 2 from a chosen start cluster; returns the
validCluster set, the accumulated curMaxDataLen and the err flag.  cur is
the current cluster, flags its flag byte.  Fuel 300 exceeds every
terminating iteration count (each iteration adds S_USER_DATA_PER_CLUSTER
to curMax and errs at doNotExceetLen ≤ 256 + S_USER_DATA_PER_CLUSTER). -/
def walkLoop (cfg : Cfg) (st : St) (usedBySlot : Nat → Bool) (oldes doNot : Nat) :
    Nat → (Nat → Bool) → Nat → Nat → Nat → ((Nat → Bool) × Nat × Bool)
  | 0, valid, _, _, curMax => (valid, curMax, true)
  | fuel + 1, valid, cur, flags, curMax =>
    if (flags &&& 0x10) ≠ 0 then (valid, curMax, false)
    else
      let nxt := st.mem (cur * cfg.clusterSize + 2)
      let valid := updB valid nxt true
      if usedBySlot nxt then
        let flags2 := st.mem (nxt * cfg.clusterSize + 1)
        if ((flags2 &&& 0xC0) >>> 6) ≠ oldes then (valid, curMax, true)
        else if (flags2 &&& 0x20) ≠ 0 then (valid, curMax, true)
        else
          let curMax2 := curMax + cfg.userData
          if doNot ≤ curMax2 then (valid, curMax2, true)
          else walkLoop cfg st usedBySlot oldes doNot fuel valid nxt flags2 curMax2
      else (valid, curMax, true)

/-- One attempt of the winner-selection loop of begin() pass 2 for a given
remaining age mask: pick the age the table names, walk its chain, and
report the surviving validCluster set on success. -/
def tryMask (cfg : Cfg) (st : St) (scan : SlotScan) (mask : Nat) :
    (Nat → Bool) × Bool × Nat :=
  let oldes := (S_AGE_BITS_TO_OLDEST.getD mask 0) &&& 0x03
  let start := scan.firstCl oldes
  let valid := updB (fun _ => false) start true
  let cAddr := start * cfg.clusterSize
  let flags := st.mem (cAddr + 1)
  let startLen := st.mem (cAddr + 3)
  let doNot := startLen + 1 + cfg.userData
  let res := walkLoop cfg st scan.usedBySlot oldes doNot 300 valid start flags cfg.userData
  let err := res.2.2 || decide (res.2.1 < startLen + 1)
  (res.1, err, oldes)

/-- Winner-selection loop of begin() pass 2: while no winner was found and
the mask is non-empty, try the table's age; on failure strip that age bit
(8-bit complement) and retry.  Returns the validCluster set of the winner.
Fuel 16 suffices: the mask is below 16 and strictly shrinks. -/
def selLoop (cfg : Cfg) (st : St) (scan : SlotScan) : Nat → Nat → Option (Nat → Bool)
  | 0, _ => none
  | _, 0 => none
  | fuel + 1, mask + 1 =>
    let res := tryMask cfg st scan (mask + 1)
    if res.2.1 then
      selLoop cfg st scan fuel ((mask + 1) &&& (255 ^^^ (1 <<< res.2.2)))
    else some res.1

/-- clearCluster: invalidate one cluster by writing 0x00 to its slot byte
and clear its m_usedCluster bit (the mock write never fails). -/
def clearCluster (cfg : Cfg) (st : St) (c : Nat) : St :=
  let st := nvmWrite st (c * cfg.clusterSize) 0
  { st with usedCluster := updB st.usedCluster c false }

/-- Removal loop at the end of a begin() pass 2 slot: clear every cluster
of this slot that is not part of the surviving chain. -/
def invalidateStep (cfg : Cfg) (scan : SlotScan) (found : Bool)
    (valid : Nat → Bool) (st : St) (c : Nat) : St :=
  if !scan.usedBySlot c then st
  else if found && valid c then st
  else clearCluster cfg st c

/-- One slot of begin() pass 2: collect this slot's clusters, select the
winning generation, remove the rest, and drop the slot if none survived. -/
def pass2Slot (cfg : Cfg) (st : St) (slot : Nat) : St :=
  if !isSlotBitSetF cfg st.slotAvail slot then st
  else
    let scan := collectSlot cfg st slot
    let sel := selLoop cfg st scan 16 scan.mask
    let found := sel.isSome
    let valid := sel.getD (fun _ => false)
    let st := (List.range cfg.clusterCnt).foldl (invalidateStep cfg scan found valid) st
    if found then st
    else { st with slotAvail := clearSlotBitF cfg st.slotAvail slot }

/-- begin(): fails when called twice, otherwise pass 1 and pass 2 followed
by setting m_initDone (the mock medium never fails a read). -/
def begin (cfg : Cfg) (st : St) : St × Bool :=
  if st.initDone then (st, false)
  else
    let st := pass1 cfg st
    let st := (List.range' 1 cfg.lastSlot).foldl (pass2Slot cfg) st
    ({ st with initDone := true }, true)

/-- getFree(): total user bytes minus used clusters, minus S_PROVISION
(clamped at 0). -/
def getFree (cfg : Cfg) (st : St) : Nat :=
  let free := cfg.getSize -
    ((List.range cfg.clusterCnt).countP (fun c => st.usedCluster c)) * cfg.userData
  if free < cfg.sProvision then 0 else free - cfg.sProvision

/-- findStartCluser(slot): first used cluster whose slot byte matches and
whose start flag is set. -/
def findStartCluser (cfg : Cfg) (st : St) (slot : Nat) : Option Nat :=
  (List.range cfg.clusterCnt).find? (fun c =>
    st.usedCluster c && (st.mem (c * cfg.clusterSize) == slot)
      && ((st.mem (c * cfg.clusterSize + 1) &&& 0x20) != 0))

/-- Probe loop of nextFreeCluster: the guard compares against the clamped
start position, positions at or past S_CLUSTER_CNT reset to 0 inside the
body, the uint8_t increment wraps at 256.  Fuel 1000 exceeds every
terminating iteration count (at most about 258); the C loop does not
terminate exactly in the starved start = 0 wrap case, which the model maps
to `none`. -/
def nextFreeLoop (used : Nat → Bool) (cnt start : Nat) : Nat → Nat → Option Nat
  | 0, _ => none
  | fuel + 1, next =>
    if next = start then none
    else
      let n2 := if cnt ≤ next then 0 else next
      if used n2 then nextFreeLoop used cnt start fuel ((n2 + 1) % 256)
      else some n2

/-- nextFreeCluster(nextCluster): clamp the seed, then probe cyclically. -/
def nextFreeCluster (cfg : Cfg) (st : St) (next : Nat) : Option Nat :=
  let next := if cfg.clusterCnt < 256 ∧ cfg.clusterCnt < next then cfg.clusterCnt else next
  nextFreeLoop st.usedCluster cfg.clusterCnt next 1000 ((next + 1) % 256)

/-- The cnt successive nextFreeCluster calls of writeSlot, each seeded with
the previous result (m_usedCluster is not updated in between). -/
def allocClusters (cfg : Cfg) (st : St) : Nat → Nat → Option (List Nat)
  | 0, _ => some []
  | k + 1, next =>
    match nextFreeCluster cfg st next with
    | none => none
    | some c =>
      match allocClusters cfg st k c with
      | none => none
      | some rest => some (c :: rest)

/-- Body of one iteration of writeSlot's reverse cluster-write loop for
index i: invalidate a stale end byte first, then header, payload, optional
CRC, and the end byte last; finally mark the cluster used. -/
def writeOneCluster (cfg : Cfg) (st : St) (slot : Nat) (dataList : List Nat)
    (len newAge cnt : Nat) (cls : List Nat) (i : Nat) : St :=
  let cl := cls.getD i 0
  let cAddr := cl * cfg.clusterSize
  let st :=
    if st.mem (cAddr + cfg.clusterSize - 1) = cfg.endByte then
      nvmWrite st (cAddr + cfg.clusterSize - 1) 0
    else st
  let offset := i * cfg.userData
  let toCopy := min (len - offset) cfg.userData
  let flags := newAge ||| (if i = 0 then 0x20 else 0) |||
    (if i = cnt - 1 then 0x10 else 0)
  let link := if i = cnt - 1 then slot else cls.getD (i + 1) 0
  let lenField := if i = 0 then len - 1 else toCopy
  let hdr := [slot, flags, link, lenField]
  let st := nvmWriteBuf st cAddr hdr
  let payload := (List.range toCopy).map (fun j => dataList.getD (offset + j) 0)
  let st := nvmWriteBuf st (cAddr + 4) payload
  let st :=
    match cfg.crc with
    | some f => nvmWrite st (cAddr + cfg.clusterSize - 2)
        (List.foldl f (List.foldl f 0 hdr) payload)
    | none => st
  let st := nvmWrite st (cAddr + cfg.clusterSize - 1) cfg.endByte
  { st with usedCluster := updB st.usedCluster cl true }

/-- writeSlot's cluster-write loop, descending from index cnt-1 to 0
(the start cluster is written last). -/
def writeClustersLoop (cfg : Cfg) (slot : Nat) (dataList : List Nat)
    (len newAge cnt : Nat) (cls : List Nat) : Nat → St → St
  | 0, st => st
  | i + 1, st =>
    writeClustersLoop cfg slot dataList len newAge cnt cls i
      (writeOneCluster cfg st slot dataList len newAge cnt cls i)

/-- Chain removal loop of clearClusters after the first cluster was
invalidated: follow the links while the last-cluster flag is absent,
invalidating each cluster, for at most the given maxDeep steps. -/
def clearClustersLoop (cfg : Cfg) : St → Nat → Nat → St
  | st, _, 0 => st
  | st, cur, fuel + 1 =>
    let flags := st.mem (cur * cfg.clusterSize + 1) &&& 0x10
    if flags = 0 then
      let nxt := st.mem (cur * cfg.clusterSize + 2)
      let st := nvmWrite st (nxt * cfg.clusterSize) 0
      let st := { st with usedCluster := updB st.usedCluster nxt false }
      clearClustersLoop cfg st nxt fuel
    else st

/-- clearClusters(firstCluster): invalidate the head, then walk the chain
with maxDeep = 256 / S_USER_DATA_PER_CLUSTER (the mock write never fails,
so the result is always true). -/
def clearClusters (cfg : Cfg) (st : St) (first : Nat) : St × Bool :=
  let st := nvmWrite st (first * cfg.clusterSize) 0
  let st := { st with usedCluster := updB st.usedCluster first false }
  (clearClustersLoop cfg st first (256 / cfg.userData), true)

/-- The cluster count writeSlot computes for a payload length:
cntCluster = (len - 1) / S_USER_DATA_PER_CLUSTER + 1. -/
def writeCnt (cfg : Cfg) (len : Nat) : Nat := (len - 1) / cfg.userData + 1

/-- The initial nextFreeCluster seed of writeSlot: the drawn random value
modulo S_CLUSTER_CNT, or 255 without a random function. -/
def writeSeed (cfg : Cfg) (rnd : Option Nat) : Nat :=
  match rnd with
  | some r => r % cfg.clusterCnt
  | none => 255

/-- Continuation of writeSlot after the provision check value is known:
space check, cluster allocation, reverse cluster writes, then either the
removal of the old generation or marking the slot available. -/
def writeSlotCont (cfg : Cfg) (rnd : Option Nat) (st : St) (slot : Nat)
    (dataList : List Nat) (len newAge free : Nat) (oldStart : Option Nat) : St × Bool :=
  if free < len then (st, false)
  else
    let cnt := writeCnt cfg len
    let seed := writeSeed cfg rnd
    match allocClusters cfg st cnt seed with
    | none => (st, false)
    | some cls =>
      let st := writeClustersLoop cfg slot dataList len newAge cnt cls cnt st
      match oldStart with
      | some old => ((clearClusters cfg st old).1, true)
      | none => ({ st with slotAvail := setSlotBitF cfg st.slotAvail slot }, true)

/-- writeSlot(slot, data, len): argument checks, provision-credited space
check, allocation, reverse cluster writes, commit. -/
def writeSlot (cfg : Cfg) (rnd : Option Nat) (st : St) (slot : Nat)
    (data : Option (List Nat)) (len : Nat) : St × Bool :=
  if !st.initDone then (st, false)
  else if data.isNone then (st, false)
  else if len < 1 then (st, false)
  else if 256 < len then (st, false)
  else if slot < 1 ∨ cfg.lastSlot < slot then (st, false)
  else
    let dataList := data.getD []
    let free := getFree cfg st
    match findStartCluser cfg st slot with
    | some oldStart =>
      let cAddr := oldStart * cfg.clusterSize
      let oldFlags := st.mem (cAddr + 1)
      let newAge := ((((oldFlags &&& 0xC0) >>> 6) + 1) <<< 6) &&& 0xC0
      let oldLenB := st.mem (cAddr + 3)
      let extraFree := ((oldLenB + cfg.userData - 1) / cfg.userData) * cfg.userData
      let free := if cfg.sProvision < extraFree then free + cfg.sProvision
        else free + extraFree
      writeSlotCont cfg rnd st slot dataList len newAge free (some oldStart)
    | none => writeSlotCont cfg rnd st slot dataList len 0 free none

/-- Copy loop of readSlot, a do-while: copy up to
S_USER_DATA_PER_CLUSTER bytes per cluster, follow the link, and continue
while the last-cluster flag is absent and bytes remain.  The fuel is the
initial byte count, which bounds the iterations whenever
S_USER_DATA_PER_CLUSTER is at least 1. -/
def readLoop (cfg : Cfg) (st : St) : Nat → Nat → Nat → List Nat → Bool × List Nat
  | 0, _, _, acc => (false, acc)
  | fuel + 1, cur, rem, acc =>
    let cAddr := cur * cfg.clusterSize
    let flags := st.mem (cAddr + 1)
    let curCopy := min rem cfg.userData
    let acc := acc ++ readBufPure st.mem (cAddr + 4) curCopy
    let rem := rem - curCopy
    let nxt := st.mem (cAddr + 2)
    if (flags &&& 0x10) = 0 ∧ 0 < rem then readLoop cfg st fuel nxt rem acc
    else (true, acc)

/-- readSlot(slot, data, len): the result is (ok, len after the call, bytes
copied into the caller's buffer).  dataNull models data == NULL. -/
def readSlot (cfg : Cfg) (st : St) (slot : Nat) (dataNull : Bool) (lenIn : Nat) :
    Bool × Nat × List Nat :=
  if !st.initDone then (false, lenIn, [])
  else
    match findStartCluser cfg st slot with
    | none => (false, lenIn, [])
    | some c =>
      let d := st.mem (c * cfg.clusterSize + 3)
      let lenToCopy := d + 1
      if lenIn < lenToCopy then (false, lenToCopy, [])
      else if dataNull then (false, lenToCopy, [])
      else
        let res := readLoop cfg st lenToCopy c lenToCopy []
        (res.1, lenToCopy, res.2)

/-- eraseSlot(slot): find the start cluster, clear the chain, and on
success clear the slot bit. -/
def eraseSlot (cfg : Cfg) (st : St) (slot : Nat) : St × Bool :=
  if !st.initDone then (st, false)
  else
    match findStartCluser cfg st slot with
    | none => (st, false)
    | some first =>
      let res := clearClusters cfg st first
      if res.2 then
        ({ res.1 with slotAvail := clearSlotBitF cfg res.1.slotAvail slot }, true)
      else res

/-! ### Derived definitions used to state the properties -/

/-- The argument checks at the top of writeSlot, as one predicate:
not initialized, null data, len < 1, len > 256, slot out of range. -/
def writeSlotArgsReject (cfg : Cfg) (st : St) (data : Option (List Nat))
    (len slot : Nat) : Bool :=
  !st.initDone || data.isNone || decide (len < 1) || decide (256 < len) ||
    decide (slot < 1 ∨ cfg.lastSlot < slot)

/-- The provision-credited free count writeSlot compares against len:
getFree() plus, when an old generation exists, the old start cluster's
stored length byte rounded up to a cluster multiple, capped at
S_PROVISION. -/
def creditedFree (cfg : Cfg) (st : St) (slot : Nat) : Nat :=
  match findStartCluser cfg st slot with
  | some h =>
    getFree cfg st +
      min (((st.mem (h * cfg.clusterSize + 3) + cfg.userData - 1) / cfg.userData)
        * cfg.userData) cfg.sProvision
  | none => getFree cfg st

/-- Age field (bits 7..6) of a flag byte, as the code extracts it. -/
def flagsAge (b : Nat) : Nat := (b &&& 0xC0) >>> 6

/-- Start-cluster flag (bit 5) of a flag byte. -/
def flagsStartB (b : Nat) : Bool := (b &&& 0x20) != 0

/-- Last-cluster flag (bit 4) of a flag byte. -/
def flagsLastB (b : Nat) : Bool := (b &&& 0x10) != 0

/-- In-RAM index faithfulness: for every cluster index, the m_usedCluster
bit is set iff the cluster on the medium passes pass-1 validation (slot
number in range, correct end marker, and with CRC a verifying CRC byte). -/
def indexFaithful (cfg : Cfg) (st : St) : Prop :=
  ∀ i, i < cfg.clusterCnt → st.usedCluster i = clusterValid cfg st.mem i

/-- A complete valid on-medium generation of slot s with the given age:
a duplicate-free chain of clusters, each valid and carrying the slot
number and age, with the start flag exactly on the head, the last flag
exactly on the final cluster, links along the chain, and the start
cluster's declared length byte consistent with the chain length. -/
def validChain (cfg : Cfg) (mem : Nat → Nat) (s age : Nat) (chain : List Nat)
    (startLen : Nat) : Prop :=
  chain ≠ [] ∧ chain.Nodup ∧
  (∀ c ∈ chain, c < cfg.clusterCnt) ∧
  mem (chain.getD 0 0 * cfg.clusterSize + 3) = startLen ∧
  (chain.length - 1) * cfg.userData < startLen + 1 ∧
  startLen + 1 ≤ chain.length * cfg.userData ∧
  ∀ i, i < chain.length →
    mem (chain.getD i 0 * cfg.clusterSize) = s ∧
    clusterValid cfg mem (chain.getD i 0) = true ∧
    flagsAge (mem (chain.getD i 0 * cfg.clusterSize + 1)) = age ∧
    (flagsStartB (mem (chain.getD i 0 * cfg.clusterSize + 1)) = true ↔ i = 0) ∧
    (flagsLastB (mem (chain.getD i 0 * cfg.clusterSize + 1)) = true ↔ i + 1 = chain.length) ∧
    (i + 1 < chain.length →
      mem (chain.getD i 0 * cfg.clusterSize + 2) = chain.getD (i + 1) 0)

/-- The payload bytes a chain stores for a total byte count: up to
S_USER_DATA_PER_CLUSTER bytes from offset 4 of each cluster in turn. -/
def chainBytes (cfg : Cfg) (mem : Nat → Nat) : List Nat → Nat → List Nat
  | [], _ => []
  | c :: rest, rem =>
    readBufPure mem (c * cfg.clusterSize + 4) (min rem cfg.userData) ++
      chainBytes cfg mem rest (rem - min rem cfg.userData)

/-- Replay of a list of write events over a byte map: the medium
contents determined by an initial state and a trace suffix. -/
def replayW (mem : Nat → Nat) : List WEvent → (Nat → Nat)
  | [] => mem
  | e :: rest => replayW (updN mem e.1 e.2) rest

/-- Shape of the write-event block one cluster-write iteration of
writeSlot emits for cluster cl, given the value marker that the cluster's
end-marker byte holds just before the block: exactly when that value is
the valid S_END_BYTE, the block starts by zeroing the end marker before
any other byte of the cluster; then only writes strictly inside the
cluster below the end-marker offset, none of which puts 0x00 into a
cluster's slot byte; and the end-marker write last. -/
def blockShape (cfg : Cfg) (cl marker : Nat) (B : List WEvent) : Prop :=
  ∃ mid : List WEvent,
    B = (if marker = cfg.endByte
        then [(cl * cfg.clusterSize + (cfg.clusterSize - 1), 0)] else [])
      ++ mid ++ [(cl * cfg.clusterSize + (cfg.clusterSize - 1), cfg.endByte)] ∧
    ∀ e ∈ mid, ∃ off, off < cfg.clusterSize - 1 ∧
      e.1 = cl * cfg.clusterSize + off ∧ ¬(off = 0 ∧ e.2 = 0)

/-! ### Concrete instances used by the evaluations and witnesses -/

/-- SlotNVM<NVMRAMMock<64>, 8> without CRC and provision: 8 clusters,
3 user bytes per cluster, slots 1..8. -/
def cfgT : Cfg :=
  { size := 64, clusterSize := 8, provision := 0, lastSlotParam := 0, crc := none }

/-- Same geometry with PROVISION = 6 (two clusters of provision). -/
def cfgP : Cfg :=
  { size := 64, clusterSize := 8, provision := 6, lastSlotParam := 0, crc := none }

/-- Same geometry with PROVISION = 3 (one cluster of provision). -/
def cfgP3 : Cfg :=
  { size := 64, clusterSize := 8, provision := 3, lastSlotParam := 0, crc := none }

/-- Medium with a five-byte two-cluster generation of slot 1 on clusters
1 and 2, one-cluster generations of slots 2..6 on clusters 3..7, and
cluster 0 free. -/
def memC1 : List Nat :=
  [0, 0, 0, 0, 0, 0, 0, 0] ++
  [1, 0x20, 2, 4, 0x11, 0x12, 0x13, 0xA0] ++
  [1, 0x10, 2, 2, 0x14, 0x15, 0, 0xA0] ++
  [2, 0x30, 0, 2, 0xAA, 0xBB, 0xCC, 0xA0] ++
  [3, 0x30, 0, 2, 0xAA, 0xBB, 0xCC, 0xA0] ++
  [4, 0x30, 0, 2, 0xAA, 0xBB, 0xCC, 0xA0] ++
  [5, 0x30, 0, 2, 0xAA, 0xBB, 0xCC, 0xA0] ++
  [6, 0x30, 0, 2, 0xAA, 0xBB, 0xCC, 0xA0]

/-- State after begin() on memC1 under cfgP. -/
def stC1 : St := (begin cfgP (initSt (memOf memC1))).1

/-- Medium with two complete one-cluster generations of slot 1: age 0 on
cluster 0 and age 2 on cluster 2 (a non-contiguous age mask). -/
def memC5 : List Nat :=
  [1, 0x30, 0, 1, 0x11, 0x12, 0, 0xA0] ++
  [0, 0, 0, 0, 0, 0, 0, 0] ++
  [1, 0xB0, 2, 1, 0x21, 0x22, 0, 0xA0]

/-- State after begin() on memC5 under cfgT. -/
def stC5 : St := (begin cfgT (initSt (memOf memC5))).1

/-- Medium with a complete age-0 generation of slot 1 on cluster 0 and an
interrupted age-1 start cluster on cluster 2 whose end marker is missing
(0xFF instead of 0xA0). -/
def memC2x : List Nat :=
  [1, 0x30, 0, 1, 0x11, 0x12, 0, 0xA0] ++
  [0, 0, 0, 0, 0, 0, 0, 0] ++
  [1, 0x60, 2, 3, 0x99, 0x99, 0x99, 0xFF]

/-- State after begin() on memC2x under cfgT. -/
def stC2x : St := (begin cfgT (initSt (memOf memC2x))).1

/-- Medium with all 8 clusters used: one-byte one-cluster generations of
slots 1..8 on clusters 0..7. -/
def memC4a : List Nat :=
  (List.range 8).flatMap (fun k => [k + 1, 0x30, 0, 0, 0x50 + k, 0, 0, 0xA0])

/-- State after begin() on memC4a under cfgP3 (getFree() = 0). -/
def stC4a : St := (begin cfgP3 (initSt (memOf memC4a))).1

/-- Medium with one-cluster generations of slots 1..7 on clusters 0 and
2..7; only cluster 1 is free. -/
def memC4b : List Nat :=
  [1, 0x30, 0, 0, 1, 0, 0, 0xA0] ++
  [0, 0, 0, 0, 0, 0, 0, 0] ++
  (List.range 6).flatMap (fun k => [k + 2, 0x30, 0, 0, 9, 0, 0, 0xA0])

/-- State after begin() on memC4b under cfgT (getFree() = 3). -/
def stC4b : St := (begin cfgT (initSt (memOf memC4b))).1

/-- Medium with one-cluster generations of slots 1..7 on clusters 1..7;
only cluster 0 is free. -/
def memC10 : List Nat :=
  [0, 0, 0, 0, 0, 0, 0, 0] ++
  (List.range 7).flatMap (fun k => [k + 1, 0x30, 0, 0, 9, 0, 0, 0xA0])

/-- State after begin() on memC10 under cfgT. -/
def stC10 : St := (begin cfgT (initSt (memOf memC10))).1

/-! ### Theorems -/

/-- A successful probe of the nextFreeCluster loop yields either cluster 0
(the reset path) or a probe value below the cluster count different from
the clamped start. -/
theorem nextFreeLoop_result (used : Nat → Bool) (cnt start : Nat) :
    ∀ fuel next r, nextFreeLoop used cnt start fuel next = some r →
      r = 0 ∨ (r ≠ start ∧ r < cnt) := by
  intro fuel
  induction fuel with
  | zero => intro next r h; exact absurd h (by simp [nextFreeLoop])
  | succ f ih =>
    intro next r h
    unfold nextFreeLoop at h
    split at h
    · exact absurd h (by simp)
    · rename_i hns
      by_cases hc : cnt ≤ next
      · simp only [if_pos hc] at h
        split at h
        · exact ih _ _ h
        · left; exact (Option.some.inj h).symm
      · simp only [if_neg hc] at h
        split at h
        · exact ih _ _ h
        · right
          obtain rfl := Option.some.inj h
          exact ⟨fun he => hns he, by omega⟩


/-- C10 corrected: nextFreeCluster never returns a nonzero seed — for a
seed at least 1 the probes cover only positions cyclically after the seed
— but it can return seed 0 via the wrap reset (the counterexample).  The
existence part of the claim stands: in the recovered state where only
cluster 1 is free and getFree() = 3, a write of one byte to the empty
slot 8 with random seed 1 fails without touching the medium because the
probe start equals the only free cluster. -/
theorem c10_amended :
    (∀ (cfg : Cfg) (st : St) (s : Nat), 1 ≤ s →
        ∀ r, nextFreeCluster cfg st s = some r → r ≠ s) ∧
    ((writeSlot cfgT (some 1) stC4b 8 (some [0x55]) 1).2 = false ∧
      (writeSlot cfgT (some 1) stC4b 8 (some [0x55]) 1).1.trace = [] ∧
      stC4b.usedCluster 1 = false ∧
      getFree cfgT stC4b = 3 ∧
      writeSeed cfgT (some 1) = 1 ∧
      nextFreeCluster cfgT stC4b 1 = none) := by
  constructor
  · intro cfg st s hs r h
    unfold nextFreeCluster at h
    by_cases hcl : cfg.clusterCnt < 256 ∧ cfg.clusterCnt < s
    · simp only [if_pos hcl] at h
      rcases nextFreeLoop_result _ _ _ _ _ _ h with h0 | ⟨_, hlt⟩
      · omega
      · omega
    · simp only [if_neg hcl] at h
      rcases nextFreeLoop_result _ _ _ _ _ _ h with h0 | ⟨hne, _⟩
      · omega
      · exact hne
  · exact ⟨by decide, by decide, by decide, by decide, by decide, by decide⟩

/-- C10 amended at a concrete input: probing from the used cluster 3 in
the recovered memC10 state returns some free cluster different from 3. -/
theorem c10_amended_witness :
    ∀ r, nextFreeCluster cfgT stC10 3 = some r → r ≠ 3 :=
  c10_amended.1 cfgT stC10 3 (by decide)

/-- The chain removal loop appends at most one write event per fuel
step. -/
theorem clearClustersLoop_trace_le (cfg : Cfg) :
    ∀ (fuel : Nat) (st : St) (cur : Nat),
      (clearClustersLoop cfg st cur fuel).trace.length ≤ st.trace.length + fuel := by
  intro fuel
  induction fuel with
  | zero => intro st cur; simp [clearClustersLoop]
  | succ f ih =>
    intro st cur
    simp only [clearClustersLoop]
    split
    · refine le_trans (ih _ _) ?_
      simp only [nvmWrite, List.length_append, List.length_cons, List.length_nil]
      omega
    · omega

/-- Flooring division by the cluster payload is at most the ceiling. -/
theorem div256_le_ceil (u : Nat) : 256 / u ≤ (256 + u - 1) / u := by
  rcases Nat.eq_zero_or_pos u with h | h
  · simp [h]
  · exact Nat.div_le_div_right (by omega)

/-- C9: the chain-invalidation walk of clearClusters (used by eraseSlot
and by writeSlot's commit) always terminates — it is fuel bounded by
maxDeep = 256 / S_USER_DATA_PER_CLUSTER — and the clusters it
invalidates beyond the head, each one write event, number at most
the ceiling of 256 / S_USER_DATA_PER_CLUSTER, on every state including
cyclic or damaged chains. -/
theorem c9_bounded_walk :
    (∀ (cfg : Cfg) (st : St) (first : Nat),
        (clearClusters cfg st first).1.trace.length
          ≤ st.trace.length + 1 + (256 + cfg.userData - 1) / cfg.userData) ∧
    (∀ (cfg : Cfg) (st : St) (slot : Nat),
        (eraseSlot cfg st slot).1.trace.length
          ≤ st.trace.length + 1 + (256 + cfg.userData - 1) / cfg.userData) := by
  have hcc : ∀ (cfg : Cfg) (st : St) (first : Nat),
      (clearClusters cfg st first).1.trace.length
        ≤ st.trace.length + 1 + (256 + cfg.userData - 1) / cfg.userData := by
    intro cfg st first
    have hd := div256_le_ceil cfg.userData
    have hl := clearClustersLoop_trace_le cfg (256 / cfg.userData)
      { nvmWrite st (first * cfg.clusterSize) 0 with
        usedCluster := updB (nvmWrite st (first * cfg.clusterSize) 0).usedCluster first false }
      first
    have ht : (nvmWrite st (first * cfg.clusterSize) 0).trace.length
        = st.trace.length + 1 := by simp [nvmWrite]
    simp only [clearClusters]
    simp only [nvmWrite] at hl ht ⊢
    omega
  refine ⟨hcc, ?_⟩
  intro cfg st slot
  unfold eraseSlot
  split
  · exact le_trans (Nat.le_succ _) (Nat.le_add_right _ _)
  · cases hf : findStartCluser cfg st slot with
    | none =>
      exact le_trans (Nat.le_succ _) (Nat.le_add_right _ _)
    | some first =>
      simp only [hf]
      split
      · simpa using hcc cfg st first
      · simpa using hcc cfg st first

/-- C7: readSlot with a too-small caller length fails, reports the stored
size, and copies nothing; in particular the null-buffer zero-length call
is a size probe. -/
theorem c7_read_probe :
    (∀ (cfg : Cfg) (st : St) (slot c : Nat) (dataNull : Bool) (lenIn : Nat),
        st.initDone = true →
        findStartCluser cfg st slot = some c →
        lenIn < st.mem (c * cfg.clusterSize + 3) + 1 →
        readSlot cfg st slot dataNull lenIn
          = (false, st.mem (c * cfg.clusterSize + 3) + 1, [])) ∧
    (∀ (cfg : Cfg) (st : St) (slot c : Nat),
        st.initDone = true →
        findStartCluser cfg st slot = some c →
        readSlot cfg st slot true 0
          = (false, st.mem (c * cfg.clusterSize + 3) + 1, [])) := by
  constructor
  · intro cfg st slot c dataNull lenIn hInit hFind hLen
    unfold readSlot
    simp [hInit, hFind, hLen]
  · intro cfg st slot c hInit hFind
    unfold readSlot
    simp [hInit, hFind]

/-- C7 at a concrete input: in the recovered memC1 state, slot 1 stores
five bytes; a read with a two-byte buffer fails reporting 5 and copying
nothing, and so does the null probe with length 0. -/
theorem c7_read_probe_witness :
    readSlot cfgP stC1 1 false 2 = (false, stC1.mem (1 * cfgP.clusterSize + 3) + 1, []) ∧
    readSlot cfgP stC1 1 true 0 = (false, stC1.mem (1 * cfgP.clusterSize + 3) + 1, []) :=
  ⟨c7_read_probe.1 cfgP stC1 1 1 false 2 (by decide) (by decide) (by decide),
   c7_read_probe.2 cfgP stC1 1 1 (by decide) (by decide)⟩

/-- Every argument error of writeSlot returns false with the state
completely unchanged. -/
theorem writeSlot_rejected :
    ∀ (cfg : Cfg) (rnd : Option Nat) (st : St) (slot : Nat)
      (data : Option (List Nat)) (len : Nat),
      writeSlotArgsReject cfg st data len slot = true →
      writeSlot cfg rnd st slot data len = (st, false) := by
  intro cfg rnd st slot data len h
  unfold writeSlotArgsReject at h
  simp only [Bool.or_eq_true, Bool.not_eq_true', decide_eq_true_eq] at h
  rcases h with ((((h | h) | h) | h) | h)
  · simp [writeSlot, h]
  · simp [writeSlot, h]
  · simp [writeSlot, h]
  · simp [writeSlot, h]
  · rcases h with h | h
    · simp [writeSlot, h]
    · simp [writeSlot, h]

/-- len = 256 with otherwise valid arguments passes the argument checks
of writeSlot. -/
theorem writeSlotArgsReject_len256 :
    ∀ (cfg : Cfg) (st : St) (d : List Nat) (slot : Nat),
      st.initDone = true → 1 ≤ slot → slot ≤ cfg.lastSlot →
      writeSlotArgsReject cfg st (some d) 256 slot = false := by
  intro cfg st d slot hInit h1 h2
  unfold writeSlotArgsReject
  simp [hInit]
  omega

/-- C6: every argument error of writeSlot — not initialized, null data,
len < 1, len > 256, slot out of range — returns false with the state
(medium, trace and in-RAM index) completely unchanged; and len = 256 with
otherwise valid arguments is not rejected by the argument checks. -/
theorem c6_argument_errors :
    (∀ (cfg : Cfg) (rnd : Option Nat) (st : St) (slot : Nat)
        (data : Option (List Nat)) (len : Nat),
        writeSlotArgsReject cfg st data len slot = true →
        writeSlot cfg rnd st slot data len = (st, false)) ∧
    (∀ (cfg : Cfg) (st : St) (d : List Nat) (slot : Nat),
        st.initDone = true → 1 ≤ slot → slot ≤ cfg.lastSlot →
        writeSlotArgsReject cfg st (some d) 256 slot = false) :=
  ⟨writeSlot_rejected, writeSlotArgsReject_len256⟩

/-- C6 at a concrete input: slot 0 is rejected with the state unchanged,
and len = 256 passes the argument checks of the recovered memC10 state. -/
theorem c6_argument_errors_witness :
    writeSlot cfgT none stC10 0 (some [1]) 1 = (stC10, false) ∧
    writeSlotArgsReject cfgT stC10 (some [1]) 256 1 = false :=
  ⟨c6_argument_errors.1 cfgT none stC10 0 (some [1]) 1 (by decide),
   c6_argument_errors.2 cfgT stC10 [1] 1 (by decide) (by decide) (by decide)⟩

/-- After the space check, writeSlotCont fails exactly when the check or
the cluster allocation fails, and then leaves the state untouched. -/
theorem writeSlotCont_spec (cfg : Cfg) (rnd : Option Nat) (st : St) (slot : Nat)
    (dataList : List Nat) (len newAge free : Nat) (oldStart : Option Nat) :
    ((writeSlotCont cfg rnd st slot dataList len newAge free oldStart).2 = false ↔
      (free < len ∨
        allocClusters cfg st (writeCnt cfg len) (writeSeed cfg rnd) = none)) ∧
    ((writeSlotCont cfg rnd st slot dataList len newAge free oldStart).2 = false →
      (writeSlotCont cfg rnd st slot dataList len newAge free oldStart).1 = st) := by
  unfold writeSlotCont
  by_cases hf : free < len
  · simp [hf]
  · simp only [if_neg hf]
    cases halloc : allocClusters cfg st (writeCnt cfg len) (writeSeed cfg rnd) with
    | none => simp [hf]
    | some cls =>
      cases oldStart with
      | none => simp [hf]
      | some old => simp [hf]

/-- C4 amended: under valid arguments, writeSlot fails — leaving the
state untouched — exactly when the provision-credited free count is below
len or the cluster allocation fails.  The credit for an existing
generation is the old START cluster's stored length byte (old payload
length − 1) rounded up to a cluster multiple and capped at S_PROVISION,
as packaged in creditedFree. -/
theorem writeSlot_fails_iff :
    ∀ (cfg : Cfg) (rnd : Option Nat) (st : St) (slot : Nat) (d : List Nat) (len : Nat),
      st.initDone = true → 1 ≤ len → len ≤ 256 → 1 ≤ slot → slot ≤ cfg.lastSlot →
      (((writeSlot cfg rnd st slot (some d) len).2 = false ↔
          (creditedFree cfg st slot < len ∨
            allocClusters cfg st (writeCnt cfg len) (writeSeed cfg rnd) = none)) ∧
        ((writeSlot cfg rnd st slot (some d) len).2 = false →
          (writeSlot cfg rnd st slot (some d) len).1 = st)) := by
  intro cfg rnd st slot d len hInit hLen1 hLen2 hSlot1 hSlot2
  unfold writeSlot
  rw [if_neg (by simp [hInit]), if_neg (by simp), if_neg (by omega),
    if_neg (by omega), if_neg (by omega)]
  unfold creditedFree
  cases hfs : findStartCluser cfg st slot with
  | none =>
    simpa using writeSlotCont_spec cfg rnd st slot (Option.getD (some d) []) len
      0 (getFree cfg st) none
  | some old =>
    have hmin : (if cfg.sProvision <
          (st.mem (old * cfg.clusterSize + 3) + cfg.userData - 1) / cfg.userData
            * cfg.userData then
        getFree cfg st + cfg.sProvision
      else getFree cfg st +
          (st.mem (old * cfg.clusterSize + 3) + cfg.userData - 1) / cfg.userData
            * cfg.userData)
        = getFree cfg st +
          min ((st.mem (old * cfg.clusterSize + 3) + cfg.userData - 1) / cfg.userData
            * cfg.userData) cfg.sProvision := by
      split
      · omega
      · omega
    simp only []
    rw [hmin]
    simpa using writeSlotCont_spec cfg rnd st slot (Option.getD (some d) []) len
      _ _ (some old)

/-- C4 amended, as a claim: the failure condition of writeSlot under
valid arguments. -/
theorem c4_amended :
    ∀ (cfg : Cfg) (rnd : Option Nat) (st : St) (slot : Nat) (d : List Nat) (len : Nat),
      st.initDone = true → 1 ≤ len → len ≤ 256 → 1 ≤ slot → slot ≤ cfg.lastSlot →
      (((writeSlot cfg rnd st slot (some d) len).2 = false ↔
          (creditedFree cfg st slot < len ∨
            allocClusters cfg st (writeCnt cfg len) (writeSeed cfg rnd) = none)) ∧
        ((writeSlot cfg rnd st slot (some d) len).2 = false →
          (writeSlot cfg rnd st slot (some d) len).1 = st)) :=
  writeSlot_fails_iff

/-- C4 amended at a concrete input: the failure of the one-byte write to
the empty slot 8 in the memC4b state is equivalent to the allocation
failure (or missing space), and leaves the state unchanged. -/
theorem c4_amended_witness :
    (((writeSlot cfgT (some 1) stC4b 8 (some [0x55]) 1).2 = false ↔
        (creditedFree cfgT stC4b 8 < 1 ∨
          allocClusters cfgT stC4b (writeCnt cfgT 1) (writeSeed cfgT (some 1)) = none)) ∧
      ((writeSlot cfgT (some 1) stC4b 8 (some [0x55]) 1).2 = false →
        (writeSlot cfgT (some 1) stC4b 8 (some [0x55]) 1).1 = stC4b)) :=
  c4_amended cfgT (some 1) stC4b 8 [0x55] 1 (by decide) (by decide) (by decide)
    (by decide) (by decide)

/-- Replaying concatenated events is sequential replay. -/
theorem replayW_append :
    ∀ (l1 l2 : List WEvent) (mem : Nat → Nat),
      replayW mem (l1 ++ l2) = replayW (replayW mem l1) l2 := by
  intro l1
  induction l1 with
  | nil => intro l2 mem; rfl
  | cons e l1 ih =>
    intro l2 mem
    show replayW (updN mem e.1 e.2) (l1 ++ l2) = _
    rw [ih]
    rfl

/-- A block write appends one event per byte, at consecutive addresses
with the written values, and its medium is the replay of those events. -/
theorem nvmWriteBuf_trace :
    ∀ (l : List Nat) (st : St) (a : Nat),
      ∃ evs : List WEvent, (nvmWriteBuf st a l).trace = st.trace ++ evs ∧
        (∀ e ∈ evs, ∃ j, j < l.length ∧ e.1 = a + j ∧ e.2 = l.getD j 0) ∧
        (nvmWriteBuf st a l).mem = replayW st.mem evs := by
  intro l
  induction l with
  | nil => intro st a; exact ⟨[], by simp [nvmWriteBuf], by simp, rfl⟩
  | cons v rest ih =>
    intro st a
    obtain ⟨evs, htr, hmem, hrep⟩ := ih (nvmWrite st a v) (a + 1)
    refine ⟨(a, v) :: evs, ?_, ?_, ?_⟩
    · rw [show nvmWriteBuf st a (v :: rest) = nvmWriteBuf (nvmWrite st a v) (a + 1) rest
        from rfl, htr]
      simp [nvmWrite]
    · intro e he
      rcases List.mem_cons.mp he with rfl | he
      · exact ⟨0, by simp⟩
      · obtain ⟨j, hj, h1, h2⟩ := hmem e he
        refine ⟨j + 1, by simpa using hj, by omega, by simpa using h2⟩
    · rw [show nvmWriteBuf st a (v :: rest) = nvmWriteBuf (nvmWrite st a v) (a + 1) rest
        from rfl, hrep]
      rfl

/-- One iteration of the cluster-write loop appends exactly one block of
the shape blockShape for its cluster, with the block's conditional
leading invalidation governed by the value the cluster's end-marker byte
holds in the state just before the block; the resulting medium is the
replay of the block over the previous medium. -/
theorem writeOneCluster_block (cfg : Cfg) (slot : Nat) (dataList : List Nat)
    (len newAge cnt : Nat) (cls : List Nat) (i : Nat)
    (hC : 7 ≤ cfg.clusterSize) (hSlot : 1 ≤ slot) (st : St) :
    ∃ B, (writeOneCluster cfg st slot dataList len newAge cnt cls i).trace
        = st.trace ++ B ∧
      (writeOneCluster cfg st slot dataList len newAge cnt cls i).mem
        = replayW st.mem B ∧
      blockShape cfg (cls.getD i 0)
        (st.mem (cls.getD i 0 * cfg.clusterSize + cfg.clusterSize - 1)) B := by
  have hU : cfg.userData ≤ cfg.clusterSize - 5 := by
    unfold Cfg.userData; split <;> omega
  have hmark : cls.getD i 0 * cfg.clusterSize + cfg.clusterSize - 1
      = cls.getD i 0 * cfg.clusterSize + (cfg.clusterSize - 1) := by omega
  simp only [writeOneCluster]
  set flags := newAge ||| (if i = 0 then 0x20 else 0) |||
    (if i = cnt - 1 then 0x10 else 0) with hflags
  set link := (if i = cnt - 1 then slot else cls.getD (i + 1) 0) with hlink
  set lenF := (if i = 0 then len - 1
    else min (len - i * cfg.userData) cfg.userData) with hlenF
  set st0 := (if st.mem (cls.getD i 0 * cfg.clusterSize + cfg.clusterSize - 1)
        = cfg.endByte then
      nvmWrite st (cls.getD i 0 * cfg.clusterSize + cfg.clusterSize - 1) 0
    else st) with hst0
  obtain ⟨hdrEvs, hhdr, hhdrm, hhdrrep⟩ :=
    nvmWriteBuf_trace [slot, flags, link, lenF] st0
      (cls.getD i 0 * cfg.clusterSize)
  set st1 := nvmWriteBuf st0 (cls.getD i 0 * cfg.clusterSize)
    [slot, flags, link, lenF] with hst1
  set pl := (List.range (min (len - i * cfg.userData) cfg.userData)).map
    (fun j => dataList.getD (i * cfg.userData + j) 0) with hpl
  obtain ⟨pEvs, hp, hpm, hprep⟩ := nvmWriteBuf_trace pl st1
    (cls.getD i 0 * cfg.clusterSize + 4)
  set st2 := nvmWriteBuf st1 (cls.getD i 0 * cfg.clusterSize + 4) pl with hst2
  have hpre0 : st0.trace = st.trace ++
      (if st.mem (cls.getD i 0 * cfg.clusterSize + cfg.clusterSize - 1)
          = cfg.endByte then
        [(cls.getD i 0 * cfg.clusterSize + (cfg.clusterSize - 1), (0 : Nat))]
      else []) := by
    rw [hst0]
    by_cases hpre : st.mem (cls.getD i 0 * cfg.clusterSize + cfg.clusterSize - 1)
        = cfg.endByte
    · rw [if_pos hpre, if_pos hpre, hmark]
      rfl
    · rw [if_neg hpre, if_neg hpre]
      simp
  have hpre0m : st0.mem = replayW st.mem
      (if st.mem (cls.getD i 0 * cfg.clusterSize + cfg.clusterSize - 1)
          = cfg.endByte then
        [(cls.getD i 0 * cfg.clusterSize + (cfg.clusterSize - 1), (0 : Nat))]
      else []) := by
    rw [hst0]
    by_cases hpre : st.mem (cls.getD i 0 * cfg.clusterSize + cfg.clusterSize - 1)
        = cfg.endByte
    · rw [if_pos hpre, if_pos hpre]
      show updN st.mem (cls.getD i 0 * cfg.clusterSize + cfg.clusterSize - 1) 0
        = _
      rw [hmark]
      rfl
    · rw [if_neg hpre, if_neg hpre]
      rfl
  have hmid : ∀ e ∈ hdrEvs ++ pEvs, ∃ off, off < cfg.clusterSize - 1 ∧
      e.1 = cls.getD i 0 * cfg.clusterSize + off ∧ ¬(off = 0 ∧ e.2 = 0) := by
    intro e he
    rcases List.mem_append.mp he with he | he
    · obtain ⟨j, hj, h1, h2⟩ := hhdrm e he
      simp only [List.length_cons, List.length_nil] at hj
      refine ⟨j, by omega, h1, ?_⟩
      rintro ⟨rfl, hval⟩
      rw [h2] at hval
      simp at hval
      omega
    · obtain ⟨j, hj, h1, h2⟩ := hpm e he
      rw [hpl] at hj
      simp only [List.length_map, List.length_range] at hj
      have hmin : min (len - i * cfg.userData) cfg.userData ≤ cfg.userData :=
        min_le_right _ _
      exact ⟨4 + j, by omega, by omega, by omega⟩
  cases hcrc : cfg.crc with
  | none =>
    refine ⟨(if st.mem (cls.getD i 0 * cfg.clusterSize + cfg.clusterSize - 1)
          = cfg.endByte then
        [(cls.getD i 0 * cfg.clusterSize + (cfg.clusterSize - 1), (0 : Nat))]
      else [])
      ++ (hdrEvs ++ pEvs)
      ++ [(cls.getD i 0 * cfg.clusterSize + (cfg.clusterSize - 1), cfg.endByte)],
      ?_, ?_, ?_⟩
    · simp only [hcrc]
      show (nvmWrite st2 (cls.getD i 0 * cfg.clusterSize + cfg.clusterSize - 1)
        cfg.endByte).trace = _
      rw [show (nvmWrite st2 (cls.getD i 0 * cfg.clusterSize + cfg.clusterSize - 1)
          cfg.endByte).trace = st2.trace ++
          [(cls.getD i 0 * cfg.clusterSize + (cfg.clusterSize - 1), cfg.endByte)] by
        rw [hmark]; rfl]
      rw [hp, hhdr, hpre0]
      simp
    · simp only [hcrc]
      show (nvmWrite st2 (cls.getD i 0 * cfg.clusterSize + cfg.clusterSize - 1)
        cfg.endByte).mem = _
      calc (nvmWrite st2 (cls.getD i 0 * cfg.clusterSize + cfg.clusterSize - 1)
            cfg.endByte).mem
          = replayW st2.mem
            [(cls.getD i 0 * cfg.clusterSize + (cfg.clusterSize - 1),
              cfg.endByte)] := by
            show updN st2.mem
              (cls.getD i 0 * cfg.clusterSize + cfg.clusterSize - 1)
              cfg.endByte = _
            rw [hmark]
            rfl
        _ = replayW (replayW st1.mem pEvs)
            [(cls.getD i 0 * cfg.clusterSize + (cfg.clusterSize - 1),
              cfg.endByte)] := by rw [← hprep]
        _ = replayW (replayW (replayW st0.mem hdrEvs) pEvs)
            [(cls.getD i 0 * cfg.clusterSize + (cfg.clusterSize - 1),
              cfg.endByte)] := by rw [← hhdrrep]
        _ = replayW (replayW (replayW (replayW st.mem
              (if st.mem (cls.getD i 0 * cfg.clusterSize + cfg.clusterSize - 1)
                  = cfg.endByte then
                [(cls.getD i 0 * cfg.clusterSize + (cfg.clusterSize - 1),
                  (0 : Nat))]
              else [])) hdrEvs) pEvs)
            [(cls.getD i 0 * cfg.clusterSize + (cfg.clusterSize - 1),
              cfg.endByte)] := by rw [← hpre0m]
        _ = replayW st.mem
            ((if st.mem (cls.getD i 0 * cfg.clusterSize + cfg.clusterSize - 1)
                  = cfg.endByte then
                [(cls.getD i 0 * cfg.clusterSize + (cfg.clusterSize - 1),
                  (0 : Nat))]
              else [])
              ++ (hdrEvs ++ pEvs)
              ++ [(cls.getD i 0 * cfg.clusterSize + (cfg.clusterSize - 1),
                cfg.endByte)]) := by
            rw [replayW_append, replayW_append, replayW_append]
    · exact ⟨hdrEvs ++ pEvs, rfl, hmid⟩
  | some f =>
    refine ⟨(if st.mem (cls.getD i 0 * cfg.clusterSize + cfg.clusterSize - 1)
          = cfg.endByte then
        [(cls.getD i 0 * cfg.clusterSize + (cfg.clusterSize - 1), (0 : Nat))]
      else [])
      ++ (hdrEvs ++ pEvs ++
        [(cls.getD i 0 * cfg.clusterSize + cfg.clusterSize - 2,
          List.foldl f (List.foldl f 0 [slot, flags, link, lenF]) pl)])
      ++ [(cls.getD i 0 * cfg.clusterSize + (cfg.clusterSize - 1), cfg.endByte)],
      ?_, ?_, ?_⟩
    · simp only [hcrc]
      show (nvmWrite (nvmWrite st2 (cls.getD i 0 * cfg.clusterSize + cfg.clusterSize - 2)
          (List.foldl f (List.foldl f 0 [slot, flags, link, lenF]) pl))
          (cls.getD i 0 * cfg.clusterSize + cfg.clusterSize - 1) cfg.endByte).trace = _
      rw [show (nvmWrite (nvmWrite st2
            (cls.getD i 0 * cfg.clusterSize + cfg.clusterSize - 2)
            (List.foldl f (List.foldl f 0 [slot, flags, link, lenF]) pl))
          (cls.getD i 0 * cfg.clusterSize + cfg.clusterSize - 1) cfg.endByte).trace
          = st2.trace ++ [(cls.getD i 0 * cfg.clusterSize + cfg.clusterSize - 2,
              List.foldl f (List.foldl f 0 [slot, flags, link, lenF]) pl)]
            ++ [(cls.getD i 0 * cfg.clusterSize + (cfg.clusterSize - 1), cfg.endByte)] by
        rw [hmark]
        simp [nvmWrite]]
      rw [hp, hhdr, hpre0]
      simp
    · simp only [hcrc]
      show (nvmWrite (nvmWrite st2
          (cls.getD i 0 * cfg.clusterSize + cfg.clusterSize - 2)
          (List.foldl f (List.foldl f 0 [slot, flags, link, lenF]) pl))
          (cls.getD i 0 * cfg.clusterSize + cfg.clusterSize - 1)
          cfg.endByte).mem = _
      calc (nvmWrite (nvmWrite st2
            (cls.getD i 0 * cfg.clusterSize + cfg.clusterSize - 2)
            (List.foldl f (List.foldl f 0 [slot, flags, link, lenF]) pl))
            (cls.getD i 0 * cfg.clusterSize + cfg.clusterSize - 1)
            cfg.endByte).mem
          = replayW (replayW st2.mem
              [(cls.getD i 0 * cfg.clusterSize + cfg.clusterSize - 2,
                List.foldl f (List.foldl f 0 [slot, flags, link, lenF]) pl)])
            [(cls.getD i 0 * cfg.clusterSize + (cfg.clusterSize - 1),
              cfg.endByte)] := by
            show updN (updN st2.mem
              (cls.getD i 0 * cfg.clusterSize + cfg.clusterSize - 2)
              (List.foldl f (List.foldl f 0 [slot, flags, link, lenF]) pl))
              (cls.getD i 0 * cfg.clusterSize + cfg.clusterSize - 1)
              cfg.endByte = _
            rw [hmark]
            rfl
        _ = replayW (replayW (replayW st1.mem pEvs)
              [(cls.getD i 0 * cfg.clusterSize + cfg.clusterSize - 2,
                List.foldl f (List.foldl f 0 [slot, flags, link, lenF]) pl)])
            [(cls.getD i 0 * cfg.clusterSize + (cfg.clusterSize - 1),
              cfg.endByte)] := by rw [← hprep]
        _ = replayW (replayW (replayW (replayW st0.mem hdrEvs) pEvs)
              [(cls.getD i 0 * cfg.clusterSize + cfg.clusterSize - 2,
                List.foldl f (List.foldl f 0 [slot, flags, link, lenF]) pl)])
            [(cls.getD i 0 * cfg.clusterSize + (cfg.clusterSize - 1),
              cfg.endByte)] := by rw [← hhdrrep]
        _ = replayW (replayW (replayW (replayW (replayW st.mem
              (if st.mem (cls.getD i 0 * cfg.clusterSize + cfg.clusterSize - 1)
                  = cfg.endByte then
                [(cls.getD i 0 * cfg.clusterSize + (cfg.clusterSize - 1),
                  (0 : Nat))]
              else [])) hdrEvs) pEvs)
              [(cls.getD i 0 * cfg.clusterSize + cfg.clusterSize - 2,
                List.foldl f (List.foldl f 0 [slot, flags, link, lenF]) pl)])
            [(cls.getD i 0 * cfg.clusterSize + (cfg.clusterSize - 1),
              cfg.endByte)] := by rw [← hpre0m]
        _ = replayW st.mem
            ((if st.mem (cls.getD i 0 * cfg.clusterSize + cfg.clusterSize - 1)
                  = cfg.endByte then
                [(cls.getD i 0 * cfg.clusterSize + (cfg.clusterSize - 1),
                  (0 : Nat))]
              else [])
              ++ (hdrEvs ++ pEvs ++
                [(cls.getD i 0 * cfg.clusterSize + cfg.clusterSize - 2,
                  List.foldl f (List.foldl f 0 [slot, flags, link, lenF]) pl)])
              ++ [(cls.getD i 0 * cfg.clusterSize + (cfg.clusterSize - 1),
                cfg.endByte)]) := by
            rw [replayW_append, replayW_append, replayW_append, replayW_append]
    · refine ⟨hdrEvs ++ pEvs ++
        [(cls.getD i 0 * cfg.clusterSize + cfg.clusterSize - 2,
          List.foldl f (List.foldl f 0 [slot, flags, link, lenF]) pl)],
        rfl, ?_⟩
      intro e he
      rcases List.mem_append.mp he with he | he
      · exact hmid e he
      · rcases List.mem_singleton.mp he with rfl
        refine ⟨cfg.clusterSize - 2, by omega, by omega, by omega⟩

/-- The descending cluster-write loop appends one block per index, the
block of index i standing at position cnt-1-i (the start cluster's block
last); each block's shape is governed by the value its cluster's
end-marker byte holds just before the block (the replay of the earlier
blocks over the entry medium), and the loop's final medium is the replay
of all blocks. -/
theorem writeClustersLoop_blocks (cfg : Cfg) (slot : Nat) (dataList : List Nat)
    (len newAge cnt : Nat) (cls : List Nat)
    (hC : 7 ≤ cfg.clusterSize) (hSlot : 1 ≤ slot) :
    ∀ (k : Nat) (st : St), ∃ blocks : List (List WEvent),
      (writeClustersLoop cfg slot dataList len newAge cnt cls k st).trace
        = st.trace ++ blocks.flatten ∧
      blocks.length = k ∧
      (writeClustersLoop cfg slot dataList len newAge cnt cls k st).mem
        = replayW st.mem blocks.flatten ∧
      ∀ j, j < k → blockShape cfg (cls.getD (k - 1 - j) 0)
        (replayW st.mem ((blocks.take j).flatten)
          (cls.getD (k - 1 - j) 0 * cfg.clusterSize + cfg.clusterSize - 1))
        (blocks.getD j []) := by
  intro k
  induction k with
  | zero =>
    intro st
    exact ⟨[], by simp [writeClustersLoop], rfl, rfl, by omega⟩
  | succ n ih =>
    intro st
    obtain ⟨B, hB, hBmem, hshape⟩ :=
      writeOneCluster_block cfg slot dataList len newAge cnt cls n hC hSlot st
    obtain ⟨blocks, hbl, hlen, hmemrep, hsh⟩ :=
      ih (writeOneCluster cfg st slot dataList len newAge cnt cls n)
    refine ⟨B :: blocks, ?_, by simp [hlen], ?_, ?_⟩
    · show (writeClustersLoop cfg slot dataList len newAge cnt cls n
        (writeOneCluster cfg st slot dataList len newAge cnt cls n)).trace = _
      rw [hbl, hB]
      simp
    · show (writeClustersLoop cfg slot dataList len newAge cnt cls n
        (writeOneCluster cfg st slot dataList len newAge cnt cls n)).mem = _
      rw [hmemrep, hBmem,
        show (B :: blocks).flatten = B ++ blocks.flatten from rfl, replayW_append]
    · intro j hj
      cases j with
      | zero => simpa using hshape
      | succ m =>
        have hm := hsh m (by omega)
        have hidx : n + 1 - 1 - (m + 1) = n - 1 - m := by omega
        rw [hidx,
          show ((B :: blocks).take (m + 1)).flatten = B ++ (blocks.take m).flatten
            from rfl,
          replayW_append, ← hBmem]
        simpa using hm

/-- Every write event of the chain removal loop is a 0x00 at a cluster's
slot byte. -/
theorem clearClustersLoop_events (cfg : Cfg) :
    ∀ (fuel : Nat) (st : St) (cur : Nat),
      ∃ evs, (clearClustersLoop cfg st cur fuel).trace = st.trace ++ evs ∧
        ∀ e ∈ evs, e.2 = 0 ∧ e.1 % cfg.clusterSize = 0 := by
  intro fuel
  induction fuel with
  | zero =>
    intro st cur
    exact ⟨[], by simp [clearClustersLoop], by simp⟩
  | succ f ih =>
    intro st cur
    simp only [clearClustersLoop]
    split
    · obtain ⟨evs, h1, h2⟩ := ih
        { nvmWrite st (st.mem (cur * cfg.clusterSize + 2) * cfg.clusterSize) 0 with
          usedCluster := updB (nvmWrite st
            (st.mem (cur * cfg.clusterSize + 2) * cfg.clusterSize) 0).usedCluster
            (st.mem (cur * cfg.clusterSize + 2)) false }
        (st.mem (cur * cfg.clusterSize + 2))
      refine ⟨(st.mem (cur * cfg.clusterSize + 2) * cfg.clusterSize, 0) :: evs, ?_, ?_⟩
      · rw [h1]
        simp [nvmWrite]
      · intro e he
        rcases List.mem_cons.mp he with rfl | he
        · exact ⟨rfl, Nat.mul_mod_left _ _⟩
        · exact h2 e he
    · exact ⟨[], by simp, by simp⟩

/-- clearClusters appends only 0x00 writes at cluster slot bytes. -/
theorem clearClusters_events (cfg : Cfg) (st : St) (first : Nat) :
    ∃ evs, (clearClusters cfg st first).1.trace = st.trace ++ evs ∧
      ∀ e ∈ evs, e.2 = 0 ∧ e.1 % cfg.clusterSize = 0 := by
  unfold clearClusters
  obtain ⟨evs, h1, h2⟩ := clearClustersLoop_events cfg (256 / cfg.userData)
    { nvmWrite st (first * cfg.clusterSize) 0 with
      usedCluster := updB (nvmWrite st (first * cfg.clusterSize) 0).usedCluster
        first false }
    first
  refine ⟨(first * cfg.clusterSize, 0) :: evs, ?_, ?_⟩
  · rw [show (clearClustersLoop cfg _ first (256 / cfg.userData)).trace
      = _ ++ evs from h1]
    simp [nvmWrite]
  · intro e he
    rcases List.mem_cons.mp he with rfl | he
    · exact ⟨rfl, Nat.mul_mod_left _ _⟩
    · exact h2 e he

/-- Reading the updated point. -/
theorem updN_self (f : Nat → Nat) (i v : Nat) : updN f i v i = v := by
  simp [updN]

/-- Reading another point. -/
theorem updN_other (f : Nat → Nat) (i v j : Nat) (h : j ≠ i) : updN f i v j = f j := by
  simp [updN, h]

/-- Reading the updated bit. -/
theorem updB_self (f : Nat → Bool) (i : Nat) (v : Bool) : updB f i v i = v := by
  simp [updB]

/-- Reading another bit. -/
theorem updB_other (f : Nat → Bool) (i : Nat) (v : Bool) (j : Nat) (h : j ≠ i) :
    updB f i v j = f j := by
  simp [updB, h]

/-- Bytes of different clusters live at different addresses. -/
theorem cluster_ranges_disjoint (C c x o1 o2 : Nat) (h1 : o1 < C) (h2 : o2 < C)
    (hne : c ≠ x) : c * C + o1 ≠ x * C + o2 := by
  rcases Nat.lt_or_ge c x with h | h
  · have : (c + 1) * C ≤ x * C := Nat.mul_le_mul_right C h
    have : c * C + C ≤ x * C := by
      calc c * C + C = (c + 1) * C := by ring
        _ ≤ x * C := this
    omega
  · have hlt : x < c := lt_of_le_of_ne h (Ne.symm hne)
    have : (x + 1) * C ≤ c * C := Nat.mul_le_mul_right C hlt
    have : x * C + C ≤ c * C := by
      calc x * C + C = (x + 1) * C := by ring
        _ ≤ c * C := this
    omega

/-- Pass-1 validity of a cluster only depends on the bytes of that
cluster. -/
theorem clusterValid_congr (cfg : Cfg) (mem1 mem2 : Nat → Nat) (c : Nat)
    (hC : 7 ≤ cfg.clusterSize)
    (h : ∀ off, off < cfg.clusterSize →
      mem1 (c * cfg.clusterSize + off) = mem2 (c * cfg.clusterSize + off)) :
    clusterValid cfg mem1 c = clusterValid cfg mem2 c := by
  have hU : cfg.userData ≤ cfg.clusterSize - 5 := by
    unfold Cfg.userData; split <;> omega
  have h0 : mem1 (c * cfg.clusterSize) = mem2 (c * cfg.clusterSize) := by
    have := h 0 (by omega); simpa using this
  have hend : mem1 (c * cfg.clusterSize + cfg.clusterSize - 1)
      = mem2 (c * cfg.clusterSize + cfg.clusterSize - 1) := by
    have := h (cfg.clusterSize - 1) (by omega)
    have ha : c * cfg.clusterSize + (cfg.clusterSize - 1)
        = c * cfg.clusterSize + cfg.clusterSize - 1 := by omega
    rwa [ha] at this
  have h1 : mem1 (c * cfg.clusterSize + 1) = mem2 (c * cfg.clusterSize + 1) :=
    h 1 (by omega)
  have h2 : mem1 (c * cfg.clusterSize + 2) = mem2 (c * cfg.clusterSize + 2) :=
    h 2 (by omega)
  have h3 : mem1 (c * cfg.clusterSize + 3) = mem2 (c * cfg.clusterSize + 3) :=
    h 3 (by omega)
  have hcb : mem1 (c * cfg.clusterSize + cfg.clusterSize - 2)
      = mem2 (c * cfg.clusterSize + cfg.clusterSize - 2) := by
    have := h (cfg.clusterSize - 2) (by omega)
    have ha : c * cfg.clusterSize + (cfg.clusterSize - 2)
        = c * cfg.clusterSize + cfg.clusterSize - 2 := by omega
    rwa [ha] at this
  simp only [clusterValid]
  rw [h0, hend, h1, h2, h3, hcb]
  cases cfg.crc with
  | none => rfl
  | some f =>
    have hbuf : ∀ plen, plen ≤ cfg.userData →
        readBufPure mem1 (c * cfg.clusterSize + 4) plen
          = readBufPure mem2 (c * cfg.clusterSize + 4) plen := by
      intro plen hplen
      unfold readBufPure
      refine List.map_congr_left ?_
      intro a ha
      rw [List.mem_range] at ha
      have := h (4 + a) (by omega)
      have haddr : c * cfg.clusterSize + (4 + a)
          = c * cfg.clusterSize + 4 + a := by omega
      rwa [haddr] at this
    split
    · rfl
    · split
      · rfl
      · dsimp only
        split
        · rfl
        · rename_i hguard
          by_cases hfirst : (mem2 (c * cfg.clusterSize + 1) &&& 32) ≠ 0
          · rw [if_pos hfirst, hbuf _ (min_le_right _ _)]
          · rw [if_neg hfirst]
            have hle : mem2 (c * cfg.clusterSize + 3) ≤ cfg.userData := by
              by_contra hgt
              exact hguard ⟨hfirst, by omega⟩
            rw [hbuf _ hle]

/-- A valid cluster's slot byte is in the slot range. -/
theorem clusterValid_slot_range (cfg : Cfg) (mem : Nat → Nat) (c : Nat)
    (h : clusterValid cfg mem c = true) :
    1 ≤ mem (c * cfg.clusterSize) ∧ mem (c * cfg.clusterSize) ≤ cfg.lastSlot := by
  unfold clusterValid at h
  by_cases hr : mem (c * cfg.clusterSize) < 1 ∨ cfg.lastSlot < mem (c * cfg.clusterSize)
  · rw [if_pos hr] at h
    exact absurd h (by simp)
  · omega

/-- Memory after a single-byte write. -/
theorem nvmWrite_mem (st : St) (a v x : Nat) :
    (nvmWrite st a v).mem x = if x = a then v else st.mem x := rfl

/-- Memory after a block write. -/
theorem nvmWriteBuf_mem :
    ∀ (l : List Nat) (st : St) (a x : Nat),
      (nvmWriteBuf st a l).mem x
        = if a ≤ x ∧ x < a + l.length then l.getD (x - a) 0 else st.mem x := by
  intro l
  induction l with
  | nil =>
    intro st a x
    rw [if_neg (by simp)]
    rfl
  | cons v rest ih =>
    intro st a x
    rw [show nvmWriteBuf st a (v :: rest) = nvmWriteBuf (nvmWrite st a v) (a + 1) rest
      from rfl, ih]
    by_cases hx : x = a
    · subst hx
      rw [if_neg (by omega), if_pos (by simp)]
      simp [nvmWrite_mem, updN_self, nvmWrite]
    · by_cases hin : a + 1 ≤ x ∧ x < a + 1 + rest.length
      · rw [if_pos hin, if_pos (by simp only [List.length_cons]; omega)]
        have hsub : x - a = (x - (a + 1)) + 1 := by omega
        rw [hsub]
        simp
      · rw [if_neg hin, if_neg (by simp only [List.length_cons]; omega),
          nvmWrite_mem, if_neg hx]

/-- usedCluster after a block write is untouched. -/
theorem nvmWriteBuf_used :
    ∀ (l : List Nat) (st : St) (a : Nat),
      (nvmWriteBuf st a l).usedCluster = st.usedCluster := by
  intro l
  induction l with
  | nil => intro st a; rfl
  | cons v rest ih => intro st a; rw [show nvmWriteBuf st a (v :: rest)
      = nvmWriteBuf (nvmWrite st a v) (a + 1) rest from rfl, ih]; rfl

/-- Zeroing the slot byte of a cluster and clearing its bit preserves
index faithfulness. -/
theorem zero_cluster_faithful (cfg : Cfg) (st : St) (x : Nat)
    (hC : 7 ≤ cfg.clusterSize) (hf : indexFaithful cfg st) :
    indexFaithful cfg { nvmWrite st (x * cfg.clusterSize) 0 with
      usedCluster := updB (nvmWrite st (x * cfg.clusterSize) 0).usedCluster x false } := by
  intro j hj
  show updB st.usedCluster x false j
    = clusterValid cfg (updN st.mem (x * cfg.clusterSize) 0) j
  by_cases hjx : j = x
  · subst hjx
    rw [updB_self]
    have hb : updN st.mem (j * cfg.clusterSize) 0 (j * cfg.clusterSize) = 0 :=
      updN_self _ _ _
    symm
    simp only [clusterValid, hb]
    rw [if_pos (by omega)]
  · rw [updB_other _ _ _ _ hjx, hf j hj]
    apply clusterValid_congr cfg st.mem _ j hC
    intro off hoff
    rw [updN_other]
    have := cluster_ranges_disjoint cfg.clusterSize j x off 0 hoff (by omega) hjx
    omega

/-- clearCluster preserves index faithfulness. -/
theorem clearCluster_faithful (cfg : Cfg) (st : St) (x : Nat)
    (hC : 7 ≤ cfg.clusterSize) (hf : indexFaithful cfg st) :
    indexFaithful cfg (clearCluster cfg st x) :=
  zero_cluster_faithful cfg st x hC hf

/-- The pass-2 removal fold preserves index faithfulness. -/
theorem invalidate_fold_faithful (cfg : Cfg) (scan : SlotScan) (found : Bool)
    (valid : Nat → Bool) (hC : 7 ≤ cfg.clusterSize) :
    ∀ (L : List Nat) (st : St), indexFaithful cfg st →
      indexFaithful cfg (L.foldl (invalidateStep cfg scan found valid) st) := by
  intro L
  induction L with
  | nil => intro st hf; exact hf
  | cons c L ih =>
    intro st hf
    rw [List.foldl_cons]
    apply ih
    unfold invalidateStep
    split
    · exact hf
    · split
      · exact hf
      · exact clearCluster_faithful cfg st c hC hf

/-- One pass-2 slot preserves index faithfulness. -/
theorem pass2Slot_faithful (cfg : Cfg) (slot : Nat) (hC : 7 ≤ cfg.clusterSize)
    (st : St) (hf : indexFaithful cfg st) :
    indexFaithful cfg (pass2Slot cfg st slot) := by
  simp only [pass2Slot]
  split
  · exact hf
  · split
    · exact invalidate_fold_faithful cfg _ _ _ hC (List.range cfg.clusterCnt) st hf
    · exact invalidate_fold_faithful cfg _ _ _ hC (List.range cfg.clusterCnt) st hf

/-- The pass-2 slot fold preserves index faithfulness. -/
theorem pass2_fold_faithful (cfg : Cfg) (hC : 7 ≤ cfg.clusterSize) :
    ∀ (L : List Nat) (st : St), indexFaithful cfg st →
      indexFaithful cfg (L.foldl (pass2Slot cfg) st) := by
  intro L
  induction L with
  | nil => intro st hf; exact hf
  | cons s L ih =>
    intro st hf
    rw [List.foldl_cons]
    exact ih _ (pass2Slot_faithful cfg s hC st hf)

/-- One pass-1 step as an equation. -/
theorem pass1Step_eq (cfg : Cfg) (st : St) (c : Nat) :
    pass1Step cfg st c
      = if clusterValid cfg st.mem c = true then
          { st with usedCluster := updB st.usedCluster c true,
                    slotAvail := setSlotBitF cfg st.slotAvail
                      (st.mem (c * cfg.clusterSize)) }
        else st := rfl

/-- The fields of the pass-1 fold: the medium, trace and init flag are
untouched, the used bits become exactly the pass-1 validity for scanned
clusters, and a slot bit is set exactly for the slot bytes of scanned
valid clusters. -/
theorem pass1_spec (cfg : Cfg) (st : St) :
    ∀ n, (((List.range n).foldl (pass1Step cfg) st).mem = st.mem) ∧
      (((List.range n).foldl (pass1Step cfg) st).trace = st.trace) ∧
      (((List.range n).foldl (pass1Step cfg) st).initDone = st.initDone) ∧
      (∀ j, ((List.range n).foldl (pass1Step cfg) st).usedCluster j
        = if j < n ∧ clusterValid cfg st.mem j = true then true
          else st.usedCluster j) ∧
      (∀ b, (((List.range n).foldl (pass1Step cfg) st).slotAvail b = true ↔
        (st.slotAvail b = true ∨ ∃ c, c < n ∧ clusterValid cfg st.mem c = true ∧
          st.mem (c * cfg.clusterSize) - 1 = b))) := by
  intro n
  induction n with
  | zero =>
    refine ⟨rfl, rfl, rfl, fun j => by simp, fun b => by simp⟩
  | succ m ih =>
    obtain ⟨hmem, htr, hinit, hused, havail⟩ := ih
    rw [List.range_succ, List.foldl_append, List.foldl_cons, List.foldl_nil,
      pass1Step_eq, hmem]
    by_cases hv : clusterValid cfg st.mem m = true
    · rw [if_pos hv]
      obtain ⟨hs1, hs2⟩ := clusterValid_slot_range cfg st.mem m hv
      refine ⟨?_, ?_, ?_, ?_, ?_⟩
      · exact rfl
      · exact htr
      · exact hinit
      · intro j
        dsimp only
        by_cases hjm : j = m
        · subst hjm
          rw [updB_self, if_pos ⟨by omega, hv⟩]
        · rw [updB_other _ _ _ _ hjm, hused j]
          by_cases hj : j < m ∧ clusterValid cfg st.mem j = true
          · rw [if_pos hj, if_pos ⟨by omega, hj.2⟩]
          · have hj1 : ¬(j < m + 1 ∧ clusterValid cfg st.mem j = true) := by
              rintro ⟨hjm1, hjv⟩
              exact hj ⟨by omega, hjv⟩
            rw [if_neg hj, if_neg hj1]
      · intro b
        dsimp only
        unfold setSlotBitF
        rw [if_pos ⟨hs1, hs2⟩]
        by_cases hb : b = st.mem (m * cfg.clusterSize) - 1
        · subst hb
          rw [updB_self]
          simp only [true_iff]
          right
          exact ⟨m, by omega, hv, rfl⟩
        · rw [updB_other _ _ _ _ hb, havail b]
          constructor
          · rintro (h | ⟨c, hc1, hc2, hc3⟩)
            · exact Or.inl h
            · exact Or.inr ⟨c, by omega, hc2, hc3⟩
          · rintro (h | ⟨c, hc1, hc2, hc3⟩)
            · exact Or.inl h
            · refine Or.inr ⟨c, ?_, hc2, hc3⟩
              rcases Nat.lt_succ_iff_lt_or_eq.mp hc1 with h | h
              · exact h
              · subst h; exact absurd hc3.symm hb
    · rw [if_neg hv]
      refine ⟨hmem, htr, hinit, ?_, ?_⟩
      · intro j
        rw [hused j]
        by_cases hj : j < m ∧ clusterValid cfg st.mem j = true
        · rw [if_pos hj, if_pos ⟨by omega, hj.2⟩]
        · rw [if_neg hj, if_neg ?_]
          rintro ⟨hjm, hjv⟩
          rcases Nat.lt_succ_iff_lt_or_eq.mp hjm with h | h
          · exact hj ⟨h, hjv⟩
          · subst h; exact hv hjv
      · intro b
        rw [havail b]
        constructor
        · rintro (h | ⟨c, hc1, hc2, hc3⟩)
          · exact Or.inl h
          · exact Or.inr ⟨c, by omega, hc2, hc3⟩
        · rintro (h | ⟨c, hc1, hc2, hc3⟩)
          · exact Or.inl h
          · refine Or.inr ⟨c, ?_, hc2, hc3⟩
            rcases Nat.lt_succ_iff_lt_or_eq.mp hc1 with h | h
            · exact h
            · subst h; exact absurd hc2 hv

/-- begin on a not yet initialized object is pass 1, pass 2 and setting
the init flag, and it returns true. -/
theorem begin_eq (cfg : Cfg) (st0 : St) (h : st0.initDone = false) :
    begin cfg st0
      = ({ (List.range' 1 cfg.lastSlot).foldl (pass2Slot cfg) (pass1 cfg st0) with
          initDone := true }, true) := by
  unfold begin
  rw [if_neg (by simp [h])]

/-- usedCluster is untouched by a single-byte write. -/
theorem nvmWrite_used (st : St) (a v : Nat) :
    (nvmWrite st a v).usedCluster = st.usedCluster := rfl

/-- The in-RAM index after one cluster write: the bit of the written
cluster is set. -/
theorem writeOneCluster_used (cfg : Cfg) (st : St) (slot : Nat) (d : List Nat)
    (len newAge cnt : Nat) (cls : List Nat) (i : Nat) :
    (writeOneCluster cfg st slot d len newAge cnt cls i).usedCluster
      = updB st.usedCluster (cls.getD i 0) true := by
  simp only [writeOneCluster]
  cases hcrc : cfg.crc <;>
    (simp only [hcrc, nvmWrite_used, nvmWriteBuf_used]; split <;> rfl)

/-- One cluster write leaves every byte outside the written cluster
unchanged. -/
theorem writeOneCluster_frame (cfg : Cfg) (st : St) (slot : Nat) (d : List Nat)
    (len newAge cnt : Nat) (cls : List Nat) (i : Nat) (hC : 7 ≤ cfg.clusterSize)
    (x : Nat)
    (hx : ∀ off, off < cfg.clusterSize → x ≠ cls.getD i 0 * cfg.clusterSize + off) :
    (writeOneCluster cfg st slot d len newAge cnt cls i).mem x = st.mem x := by
  have hU5 : cfg.userData + 5 ≤ cfg.clusterSize := by
    unfold Cfg.userData; split <;> omega
  have hmin : min (len - i * cfg.userData) cfg.userData ≤ cfg.userData :=
    Nat.min_le_right _ _
  have hx1 : x ≠ cls.getD i 0 * cfg.clusterSize + cfg.clusterSize - 1 := by
    have := hx (cfg.clusterSize - 1) (by omega); omega
  have hx2 : x ≠ cls.getD i 0 * cfg.clusterSize + cfg.clusterSize - 2 := by
    have := hx (cfg.clusterSize - 2) (by omega); omega
  simp only [writeOneCluster]
  cases hcrc : cfg.crc with
  | none =>
    simp only [hcrc, nvmWrite_mem, nvmWriteBuf_mem, List.length_cons,
      List.length_nil, List.length_map, List.length_range]
    rw [if_neg hx1]
    split
    · rename_i h
      exfalso
      have := hx (x - cls.getD i 0 * cfg.clusterSize) (by omega)
      omega
    · split
      · rename_i h
        exfalso
        have := hx (x - cls.getD i 0 * cfg.clusterSize) (by omega)
        omega
      · split
        · rw [nvmWrite_mem, if_neg hx1]
        · rfl
  | some f =>
    simp only [hcrc, nvmWrite_mem, nvmWriteBuf_mem, List.length_cons,
      List.length_nil, List.length_map, List.length_range]
    rw [if_neg hx1, if_neg hx2]
    split
    · rename_i h
      exfalso
      have := hx (x - cls.getD i 0 * cfg.clusterSize) (by omega)
      omega
    · split
      · rename_i h
        exfalso
        have := hx (x - cls.getD i 0 * cfg.clusterSize) (by omega)
        omega
      · split
        · rw [nvmWrite_mem, if_neg hx1]
        · rfl

/-- The header byte at a given offset 0..3 of the written cluster.  The
conclusion is stated for all four offsets at once through the header
list. -/
theorem writeOneCluster_hdr (cfg : Cfg) (st : St) (slot : Nat) (d : List Nat)
    (len newAge cnt : Nat) (cls : List Nat) (i : Nat) (hC : 7 ≤ cfg.clusterSize)
    (k : Nat) (hk : k < 4) :
    (writeOneCluster cfg st slot d len newAge cnt cls i).mem
      (cls.getD i 0 * cfg.clusterSize + k)
      = [slot,
         newAge ||| (if i = 0 then 0x20 else 0) ||| (if i = cnt - 1 then 0x10 else 0),
         if i = cnt - 1 then slot else cls.getD (i + 1) 0,
         if i = 0 then len - 1
           else min (len - i * cfg.userData) cfg.userData].getD k 0 := by
  simp only [writeOneCluster]
  have hidx : cls.getD i 0 * cfg.clusterSize + k - cls.getD i 0 * cfg.clusterSize
      = k := by omega
  cases hcrc : cfg.crc with
  | none =>
    simp only [hcrc, nvmWrite_mem, nvmWriteBuf_mem, List.length_cons,
      List.length_nil, List.length_map, List.length_range]
    rw [if_neg (show ¬(cls.getD i 0 * cfg.clusterSize + k
        = cls.getD i 0 * cfg.clusterSize + cfg.clusterSize - 1) by omega)]
    rw [if_neg (show ¬(cls.getD i 0 * cfg.clusterSize + 4
          ≤ cls.getD i 0 * cfg.clusterSize + k ∧
        cls.getD i 0 * cfg.clusterSize + k < cls.getD i 0 * cfg.clusterSize + 4
          + min (len - i * cfg.userData) cfg.userData) by omega)]
    rw [if_pos (show cls.getD i 0 * cfg.clusterSize
          ≤ cls.getD i 0 * cfg.clusterSize + k ∧
        cls.getD i 0 * cfg.clusterSize + k
          < cls.getD i 0 * cfg.clusterSize + (0 + 1 + 1 + 1 + 1) by omega)]
    rw [hidx]
  | some f =>
    simp only [hcrc, nvmWrite_mem, nvmWriteBuf_mem, List.length_cons,
      List.length_nil, List.length_map, List.length_range]
    rw [if_neg (show ¬(cls.getD i 0 * cfg.clusterSize + k
        = cls.getD i 0 * cfg.clusterSize + cfg.clusterSize - 1) by omega)]
    rw [if_neg (show ¬(cls.getD i 0 * cfg.clusterSize + k
        = cls.getD i 0 * cfg.clusterSize + cfg.clusterSize - 2) by omega)]
    rw [if_neg (show ¬(cls.getD i 0 * cfg.clusterSize + 4
          ≤ cls.getD i 0 * cfg.clusterSize + k ∧
        cls.getD i 0 * cfg.clusterSize + k < cls.getD i 0 * cfg.clusterSize + 4
          + min (len - i * cfg.userData) cfg.userData) by omega)]
    rw [if_pos (show cls.getD i 0 * cfg.clusterSize
          ≤ cls.getD i 0 * cfg.clusterSize + k ∧
        cls.getD i 0 * cfg.clusterSize + k
          < cls.getD i 0 * cfg.clusterSize + (0 + 1 + 1 + 1 + 1) by omega)]
    rw [hidx]

/-- The payload bytes of the written cluster read back the written user
data. -/
theorem writeOneCluster_payload (cfg : Cfg) (st : St) (slot : Nat) (d : List Nat)
    (len newAge cnt : Nat) (cls : List Nat) (i : Nat) (hC : 7 ≤ cfg.clusterSize)
    (j : Nat) (hj : j < min (len - i * cfg.userData) cfg.userData) :
    (writeOneCluster cfg st slot d len newAge cnt cls i).mem
      (cls.getD i 0 * cfg.clusterSize + 4 + j)
      = d.getD (i * cfg.userData + j) 0 := by
  have hU5 : cfg.userData + 5 ≤ cfg.clusterSize := by
    unfold Cfg.userData; split <;> omega
  have hmin : min (len - i * cfg.userData) cfg.userData ≤ cfg.userData :=
    Nat.min_le_right _ _
  have hidx : cls.getD i 0 * cfg.clusterSize + 4 + j
      - (cls.getD i 0 * cfg.clusterSize + 4) = j := by omega
  simp only [writeOneCluster]
  cases hcrc : cfg.crc with
  | none =>
    simp only [hcrc, nvmWrite_mem, nvmWriteBuf_mem, List.length_cons,
      List.length_nil, List.length_map, List.length_range]
    rw [if_neg (show ¬(cls.getD i 0 * cfg.clusterSize + 4 + j
        = cls.getD i 0 * cfg.clusterSize + cfg.clusterSize - 1) by omega)]
    rw [if_pos (show cls.getD i 0 * cfg.clusterSize + 4
          ≤ cls.getD i 0 * cfg.clusterSize + 4 + j ∧
        cls.getD i 0 * cfg.clusterSize + 4 + j < cls.getD i 0 * cfg.clusterSize + 4
          + min (len - i * cfg.userData) cfg.userData by omega)]
    rw [hidx, List.getD_eq_getElem?_getD, List.getElem?_map, List.getElem?_range hj]
    rfl
  | some f =>
    have hUc : cfg.userData = cfg.clusterSize - 6 := by
      simp [Cfg.userData, hcrc]
    simp only [hcrc, nvmWrite_mem, nvmWriteBuf_mem, List.length_cons,
      List.length_nil, List.length_map, List.length_range]
    rw [if_neg (show ¬(cls.getD i 0 * cfg.clusterSize + 4 + j
        = cls.getD i 0 * cfg.clusterSize + cfg.clusterSize - 1) by omega)]
    rw [if_neg (show ¬(cls.getD i 0 * cfg.clusterSize + 4 + j
        = cls.getD i 0 * cfg.clusterSize + cfg.clusterSize - 2) by omega)]
    rw [if_pos (show cls.getD i 0 * cfg.clusterSize + 4
          ≤ cls.getD i 0 * cfg.clusterSize + 4 + j ∧
        cls.getD i 0 * cfg.clusterSize + 4 + j < cls.getD i 0 * cfg.clusterSize + 4
          + min (len - i * cfg.userData) cfg.userData by omega)]
    rw [hidx, List.getD_eq_getElem?_getD, List.getElem?_map, List.getElem?_range hj]
    rfl

/-- In CRC mode the CRC byte of the written cluster reads the CRC of the
header bytes followed by the payload bytes. -/
theorem writeOneCluster_crcByte (cfg : Cfg) (st : St) (slot : Nat) (d : List Nat)
    (len newAge cnt : Nat) (cls : List Nat) (i : Nat) (hC : 7 ≤ cfg.clusterSize)
    (f : Nat → Nat → Nat) (hcrc : cfg.crc = some f) :
    (writeOneCluster cfg st slot d len newAge cnt cls i).mem
      (cls.getD i 0 * cfg.clusterSize + cfg.clusterSize - 2)
      = List.foldl f (List.foldl f 0
          [slot,
           newAge ||| (if i = 0 then 0x20 else 0) ||| (if i = cnt - 1 then 0x10 else 0),
           if i = cnt - 1 then slot else cls.getD (i + 1) 0,
           if i = 0 then len - 1 else min (len - i * cfg.userData) cfg.userData])
          ((List.range (min (len - i * cfg.userData) cfg.userData)).map
            (fun j => d.getD (i * cfg.userData + j) 0)) := by
  simp only [writeOneCluster]
  simp only [hcrc, nvmWrite_mem, nvmWriteBuf_mem]
  rw [if_neg (show ¬(cls.getD i 0 * cfg.clusterSize + cfg.clusterSize - 2
      = cls.getD i 0 * cfg.clusterSize + cfg.clusterSize - 1) by omega)]
  rw [if_pos trivial]

/-- The end-marker byte of the written cluster reads S_END_BYTE. -/
theorem writeOneCluster_endB (cfg : Cfg) (st : St) (slot : Nat) (d : List Nat)
    (len newAge cnt : Nat) (cls : List Nat) (i : Nat) :
    (writeOneCluster cfg st slot d len newAge cnt cls i).mem
      (cls.getD i 0 * cfg.clusterSize + cfg.clusterSize - 1) = cfg.endByte := by
  simp only [writeOneCluster]
  cases hcrc : cfg.crc <;>
    (simp only [hcrc, nvmWrite_mem]; rw [if_pos trivial])

/-- The age value writeSlot derives from an old flag byte is one of the
four age encodings. -/
theorem newAge_cases (b : Nat) :
    ((((b &&& 0xC0) >>> 6) + 1) <<< 6) &&& 0xC0 = 0 ∨
    ((((b &&& 0xC0) >>> 6) + 1) <<< 6) &&& 0xC0 = 64 ∨
    ((((b &&& 0xC0) >>> 6) + 1) <<< 6) &&& 0xC0 = 128 ∨
    ((((b &&& 0xC0) >>> 6) + 1) <<< 6) &&& 0xC0 = 192 := by
  have hle : b &&& 0xC0 ≤ 0xC0 := Nat.and_le_right
  have hdiv : (b &&& 0xC0) >>> 6 = (b &&& 0xC0) / 64 := by
    rw [Nat.shiftRight_eq_div_pow]
  have ha : (b &&& 0xC0) >>> 6 ≤ 3 := by
    rw [hdiv]; omega
  set a := (b &&& 0xC0) >>> 6 with hav
  interval_cases a <;> decide

/-- The masks of a flag byte assembled from an age encoding, a start bit
and a last bit. -/
theorem flags_and_masks (na s l : Nat)
    (hna : na = 0 ∨ na = 64 ∨ na = 128 ∨ na = 192)
    (hs : s = 0 ∨ s = 32) (hl : l = 0 ∨ l = 16) :
    ((na ||| s ||| l) &&& 0x20 = s) ∧ ((na ||| s ||| l) &&& 0x10 = l) ∧
      ((na ||| s ||| l) &&& 0xC0 = na) := by
  rcases hna with h | h | h | h <;> rcases hs with h2 | h2 <;>
    rcases hl with h3 | h3 <;> subst h <;> subst h2 <;> subst h3 <;>
    exact ⟨by decide, by decide, by decide⟩

/-- The cluster written by one iteration of the write loop passes the
pass-1 validity test. -/
theorem writeOneCluster_valid (cfg : Cfg) (st : St) (slot : Nat) (d : List Nat)
    (len newAge cnt : Nat) (cls : List Nat) (i : Nat)
    (hC : 7 ≤ cfg.clusterSize) (hs1 : 1 ≤ slot) (hs2 : slot ≤ cfg.lastSlot)
    (hlen : 1 ≤ len)
    (hna : newAge = 0 ∨ newAge = 64 ∨ newAge = 128 ∨ newAge = 192) :
    clusterValid cfg (writeOneCluster cfg st slot d len newAge cnt cls i).mem
      (cls.getD i 0) = true := by
  have hb0 := writeOneCluster_hdr cfg st slot d len newAge cnt cls i hC 0 (by omega)
  have hb1 := writeOneCluster_hdr cfg st slot d len newAge cnt cls i hC 1 (by omega)
  have hb2 := writeOneCluster_hdr cfg st slot d len newAge cnt cls i hC 2 (by omega)
  have hb3 := writeOneCluster_hdr cfg st slot d len newAge cnt cls i hC 3 (by omega)
  simp only [List.getD_cons_zero, List.getD_cons_succ] at hb0 hb1 hb2 hb3
  rw [Nat.add_zero] at hb0
  have hend := writeOneCluster_endB cfg st slot d len newAge cnt cls i
  simp only [clusterValid, hb0, hb1, hb2, hb3, hend]
  rw [if_neg (show ¬(slot < 1 ∨ cfg.lastSlot < slot) by omega)]
  rw [if_neg (show ¬(cfg.endByte ≠ cfg.endByte) from fun h => h rfl)]
  cases hcrc : cfg.crc with
  | none => rfl
  | some f =>
    simp only [hcrc]
    have hmask := flags_and_masks newAge (if i = 0 then 32 else 0)
      (if i = cnt - 1 then 16 else 0) hna
      (by split <;> simp) (by split <;> simp)
    have hcb := writeOneCluster_crcByte cfg st slot d len newAge cnt cls i hC f hcrc
    have hread : readBufPure (writeOneCluster cfg st slot d len newAge cnt cls i).mem
        (cls.getD i 0 * cfg.clusterSize + 4)
        (min (len - i * cfg.userData) cfg.userData)
          = (List.range (min (len - i * cfg.userData) cfg.userData)).map
            (fun j => d.getD (i * cfg.userData + j) 0) := by
      unfold readBufPure
      apply List.map_congr_left
      intro j hj
      rw [List.mem_range] at hj
      exact writeOneCluster_payload cfg st slot d len newAge cnt cls i hC j hj
    by_cases hi : i = 0
    · have hstart : (newAge ||| (if i = 0 then 0x20 else 0) |||
          (if i = cnt - 1 then 0x10 else 0)) &&& 0x20 = 32 := by
        rw [hmask.1, if_pos hi]
      have hfirst : ((newAge ||| (if i = 0 then 0x20 else 0) |||
          (if i = cnt - 1 then 0x10 else 0)) &&& 0x20) ≠ 0 := by
        rw [hstart]; decide
      rw [if_neg (show ¬(¬((newAge ||| (if i = 0 then 0x20 else 0) |||
            (if i = cnt - 1 then 0x10 else 0)) &&& 0x20 ≠ 0) ∧
          cfg.userData < (if i = 0 then len - 1
            else min (len - i * cfg.userData) cfg.userData))
        from fun hcon => hcon.1 hfirst)]
      rw [if_pos (show ((newAge ||| (if i = 0 then 0x20 else 0) |||
          (if i = cnt - 1 then 0x10 else 0)) &&& 0x20) ≠ 0 from hfirst)]
      rw [hcb]
      have hpl2 : min ((if i = 0 then len - 1
            else min (len - i * cfg.userData) cfg.userData) + 1) cfg.userData
          = min (len - i * cfg.userData) cfg.userData := by
        rw [if_pos hi, hi]
        congr 1
        omega
      rw [hpl2, hread]
      simp
    · have hstart : (newAge ||| (if i = 0 then 0x20 else 0) |||
          (if i = cnt - 1 then 0x10 else 0)) &&& 0x20 = 0 := by
        rw [hmask.1, if_neg hi]
      have hnotfirst : ¬(((newAge ||| (if i = 0 then 0x20 else 0) |||
          (if i = cnt - 1 then 0x10 else 0)) &&& 0x20) ≠ 0) := by
        rw [hstart]; simp
      have hle2 : (if i = 0 then len - 1
          else min (len - i * cfg.userData) cfg.userData) ≤ cfg.userData := by
        rw [if_neg hi]; exact Nat.min_le_right _ _
      rw [if_neg (show ¬(¬((newAge ||| (if i = 0 then 0x20 else 0) |||
            (if i = cnt - 1 then 0x10 else 0)) &&& 0x20 ≠ 0) ∧
          cfg.userData < (if i = 0 then len - 1
            else min (len - i * cfg.userData) cfg.userData))
        from fun hcon => absurd hcon.2 (Nat.not_lt.mpr hle2))]
      rw [if_neg (show ¬(((newAge ||| (if i = 0 then 0x20 else 0) |||
          (if i = cnt - 1 then 0x10 else 0)) &&& 0x20) ≠ 0) from hnotfirst)]
      rw [hcb]
      rw [if_neg hi, if_neg hi, hread]
      simp

/-- One iteration of the cluster-write loop preserves index
faithfulness. -/
theorem writeOneCluster_faithful (cfg : Cfg) (st : St) (slot : Nat) (d : List Nat)
    (len newAge cnt : Nat) (cls : List Nat) (i : Nat)
    (hC : 7 ≤ cfg.clusterSize) (hs1 : 1 ≤ slot) (hs2 : slot ≤ cfg.lastSlot)
    (hlen : 1 ≤ len)
    (hna : newAge = 0 ∨ newAge = 64 ∨ newAge = 128 ∨ newAge = 192)
    (hf : indexFaithful cfg st) :
    indexFaithful cfg (writeOneCluster cfg st slot d len newAge cnt cls i) := by
  intro j hj
  rw [writeOneCluster_used]
  by_cases hjc : j = cls.getD i 0
  · subst hjc
    rw [updB_self]
    exact (writeOneCluster_valid cfg st slot d len newAge cnt cls i
      hC hs1 hs2 hlen hna).symm
  · rw [updB_other _ _ _ _ hjc, hf j hj]
    apply clusterValid_congr cfg st.mem _ j hC
    intro off hoff
    exact (writeOneCluster_frame cfg st slot d len newAge cnt cls i hC
      (j * cfg.clusterSize + off)
      (fun off2 hoff2 =>
        cluster_ranges_disjoint cfg.clusterSize j (cls.getD i 0) off off2
          hoff hoff2 hjc)).symm

/-- The whole cluster-write loop preserves index faithfulness. -/
theorem writeClustersLoop_faithful (cfg : Cfg) (slot : Nat) (d : List Nat)
    (len newAge cnt : Nat) (cls : List Nat)
    (hC : 7 ≤ cfg.clusterSize) (hs1 : 1 ≤ slot) (hs2 : slot ≤ cfg.lastSlot)
    (hlen : 1 ≤ len)
    (hna : newAge = 0 ∨ newAge = 64 ∨ newAge = 128 ∨ newAge = 192) :
    ∀ (k : Nat) (st : St), indexFaithful cfg st →
      indexFaithful cfg (writeClustersLoop cfg slot d len newAge cnt cls k st) := by
  intro k
  induction k with
  | zero => intro st hf; exact hf
  | succ n ih =>
    intro st hf
    show indexFaithful cfg (writeClustersLoop cfg slot d len newAge cnt cls n
      (writeOneCluster cfg st slot d len newAge cnt cls n))
    exact ih _ (writeOneCluster_faithful cfg st slot d len newAge cnt cls n
      hC hs1 hs2 hlen hna hf)

/-- The chain-removal loop preserves index faithfulness. -/
theorem clearClustersLoop_faithful (cfg : Cfg) (hC : 7 ≤ cfg.clusterSize) :
    ∀ (fuel : Nat) (st : St) (cur : Nat), indexFaithful cfg st →
      indexFaithful cfg (clearClustersLoop cfg st cur fuel) := by
  intro fuel
  induction fuel with
  | zero => intro st cur hf; exact hf
  | succ n ih =>
    intro st cur hf
    simp only [clearClustersLoop]
    split
    · exact ih _ _ (zero_cluster_faithful cfg st _ hC hf)
    · exact hf

/-- clearClusters preserves index faithfulness. -/
theorem clearClusters_faithful (cfg : Cfg) (st : St) (first : Nat)
    (hC : 7 ≤ cfg.clusterSize) (hf : indexFaithful cfg st) :
    indexFaithful cfg (clearClusters cfg st first).1 :=
  clearClustersLoop_faithful cfg hC (256 / cfg.userData) _ first
    (zero_cluster_faithful cfg st first hC hf)

/-- eraseSlot preserves index faithfulness. -/
theorem eraseSlot_faithful (cfg : Cfg) (st : St) (slot : Nat)
    (hC : 7 ≤ cfg.clusterSize) (hf : indexFaithful cfg st) :
    indexFaithful cfg (eraseSlot cfg st slot).1 := by
  simp only [eraseSlot]
  split
  · exact hf
  · cases hfs : findStartCluser cfg st slot with
    | none => simp only [hfs]; exact hf
    | some first =>
      simp only [hfs]
      split
      · exact clearClusters_faithful cfg st first hC hf
      · exact clearClusters_faithful cfg st first hC hf

/-- The continuation of writeSlot preserves index faithfulness. -/
theorem writeSlotCont_faithful (cfg : Cfg) (rnd : Option Nat) (st : St)
    (slot : Nat) (dl : List Nat) (len newAge free : Nat) (os : Option Nat)
    (hC : 7 ≤ cfg.clusterSize) (hs1 : 1 ≤ slot) (hs2 : slot ≤ cfg.lastSlot)
    (hlen : 1 ≤ len)
    (hna : newAge = 0 ∨ newAge = 64 ∨ newAge = 128 ∨ newAge = 192)
    (hf : indexFaithful cfg st) :
    indexFaithful cfg (writeSlotCont cfg rnd st slot dl len newAge free os).1 := by
  simp only [writeSlotCont]
  split
  · exact hf
  · cases halloc : allocClusters cfg st (writeCnt cfg len) (writeSeed cfg rnd) with
    | none => simp only [halloc]; exact hf
    | some cls =>
      simp only [halloc]
      have hloop := writeClustersLoop_faithful cfg slot dl len newAge
        (writeCnt cfg len) cls hC hs1 hs2 hlen hna (writeCnt cfg len) st hf
      cases os with
      | some old => exact clearClusters_faithful cfg _ old hC hloop
      | none => exact hloop

/-- writeSlot preserves index faithfulness on every path. -/
theorem writeSlot_faithful (cfg : Cfg) (rnd : Option Nat) (st : St)
    (slot : Nat) (data : Option (List Nat)) (len : Nat)
    (hC : 7 ≤ cfg.clusterSize) (hf : indexFaithful cfg st) :
    indexFaithful cfg (writeSlot cfg rnd st slot data len).1 := by
  simp only [writeSlot]
  split
  · exact hf
  · split
    · exact hf
    · split
      · exact hf
      · next hlen1 =>
        split
        · exact hf
        · next hlen2 =>
          split
          · exact hf
          · next hslot =>
            have hs1 : 1 ≤ slot := by omega
            have hs2 : slot ≤ cfg.lastSlot := by omega
            have hlen : 1 ≤ len := by omega
            cases hfs : findStartCluser cfg st slot with
            | none =>
              simp only [hfs]
              exact writeSlotCont_faithful cfg rnd st slot (data.getD []) len 0
                (getFree cfg st) none hC hs1 hs2 hlen (Or.inl rfl) hf
            | some old =>
              simp only [hfs]
              exact writeSlotCont_faithful cfg rnd st slot (data.getD []) len _ _
                (some old) hC hs1 hs2 hlen
                (newAge_cases (st.mem (old * cfg.clusterSize + 1))) hf

/-- begin on a fresh object establishes index faithfulness. -/
theorem begin_initSt_faithful (cfg : Cfg) (hC : 7 ≤ cfg.clusterSize)
    (mem0 : Nat → Nat) :
    indexFaithful cfg (begin cfg (initSt mem0)).1 := by
  rw [begin_eq cfg (initSt mem0) rfl]
  have h1 : indexFaithful cfg (pass1 cfg (initSt mem0)) := by
    obtain ⟨hmem, -, -, hused, -⟩ := pass1_spec cfg (initSt mem0) cfg.clusterCnt
    intro j hj
    show (List.foldl (pass1Step cfg) (initSt mem0)
      (List.range cfg.clusterCnt)).usedCluster j = _
    rw [hused j]
    have hmem2 : (pass1 cfg (initSt mem0)).mem = (initSt mem0).mem := hmem
    rw [show (pass1 cfg (initSt mem0)).mem
      = (List.foldl (pass1Step cfg) (initSt mem0) (List.range cfg.clusterCnt)).mem
      from rfl] at hmem2
    by_cases hv : clusterValid cfg (initSt mem0).mem j = true
    · rw [if_pos ⟨hj, hv⟩]
      show _ = clusterValid cfg (pass1 cfg (initSt mem0)).mem j
      rw [show (pass1 cfg (initSt mem0)).mem
        = (List.foldl (pass1Step cfg) (initSt mem0) (List.range cfg.clusterCnt)).mem
        from rfl, hmem, hv]
    · rw [if_neg (fun hc => hv hc.2)]
      show (false : Bool) = clusterValid cfg (pass1 cfg (initSt mem0)).mem j
      rw [show (pass1 cfg (initSt mem0)).mem
        = (List.foldl (pass1Step cfg) (initSt mem0) (List.range cfg.clusterCnt)).mem
        from rfl, hmem]
      simp only [Bool.not_eq_true] at hv
      rw [hv]
  exact pass2_fold_faithful cfg hC (List.range' 1 cfg.lastSlot) _ h1

/-- Bit-count form of faithfulness: the count of set used bits equals the
count of valid clusters on the medium. -/
theorem faithful_count (cfg : Cfg) (st : St) (hf : indexFaithful cfg st) :
    (List.range cfg.clusterCnt).countP (fun c => st.usedCluster c)
      = (List.range cfg.clusterCnt).countP (fun c => clusterValid cfg st.mem c) := by
  apply List.countP_congr
  intro a ha
  rw [List.mem_range] at ha
  rw [hf a ha]

/-- find? returns the unique element satisfying the predicate. -/
theorem find_unique_list (p : Nat → Bool) :
    ∀ (L : List Nat) (a : Nat), a ∈ L → p a = true →
      (∀ b ∈ L, p b = true → b = a) → L.find? p = some a := by
  intro L
  induction L with
  | nil => intro a ha; exact absurd ha (List.not_mem_nil a)
  | cons c L ih =>
    intro a ha hpa huniq
    by_cases hpc : p c = true
    · rw [List.find?_cons_of_pos _ hpc]
      rw [huniq c (List.mem_cons_self c L) hpc]
    · rw [List.find?_cons_of_neg _ (by simp [hpc])]
      rcases List.mem_cons.mp ha with h | h
      · subst h; exact absurd hpa hpc
      · exact ih a h hpa (fun b hb hpb => huniq b (List.mem_cons_of_mem c hb) hpb)

/-- A pass-2 fold over slots whose availability bits are all clear is the
identity. -/
theorem pass2_skip (cfg : Cfg) :
    ∀ (L : List Nat) (st : St),
      (∀ b ∈ L, isSlotBitSetF cfg st.slotAvail b = false) →
      L.foldl (pass2Slot cfg) st = st := by
  intro L
  induction L with
  | nil => intro st _; rfl
  | cons b L ih =>
    intro st hall
    rw [List.foldl_cons]
    have hstep : pass2Slot cfg st b = st := by
      unfold pass2Slot
      rw [if_pos (by rw [hall b (List.mem_cons_self b L)]; rfl)]
    rw [hstep]
    exact ih st (fun b2 hb2 => hall b2 (List.mem_cons_of_mem b hb2))

/-- An invalidation fold in which every collected cluster is kept is the
identity. -/
theorem invalidate_fold_id (cfg : Cfg) (scan : SlotScan) (valid : Nat → Bool)
    (hkeep : ∀ c, scan.usedBySlot c = true → valid c = true) :
    ∀ (L : List Nat) (st : St),
      L.foldl (invalidateStep cfg scan true valid) st = st := by
  intro L
  induction L with
  | nil => intro st; rfl
  | cons c L ih =>
    intro st
    rw [List.foldl_cons]
    have hstep : invalidateStep cfg scan true valid st c = st := by
      unfold invalidateStep
      by_cases hu : scan.usedBySlot c = true
      · rw [if_neg (by simp [hu]), if_pos (by simp [hkeep c hu])]
      · rw [if_pos (by simp [Bool.eq_false_iff.mpr hu])]
    rw [hstep]
    exact ih st

/-- An invalidation fold that keeps every collected cluster except one
clears exactly that cluster. -/
theorem invalidate_fold_single (cfg : Cfg) (scan : SlotScan) (valid : Nat → Bool)
    (x : Nat) (hx : scan.usedBySlot x = true) (hxdrop : valid x = false)
    (hkeep : ∀ c, c ≠ x → scan.usedBySlot c = true → valid c = true) :
    ∀ (n : Nat) (st : St), x < n →
      (List.range n).foldl (invalidateStep cfg scan true valid) st
        = clearCluster cfg st x := by
  intro n
  induction n with
  | zero => intro st hlt; omega
  | succ m ih =>
    intro st hlt
    rw [List.range_succ, List.foldl_append, List.foldl_cons, List.foldl_nil]
    by_cases hxm : x = m
    · subst hxm
      rw [show (List.range x).foldl (invalidateStep cfg scan true valid) st = st
        from ?_]
      · unfold invalidateStep
        rw [if_neg (by simp [hx]), if_neg (by simp [hxdrop])]
      · -- clusters below x are all kept
        generalize hL : List.range x = L
        have hmem : ∀ c ∈ L, c ≠ x := by
          intro c hc
          rw [← hL, List.mem_range] at hc
          omega
        clear hL
        induction L generalizing st with
        | nil => rfl
        | cons c L ihL =>
          rw [List.foldl_cons]
          have hstep : invalidateStep cfg scan true valid st c = st := by
            unfold invalidateStep
            by_cases hu : scan.usedBySlot c = true
            · rw [if_neg (by simp [hu]),
                if_pos (by simp [hkeep c (hmem c (List.mem_cons_self c L)) hu])]
            · rw [if_pos (by simp [Bool.eq_false_iff.mpr hu])]
          rw [hstep]
          exact ihL st (fun c2 hc2 => hmem c2 (List.mem_cons_of_mem c hc2))
    · have hstep : invalidateStep cfg scan true valid
          ((List.range m).foldl (invalidateStep cfg scan true valid) st) m
          = (List.range m).foldl (invalidateStep cfg scan true valid) st := by
        unfold invalidateStep
        by_cases hu : scan.usedBySlot m = true
        · rw [if_neg (by simp [hu]),
            if_pos (by simp [hkeep m (fun he => hxm he.symm) hu])]
        · rw [if_pos (by simp [Bool.eq_false_iff.mpr hu])]
      rw [hstep]
      exact ih st (by omega)

/-- An in-bounds getD value is a member. -/
theorem getD_mem_of_lt (l : List Nat) (i : Nat) (h : i < l.length) :
    l.getD i 0 ∈ l := by
  rw [List.getD_eq_getElem l 0 h]
  exact List.getElem_mem h

/-- Membership in one more taken element. -/
theorem mem_take_succ_iff (l : List Nat) (k : Nat) (hk : k < l.length) (c : Nat) :
    c ∈ l.take (k + 1) ↔ c ∈ l.take k ∨ c = l.getD k 0 := by
  rw [List.take_succ, List.mem_append, List.getElem?_eq_getElem hk,
    List.getD_eq_getElem l 0 hk]
  simp

/-- The chain walk of begin() pass 2 succeeds along a complete valid
generation: starting anywhere on the chain with the already-collected
prefix, it ends on the last cluster with the full chain as the valid set,
the accumulated length covering the declared length, and no error. -/
theorem walk_chain_spec (cfg : Cfg) (st : St) (u : Nat → Bool) (s age : Nat)
    (chain : List Nat) (startLen : Nat)
    (hchain : validChain cfg st.mem s age chain startLen)
    (hu : ∀ c ∈ chain, u c = true) :
    ∀ (fuel k : Nat) (valid : Nat → Bool), k < chain.length →
      chain.length - k ≤ fuel →
      (∀ c, valid c = true ↔ c ∈ chain.take (k + 1)) →
      ∃ v : Nat → Bool,
        walkLoop cfg st u age (startLen + 1 + cfg.userData) fuel valid
          (chain.getD k 0) (st.mem (chain.getD k 0 * cfg.clusterSize + 1))
          ((k + 1) * cfg.userData)
          = (v, chain.length * cfg.userData, false) ∧
        (∀ c, v c = true ↔ c ∈ chain) := by
  intro fuel
  induction fuel with
  | zero => intro k valid hk hfuel _; omega
  | succ n ih =>
    intro k valid hk hfuel hvalid
    obtain ⟨hne, hnodup, hlt, hlen0, hlenlo, hlenhi, hper⟩ := hchain
    obtain ⟨hslotk, hvalidk, hagek, hstartk, hlastk, hlinkk⟩ := hper k hk
    by_cases hklast : k + 1 = chain.length
    · have hlf : flagsLastB (st.mem (chain.getD k 0 * cfg.clusterSize + 1))
          = true := hlastk.mpr hklast
      have hlf2 : (st.mem (chain.getD k 0 * cfg.clusterSize + 1) &&& 0x10) ≠ 0 := by
        simpa [flagsLastB] using hlf
      simp only [walkLoop]
      rw [if_pos hlf2]
      refine ⟨valid, ?_, ?_⟩
      · rw [show k + 1 = chain.length from hklast]
      · intro c
        rw [hvalid c, hklast, List.take_length]
    · have hlf : flagsLastB (st.mem (chain.getD k 0 * cfg.clusterSize + 1))
          = false := by
        rcases Bool.eq_false_or_eq_true
          (flagsLastB (st.mem (chain.getD k 0 * cfg.clusterSize + 1))) with h | h
        · exact absurd (hlastk.mp h) hklast
        · exact h
      have hlf2 : ¬((st.mem (chain.getD k 0 * cfg.clusterSize + 1) &&& 0x10) ≠ 0) := by
        simpa [flagsLastB] using hlf
      have hk1 : k + 1 < chain.length := by omega
      obtain ⟨hslot2, hvalid2, hage2, hstart2, hlast2, hlink2⟩ := hper (k + 1) hk1
      have hlink : st.mem (chain.getD k 0 * cfg.clusterSize + 2)
          = chain.getD (k + 1) 0 := hlinkk hk1
      simp only [walkLoop]
      rw [if_neg hlf2, hlink]
      rw [if_pos (show u (chain.getD (k + 1) 0) = true
        from hu _ (getD_mem_of_lt chain (k + 1) hk1))]
      have hage2' : (st.mem (chain.getD (k + 1) 0 * cfg.clusterSize + 1) &&& 0xC0)
          >>> 6 = age := hage2
      rw [if_neg (show ¬((st.mem (chain.getD (k + 1) 0 * cfg.clusterSize + 1)
          &&& 0xC0) >>> 6 ≠ age) from fun hcon => hcon hage2')]
      have hsf : flagsStartB (st.mem (chain.getD (k + 1) 0 * cfg.clusterSize + 1))
          = false := by
        rcases Bool.eq_false_or_eq_true
          (flagsStartB (st.mem (chain.getD (k + 1) 0 * cfg.clusterSize + 1)))
          with h | h
        · exact absurd (hstart2.mp h) (by omega)
        · exact h
      have hsf2 : ¬((st.mem (chain.getD (k + 1) 0 * cfg.clusterSize + 1)
          &&& 0x20) ≠ 0) := by
        simpa [flagsStartB] using hsf
      rw [if_neg hsf2]
      have hmul : (k + 1) * cfg.userData ≤ (chain.length - 1) * cfg.userData :=
        Nat.mul_le_mul_right _ (by omega)
      rw [if_neg (show ¬(startLen + 1 + cfg.userData
          ≤ (k + 1) * cfg.userData + cfg.userData) by omega)]
      rw [show (k + 1) * cfg.userData + cfg.userData
        = (k + 1 + 1) * cfg.userData from by ring]
      exact ih (k + 1) (updB valid (chain.getD (k + 1) 0) true) hk1 (by omega)
        (by
          intro c
          by_cases hc : c = chain.getD (k + 1) 0
          · subst hc
            rw [updB_self]
            simp only [true_iff]
            rw [mem_take_succ_iff chain (k + 1) hk1]
            exact Or.inr rfl
          · rw [updB_other _ _ _ _ hc, hvalid c,
              mem_take_succ_iff chain (k + 1) hk1]
            constructor
            · exact fun h => Or.inl h
            · rintro (h | h)
              · exact h
              · exact absurd h hc)

/-- On a medium whose indexed clusters are exactly one complete valid
generation, pass 2's collection finds exactly the chain, with the chain
head as the only start cluster and a singleton age mask. -/
theorem collect_specA (cfg : Cfg) (st : St) (s age : Nat) (chain : List Nat)
    (startLen : Nat) (hchain : validChain cfg st.mem s age chain startLen)
    (hused : ∀ c, st.usedCluster c = true ↔ c ∈ chain) :
    (∀ c, (collectSlot cfg st s).usedBySlot c = true ↔ c ∈ chain) ∧
    ((collectSlot cfg st s).firstCl age = chain.getD 0 0) ∧
    ((collectSlot cfg st s).mask = 1 <<< age) := by
  obtain ⟨hne, hnodup, hlt, hlen0, hlenlo, hlenhi, hper⟩ := hchain
  have hlenpos : 0 < chain.length := List.length_pos.mpr hne
  have hheadmem : chain.getD 0 0 ∈ chain := getD_mem_of_lt chain 0 hlenpos
  have hslotm : ∀ m ∈ chain, st.mem (m * cfg.clusterSize) = s := by
    intro m hm
    obtain ⟨i, hi, hgi⟩ := List.getElem_of_mem hm
    have hgd : chain.getD i 0 = m := by rw [List.getD_eq_getElem chain 0 hi, hgi]
    obtain ⟨hslot, -, -, -, -, -⟩ := hper i hi
    rw [hgd] at hslot
    exact hslot
  have hstart_iff : ∀ m ∈ chain,
      ((st.mem (m * cfg.clusterSize + 1) &&& 0x20) ≠ 0) ↔ m = chain.getD 0 0 := by
    intro m hm
    obtain ⟨i, hi, hgi⟩ := List.getElem_of_mem hm
    have hgd : chain.getD i 0 = m := by rw [List.getD_eq_getElem chain 0 hi, hgi]
    obtain ⟨-, -, -, hstart, -, -⟩ := hper i hi
    rw [hgd] at hstart
    constructor
    · intro hflag
      have hsb : flagsStartB (st.mem (m * cfg.clusterSize + 1)) = true := by
        simpa [flagsStartB] using hflag
      rw [← hgd, hstart.mp hsb]
    · intro hmh
      have hi0 : i = 0 := by
        have he : chain.getD i 0 = chain.getD 0 0 := by rw [hgd, hmh]
        rw [List.getD_eq_getElem chain 0 hi,
          List.getD_eq_getElem chain 0 hlenpos] at he
        exact hnodup.getElem_inj_iff.mp he
      have hsb := hstart.mpr hi0
      simpa [flagsStartB] using hsb
  have hageh : (st.mem (chain.getD 0 0 * cfg.clusterSize + 1) &&& 0xC0) >>> 6
      = age := by
    obtain ⟨-, -, hage, -, -, -⟩ := hper 0 hlenpos
    exact hage
  have key : ∀ n,
      (∀ c, ((List.range n).foldl (collectStep cfg st s)
          { usedBySlot := fun _ => false, firstCl := fun _ => 0,
            mask := 0 }).usedBySlot c = true ↔ (c < n ∧ c ∈ chain)) ∧
      (∀ a, ((List.range n).foldl (collectStep cfg st s)
          { usedBySlot := fun _ => false, firstCl := fun _ => 0,
            mask := 0 }).firstCl a
        = if chain.getD 0 0 < n ∧ a = age then chain.getD 0 0 else 0) ∧
      (((List.range n).foldl (collectStep cfg st s)
          { usedBySlot := fun _ => false, firstCl := fun _ => 0,
            mask := 0 }).mask = if chain.getD 0 0 < n then 1 <<< age else 0) := by
    intro n
    induction n with
    | zero =>
      refine ⟨fun c => by simp, fun a => by simp, by simp⟩
    | succ m ihm =>
      obtain ⟨ih1, ih2, ih3⟩ := ihm
      rw [List.range_succ, List.foldl_append, List.foldl_cons, List.foldl_nil]
      by_cases hm : m ∈ chain
      · have humT : st.usedCluster m = true := (hused m).mpr hm
        have hsm : st.mem (m * cfg.clusterSize) = s := hslotm m hm
        simp only [collectStep]
        rw [if_neg (by simp [humT])]
        rw [if_neg (show ¬(st.mem (m * cfg.clusterSize) ≠ s) from fun h => h hsm)]
        by_cases hmh : m = chain.getD 0 0
        · have hflag : ((st.mem (m * cfg.clusterSize + 1)) &&& 0x20) ≠ 0 :=
            (hstart_iff m hm).mpr hmh
          rw [if_pos hflag]
          have hagem : (st.mem (m * cfg.clusterSize + 1) &&& 0xC0) >>> 6 = age := by
            rw [hmh]; exact hageh
          rw [hagem]
          have hEq : chain.getD 0 0 = m := hmh.symm
          refine ⟨?_, ?_, ?_⟩
          · intro c
            show updB _ m true c = true ↔ _
            by_cases hc : c = m
            · subst hc
              rw [updB_self]
              exact ⟨fun _ => ⟨by omega, hm⟩, fun _ => rfl⟩
            · rw [updB_other _ _ _ _ hc, ih1 c]
              exact ⟨fun h => ⟨by omega, h.2⟩, fun h => ⟨by omega, h.2⟩⟩
          · intro a
            show updN _ age m a = _
            by_cases ha : a = age
            · subst ha
              rw [updN_self, if_pos ⟨by omega, rfl⟩, hEq]
            · rw [updN_other _ _ _ _ ha, ih2 a,
                if_neg (fun hcon => ha hcon.2), if_neg (fun hcon => ha hcon.2)]
          · show _ ||| _ = _
            rw [ih3, if_neg (by omega), Nat.zero_or, if_pos (by omega)]
        · have hflag2 : ¬((st.mem (m * cfg.clusterSize + 1) &&& 0x20) ≠ 0) :=
            fun h => hmh ((hstart_iff m hm).mp h)
          rw [if_neg hflag2]
          have hNe : chain.getD 0 0 ≠ m := fun h => hmh h.symm
          refine ⟨?_, ?_, ?_⟩
          · intro c
            show updB _ m true c = true ↔ _
            by_cases hc : c = m
            · subst hc
              rw [updB_self]
              exact ⟨fun _ => ⟨by omega, hm⟩, fun _ => rfl⟩
            · rw [updB_other _ _ _ _ hc, ih1 c]
              exact ⟨fun h => ⟨by omega, h.2⟩, fun h => ⟨by omega, h.2⟩⟩
          · intro a
            show ((List.range m).foldl (collectStep cfg st s)
              { usedBySlot := fun _ => false, firstCl := fun _ => 0,
                mask := 0 }).firstCl a = _
            rw [ih2 a]
            by_cases hcond : chain.getD 0 0 < m ∧ a = age
            · rw [if_pos hcond, if_pos ⟨by omega, hcond.2⟩]
            · rw [if_neg hcond, if_neg (fun hcon => hcond ⟨by omega, hcon.2⟩)]
          · show ((List.range m).foldl (collectStep cfg st s)
              { usedBySlot := fun _ => false, firstCl := fun _ => 0,
                mask := 0 }).mask = _
            rw [ih3]
            by_cases hcond : chain.getD 0 0 < m
            · rw [if_pos hcond, if_pos (by omega)]
            · rw [if_neg hcond, if_neg (by omega)]
      · have humF : st.usedCluster m = false := by
          rw [Bool.eq_false_iff]
          intro h
          exact hm ((hused m).mp h)
        simp only [collectStep]
        rw [if_pos (by simp [humF])]
        have hNe : chain.getD 0 0 ≠ m := fun h => hm (h ▸ hheadmem)
        refine ⟨?_, ?_, ?_⟩
        · intro c
          rw [ih1 c]
          constructor
          · rintro ⟨h1, h2⟩; exact ⟨by omega, h2⟩
          · rintro ⟨h1, h2⟩
            refine ⟨?_, h2⟩
            rcases Nat.lt_succ_iff_lt_or_eq.mp h1 with h | h
            · exact h
            · subst h; exact absurd h2 hm
        · intro a
          rw [ih2 a]
          by_cases hcond : chain.getD 0 0 < m ∧ a = age
          · rw [if_pos hcond, if_pos ⟨by omega, hcond.2⟩]
          · rw [if_neg hcond, if_neg (fun hcon => hcond ⟨by omega, hcon.2⟩)]
        · rw [ih3]
          by_cases hcond : chain.getD 0 0 < m
          · rw [if_pos hcond, if_pos (by omega)]
          · rw [if_neg hcond, if_neg (by omega)]
  obtain ⟨h1, h2, h3⟩ := key cfg.clusterCnt
  refine ⟨?_, ?_, ?_⟩
  · intro c
    rw [show (collectSlot cfg st s).usedBySlot
      = ((List.range cfg.clusterCnt).foldl (collectStep cfg st s)
        { usedBySlot := fun _ => false, firstCl := fun _ => 0,
          mask := 0 }).usedBySlot from rfl, h1 c]
    exact ⟨fun h => h.2, fun h => ⟨hlt c h, h⟩⟩
  · rw [show (collectSlot cfg st s).firstCl
      = ((List.range cfg.clusterCnt).foldl (collectStep cfg st s)
        { usedBySlot := fun _ => false, firstCl := fun _ => 0,
          mask := 0 }).firstCl from rfl, h2 age,
      if_pos ⟨hlt _ hheadmem, rfl⟩]
  · rw [show (collectSlot cfg st s).mask
      = ((List.range cfg.clusterCnt).foldl (collectStep cfg st s)
        { usedBySlot := fun _ => false, firstCl := fun _ => 0,
          mask := 0 }).mask from rfl, h3, if_pos (hlt _ hheadmem)]

/-- As collect_specA, but with one additional indexed start cluster x of
a different age: the collection finds the chain plus x, the two start
clusters at their ages, and the two-bit age mask. -/
theorem collect_specB (cfg : Cfg) (st : St) (s age xage x : Nat)
    (chain : List Nat) (startLen : Nat)
    (hchain : validChain cfg st.mem s age chain startLen)
    (hused : ∀ c, st.usedCluster c = true ↔ (c ∈ chain ∨ c = x))
    (hxlt : x < cfg.clusterCnt)
    (hxnot : x ∉ chain)
    (hxslot : st.mem (x * cfg.clusterSize) = s)
    (hxstart : (st.mem (x * cfg.clusterSize + 1) &&& 0x20) ≠ 0)
    (hxage : (st.mem (x * cfg.clusterSize + 1) &&& 0xC0) >>> 6 = xage)
    (hagene : xage ≠ age) :
    (∀ c, (collectSlot cfg st s).usedBySlot c = true ↔ (c ∈ chain ∨ c = x)) ∧
    ((collectSlot cfg st s).firstCl age = chain.getD 0 0) ∧
    ((collectSlot cfg st s).firstCl xage = x) ∧
    ((collectSlot cfg st s).mask = 1 <<< age ||| 1 <<< xage) := by
  obtain ⟨hne, hnodup, hlt, hlen0, hlenlo, hlenhi, hper⟩ := hchain
  have hlenpos : 0 < chain.length := List.length_pos.mpr hne
  have hheadmem : chain.getD 0 0 ∈ chain := getD_mem_of_lt chain 0 hlenpos
  have hheadx : chain.getD 0 0 ≠ x := fun h => hxnot (h ▸ hheadmem)
  have hslotm : ∀ m ∈ chain, st.mem (m * cfg.clusterSize) = s := by
    intro m hm
    obtain ⟨i, hi, hgi⟩ := List.getElem_of_mem hm
    have hgd : chain.getD i 0 = m := by rw [List.getD_eq_getElem chain 0 hi, hgi]
    obtain ⟨hslot, -, -, -, -, -⟩ := hper i hi
    rw [hgd] at hslot
    exact hslot
  have hstart_iff : ∀ m ∈ chain,
      ((st.mem (m * cfg.clusterSize + 1) &&& 0x20) ≠ 0) ↔ m = chain.getD 0 0 := by
    intro m hm
    obtain ⟨i, hi, hgi⟩ := List.getElem_of_mem hm
    have hgd : chain.getD i 0 = m := by rw [List.getD_eq_getElem chain 0 hi, hgi]
    obtain ⟨-, -, -, hstart, -, -⟩ := hper i hi
    rw [hgd] at hstart
    constructor
    · intro hflag
      have hsb : flagsStartB (st.mem (m * cfg.clusterSize + 1)) = true := by
        simpa [flagsStartB] using hflag
      rw [← hgd, hstart.mp hsb]
    · intro hmh
      have hi0 : i = 0 := by
        have he : chain.getD i 0 = chain.getD 0 0 := by rw [hgd, hmh]
        rw [List.getD_eq_getElem chain 0 hi,
          List.getD_eq_getElem chain 0 hlenpos] at he
        exact hnodup.getElem_inj_iff.mp he
      have hsb := hstart.mpr hi0
      simpa [flagsStartB] using hsb
  have hageh : (st.mem (chain.getD 0 0 * cfg.clusterSize + 1) &&& 0xC0) >>> 6
      = age := by
    obtain ⟨-, -, hage, -, -, -⟩ := hper 0 hlenpos
    exact hage
  have hbr : ∀ (y m : Nat), y ≠ m → (y < m) = (y < m + 1) :=
    fun y m hy => propext ⟨fun h => by omega, fun h => by omega⟩
  have key : ∀ n,
      (∀ c, ((List.range n).foldl (collectStep cfg st s)
          { usedBySlot := fun _ => false, firstCl := fun _ => 0,
            mask := 0 }).usedBySlot c = true
        ↔ (c < n ∧ (c ∈ chain ∨ c = x))) ∧
      (∀ a, ((List.range n).foldl (collectStep cfg st s)
          { usedBySlot := fun _ => false, firstCl := fun _ => 0,
            mask := 0 }).firstCl a
        = if chain.getD 0 0 < n ∧ a = age then chain.getD 0 0
          else if x < n ∧ a = xage then x else 0) ∧
      (((List.range n).foldl (collectStep cfg st s)
          { usedBySlot := fun _ => false, firstCl := fun _ => 0,
            mask := 0 }).mask
        = (if chain.getD 0 0 < n then 1 <<< age else 0)
            ||| (if x < n then 1 <<< xage else 0)) := by
    intro n
    induction n with
    | zero =>
      refine ⟨fun c => by simp, fun a => by simp, by simp⟩
    | succ m ihm =>
      obtain ⟨ih1, ih2, ih3⟩ := ihm
      rw [List.range_succ, List.foldl_append, List.foldl_cons, List.foldl_nil]
      by_cases hmx : m = x
      · subst hmx
        have humT : st.usedCluster m = true := (hused m).mpr (Or.inr rfl)
        simp only [collectStep]
        rw [if_neg (by simp [humT])]
        rw [if_neg (show ¬(st.mem (m * cfg.clusterSize) ≠ s) from
          fun h => h hxslot)]
        rw [if_pos hxstart, hxage]
        refine ⟨?_, ?_, ?_⟩
        · intro c
          show updB _ m true c = true ↔ _
          by_cases hc : c = m
          · subst hc
            rw [updB_self]
            exact ⟨fun _ => ⟨by omega, Or.inr rfl⟩, fun _ => rfl⟩
          · rw [updB_other _ _ _ _ hc, ih1 c]
            exact ⟨fun h => ⟨by omega, h.2⟩, fun h => ⟨by omega, h.2⟩⟩
        · intro a
          show updN _ xage m a = _
          by_cases ha : a = xage
          · rw [ha, updN_self,
              if_neg (show ¬(chain.getD 0 0 < m + 1 ∧ xage = age) from
                fun hcon => hagene hcon.2),
              if_pos (show m < m + 1 ∧ xage = xage from ⟨by omega, rfl⟩)]
          · rw [updN_other _ _ _ _ ha, ih2 a]
            by_cases h1 : chain.getD 0 0 < m ∧ a = age
            · rw [if_pos (show chain.getD 0 0 < m ∧ a = age from h1),
                if_pos (show chain.getD 0 0 < m + 1 ∧ a = age
                  from ⟨by omega, h1.2⟩)]
            · rw [if_neg (show ¬(chain.getD 0 0 < m ∧ a = age) from h1),
                if_neg (show ¬(chain.getD 0 0 < m + 1 ∧ a = age) from
                  fun hcon => h1 ⟨by omega, hcon.2⟩),
                if_neg (show ¬(m < m ∧ a = xage) from fun hcon => ha hcon.2),
                if_neg (show ¬(m < m + 1 ∧ a = xage) from
                  fun hcon => ha hcon.2)]
        · show _ ||| _ = _
          rw [ih3, if_neg (show ¬(m < m) by omega), Nat.or_zero]
          simp only [hbr (chain.getD 0 0) m hheadx]
          rw [if_pos (show m < m + 1 by omega)]
      · by_cases hm : m ∈ chain
        · have humT : st.usedCluster m = true := (hused m).mpr (Or.inl hm)
          have hsm : st.mem (m * cfg.clusterSize) = s := hslotm m hm
          simp only [collectStep]
          rw [if_neg (by simp [humT])]
          rw [if_neg (show ¬(st.mem (m * cfg.clusterSize) ≠ s) from
            fun h => h hsm)]
          have hxm : x ≠ m := fun h => hmx h.symm
          by_cases hmh : m = chain.getD 0 0
          · have hflag : ((st.mem (m * cfg.clusterSize + 1)) &&& 0x20) ≠ 0 :=
              (hstart_iff m hm).mpr hmh
            rw [if_pos hflag]
            have hagem : (st.mem (m * cfg.clusterSize + 1) &&& 0xC0) >>> 6
                = age := by
              rw [hmh]; exact hageh
            rw [hagem]
            have hEq : chain.getD 0 0 = m := hmh.symm
            refine ⟨?_, ?_, ?_⟩
            · intro c
              show updB _ m true c = true ↔ _
              by_cases hc : c = m
              · subst hc
                rw [updB_self]
                exact ⟨fun _ => ⟨by omega, Or.inl hm⟩, fun _ => rfl⟩
              · rw [updB_other _ _ _ _ hc, ih1 c]
                exact ⟨fun h => ⟨by omega, h.2⟩, fun h => ⟨by omega, h.2⟩⟩
            · intro a
              show updN _ age m a = _
              by_cases ha : a = age
              · subst ha
                rw [updN_self, if_pos ⟨by omega, rfl⟩, hEq]
              · rw [updN_other _ _ _ _ ha, ih2 a]
                simp only [hbr x m hxm]
                rw [if_neg (show ¬(chain.getD 0 0 < m ∧ a = age) from
                    fun hcon => ha hcon.2),
                  if_neg (show ¬(chain.getD 0 0 < m + 1 ∧ a = age) from
                    fun hcon => ha hcon.2)]
            · show _ ||| _ = _
              rw [ih3, if_neg (show ¬(chain.getD 0 0 < m) by omega),
                Nat.zero_or]
              simp only [hbr x m hxm]
              rw [if_pos (show chain.getD 0 0 < m + 1 by omega)]
              by_cases hx2 : x < m + 1
              · rw [if_pos hx2, Nat.lor_comm]
              · rw [if_neg hx2, Nat.zero_or, Nat.or_zero]
          · have hflag2 : ¬((st.mem (m * cfg.clusterSize + 1) &&& 0x20) ≠ 0) :=
              fun h => hmh ((hstart_iff m hm).mp h)
            rw [if_neg hflag2]
            have hNe : chain.getD 0 0 ≠ m := fun h => hmh h.symm
            refine ⟨?_, ?_, ?_⟩
            · intro c
              show updB _ m true c = true ↔ _
              by_cases hc : c = m
              · subst hc
                rw [updB_self]
                exact ⟨fun _ => ⟨by omega, Or.inl hm⟩, fun _ => rfl⟩
              · rw [updB_other _ _ _ _ hc, ih1 c]
                exact ⟨fun h => ⟨by omega, h.2⟩, fun h => ⟨by omega, h.2⟩⟩
            · intro a
              show ((List.range m).foldl (collectStep cfg st s)
                { usedBySlot := fun _ => false, firstCl := fun _ => 0,
                  mask := 0 }).firstCl a = _
              rw [ih2 a]
              simp only [hbr (chain.getD 0 0) m hNe, hbr x m hxm]
            · show ((List.range m).foldl (collectStep cfg st s)
                { usedBySlot := fun _ => false, firstCl := fun _ => 0,
                  mask := 0 }).mask = _
              rw [ih3]
              simp only [hbr (chain.getD 0 0) m hNe, hbr x m hxm]
        · have humF : st.usedCluster m = false := by
            rw [Bool.eq_false_iff]
            intro h
            rcases (hused m).mp h with h2 | h2
            · exact hm h2
            · exact hmx h2
          simp only [collectStep]
          rw [if_pos (by simp [humF])]
          have hNe : chain.getD 0 0 ≠ m := fun h => hm (h ▸ hheadmem)
          have hxm : x ≠ m := fun h => hmx h.symm
          refine ⟨?_, ?_, ?_⟩
          · intro c
            rw [ih1 c]
            constructor
            · rintro ⟨h1, h2⟩; exact ⟨by omega, h2⟩
            · rintro ⟨h1, h2⟩
              refine ⟨?_, h2⟩
              rcases Nat.lt_succ_iff_lt_or_eq.mp h1 with h | h
              · exact h
              · subst h
                rcases h2 with h3 | h3
                · exact absurd h3 hm
                · exact absurd h3 hmx
          · intro a
            rw [ih2 a]
            simp only [hbr (chain.getD 0 0) m hNe, hbr x m hxm]
          · rw [ih3]
            simp only [hbr (chain.getD 0 0) m hNe, hbr x m hxm]
  obtain ⟨h1, h2, h3⟩ := key cfg.clusterCnt
  refine ⟨?_, ?_, ?_, ?_⟩
  · intro c
    rw [show (collectSlot cfg st s).usedBySlot
      = ((List.range cfg.clusterCnt).foldl (collectStep cfg st s)
        { usedBySlot := fun _ => false, firstCl := fun _ => 0,
          mask := 0 }).usedBySlot from rfl, h1 c]
    constructor
    · exact fun h => h.2
    · intro h
      refine ⟨?_, h⟩
      rcases h with h2 | h2
      · exact hlt c h2
      · subst h2; exact hxlt
  · rw [show (collectSlot cfg st s).firstCl
      = ((List.range cfg.clusterCnt).foldl (collectStep cfg st s)
        { usedBySlot := fun _ => false, firstCl := fun _ => 0,
          mask := 0 }).firstCl from rfl, h2 age,
      if_pos ⟨hlt _ hheadmem, rfl⟩]
  · rw [show (collectSlot cfg st s).firstCl
      = ((List.range cfg.clusterCnt).foldl (collectStep cfg st s)
        { usedBySlot := fun _ => false, firstCl := fun _ => 0,
          mask := 0 }).firstCl from rfl, h2 xage,
      if_neg (fun hcon => hagene hcon.2), if_pos ⟨hxlt, rfl⟩]
  · rw [show (collectSlot cfg st s).mask
      = ((List.range cfg.clusterCnt).foldl (collectStep cfg st s)
        { usedBySlot := fun _ => false, firstCl := fun _ => 0,
          mask := 0 }).mask from rfl, h3, if_pos (hlt _ hheadmem), if_pos hxlt]

/-- One winner-selection attempt on a complete valid generation succeeds:
no error, and the surviving set is exactly the chain. -/
theorem tryMask_success (cfg : Cfg) (st : St) (scan : SlotScan)
    (mask s age : Nat) (chain : List Nat) (startLen : Nat)
    (hchain : validChain cfg st.mem s age chain startLen)
    (hlen300 : chain.length ≤ 300)
    (htab : (S_AGE_BITS_TO_OLDEST.getD mask 0) &&& 0x03 = age)
    (hfirst : scan.firstCl age = chain.getD 0 0)
    (hu : ∀ c ∈ chain, scan.usedBySlot c = true) :
    ∃ v, tryMask cfg st scan mask = (v, false, age) ∧
      (∀ c, v c = true ↔ c ∈ chain) := by
  have hlenpos : 0 < chain.length := List.length_pos.mpr hchain.1
  have hlenhi : startLen + 1 ≤ chain.length * cfg.userData := hchain.2.2.2.2.2.1
  have hlen0 : st.mem (chain.getD 0 0 * cfg.clusterSize + 3) = startLen :=
    hchain.2.2.2.1
  obtain ⟨v, hw, hv⟩ := walk_chain_spec cfg st scan.usedBySlot s age chain
    startLen hchain hu 300 0 (updB (fun _ => false) (chain.getD 0 0) true)
    hlenpos (by omega)
    (by
      intro c
      by_cases hc : c = chain.getD 0 0
      · subst hc
        rw [updB_self]
        simp only [true_iff]
        rw [mem_take_succ_iff chain 0 hlenpos]
        exact Or.inr rfl
      · rw [updB_other _ _ _ _ hc, mem_take_succ_iff chain 0 hlenpos]
        constructor
        · intro h; exact absurd h (by simp)
        · rintro (h | h)
          · simp at h
          · exact absurd h hc)
  rw [show (0 + 1) * cfg.userData = cfg.userData from by ring] at hw
  simp only [tryMask]
  rw [htab, hfirst, hlen0, hw]
  dsimp only
  rw [Bool.false_or, decide_eq_false (Nat.not_lt.mpr hlenhi)]
  exact ⟨v, rfl, hv⟩

/-- A winner-selection attempt started on a start cluster whose link
target is not one of the slot's collected clusters errs. -/
theorem walkLoop_failx (cfg : Cfg) (st : St) (u : Nat → Bool)
    (oldes doNot fuel : Nat) (valid : Nat → Bool) (x flags curMax : Nat)
    (hlast : (flags &&& 0x10) = 0)
    (husedy : u (st.mem (x * cfg.clusterSize + 2)) = false) :
    walkLoop cfg st u oldes doNot (fuel + 1) valid x flags curMax
      = (updB valid (st.mem (x * cfg.clusterSize + 2)) true, curMax, true) := by
  simp only [walkLoop]
  rw [if_neg (show ¬((flags &&& 0x10) ≠ 0) from fun h => h hlast)]
  rw [if_neg (show ¬(u (st.mem (x * cfg.clusterSize + 2)) = true)
    from by rw [husedy]; simp)]

theorem tryMask_failx (cfg : Cfg) (st : St) (scan : SlotScan)
    (mask xage x : Nat)
    (htab : (S_AGE_BITS_TO_OLDEST.getD mask 0) &&& 0x03 = xage)
    (hfirstx : scan.firstCl xage = x)
    (hlastx : (st.mem (x * cfg.clusterSize + 1) &&& 0x10) = 0)
    (husedy : scan.usedBySlot (st.mem (x * cfg.clusterSize + 2)) = false) :
    ∃ v, tryMask cfg st scan mask = (v, true, xage) := by
  simp only [tryMask]
  rw [htab, hfirstx]
  rw [show (300 : Nat) = 299 + 1 from rfl]
  rw [walkLoop_failx cfg st scan.usedBySlot xage
    (st.mem (x * cfg.clusterSize + 3) + 1 + cfg.userData) 299
    (updB (fun _ => false) x true) x
    (st.mem (x * cfg.clusterSize + 1)) cfg.userData hlastx husedy]
  dsimp only
  rw [Bool.true_or]
  exact ⟨_, rfl⟩

/-- The readSlot copy loop along a complete valid generation returns the
chain's payload bytes. -/
theorem readLoop_chain (cfg : Cfg) (st : St) (s age : Nat) (chain : List Nat)
    (startLen : Nat) (hchain : validChain cfg st.mem s age chain startLen)
    (hU1 : 1 ≤ cfg.userData) :
    ∀ (fuel k : Nat) (acc : List Nat), k < chain.length →
      chain.length - k ≤ fuel →
      readLoop cfg st fuel (chain.getD k 0)
          (startLen + 1 - k * cfg.userData) acc
        = (true, acc ++ chainBytes cfg st.mem (chain.drop k)
            (startLen + 1 - k * cfg.userData)) := by
  obtain ⟨hne, hnodup, hlt, hlen0, hlenlo, hlenhi, hper⟩ := hchain
  intro fuel
  induction fuel with
  | zero => intro k acc hk hfuel; omega
  | succ n ih =>
    intro k acc hk hfuel
    obtain ⟨hslotk, hvalidk, hagek, hstartk, hlastk, hlinkk⟩ := hper k hk
    have hmulk : k * cfg.userData ≤ (chain.length - 1) * cfg.userData :=
      Nat.mul_le_mul_right _ (by omega)
    have hrem_pos : 0 < startLen + 1 - k * cfg.userData := by omega
    have hdropk : chain.drop k = chain.getD k 0 :: chain.drop (k + 1) := by
      rw [List.getD_eq_getElem chain 0 hk]
      exact List.drop_eq_getElem_cons hk
    by_cases hklast : k + 1 = chain.length
    · have hlf : flagsLastB (st.mem (chain.getD k 0 * cfg.clusterSize + 1))
          = true := hlastk.mpr hklast
      have hlf2 : (st.mem (chain.getD k 0 * cfg.clusterSize + 1) &&& 0x10)
          ≠ 0 := by
        simpa [flagsLastB] using hlf
      simp only [readLoop]
      rw [if_neg (show ¬((st.mem (chain.getD k 0 * cfg.clusterSize + 1)
            &&& 0x10) = 0 ∧
          0 < startLen + 1 - k * cfg.userData
            - min (startLen + 1 - k * cfg.userData) cfg.userData)
        from fun hcon => hlf2 hcon.1)]
      rw [hdropk]
      simp only [chainBytes]
      rw [show chain.drop (k + 1) = [] from List.drop_eq_nil_of_le (by omega)]
      simp only [chainBytes]
      rw [List.append_nil]
    · have hlf : flagsLastB (st.mem (chain.getD k 0 * cfg.clusterSize + 1))
          = false := by
        rcases Bool.eq_false_or_eq_true
          (flagsLastB (st.mem (chain.getD k 0 * cfg.clusterSize + 1)))
          with h | h
        · exact absurd (hlastk.mp h) hklast
        · exact h
      have hlf2 : (st.mem (chain.getD k 0 * cfg.clusterSize + 1) &&& 0x10)
          = 0 := by
        simpa [flagsLastB] using hlf
      have hk1 : k + 1 < chain.length := by omega
      have hmulk1 : (k + 1) * cfg.userData ≤ (chain.length - 1) * cfg.userData :=
        Nat.mul_le_mul_right _ (by omega)
      have hmin : min (startLen + 1 - k * cfg.userData) cfg.userData
          = cfg.userData := by
        rw [Nat.min_eq_right]
        have : (k + 1) * cfg.userData = k * cfg.userData + cfg.userData := by ring
        omega
      have hrem1 : startLen + 1 - k * cfg.userData - cfg.userData
          = startLen + 1 - (k + 1) * cfg.userData := by
        have : (k + 1) * cfg.userData = k * cfg.userData + cfg.userData := by ring
        omega
      have hrem1_pos : 0 < startLen + 1 - (k + 1) * cfg.userData := by
        have : (k + 1) * cfg.userData = k * cfg.userData + cfg.userData := by ring
        omega
      have hlink : st.mem (chain.getD k 0 * cfg.clusterSize + 2)
          = chain.getD (k + 1) 0 := hlinkk hk1
      simp only [readLoop]
      rw [hmin, hrem1, hlink]
      rw [if_pos ⟨hlf2, hrem1_pos⟩]
      rw [ih (k + 1) _ hk1 (by omega)]
      rw [hdropk]
      simp only [chainBytes]
      rw [hmin, hrem1, List.append_assoc]

/-- The payload bytes of a chain only depend on the bytes of the chain's
clusters. -/
theorem chainBytes_congr (cfg : Cfg) (mem1 mem2 : Nat → Nat)
    (hU5 : cfg.userData + 5 ≤ cfg.clusterSize) :
    ∀ (l : List Nat) (rem : Nat),
      (∀ c ∈ l, ∀ off, off < cfg.clusterSize →
        mem1 (c * cfg.clusterSize + off) = mem2 (c * cfg.clusterSize + off)) →
      chainBytes cfg mem1 l rem = chainBytes cfg mem2 l rem := by
  intro l
  induction l with
  | nil => intro rem _; rfl
  | cons c rest ih =>
    intro rem hframe
    simp only [chainBytes]
    rw [ih _ (fun c2 hc2 => hframe c2 (List.mem_cons_of_mem c hc2))]
    have hrb : readBufPure mem1 (c * cfg.clusterSize + 4) (min rem cfg.userData)
        = readBufPure mem2 (c * cfg.clusterSize + 4) (min rem cfg.userData) := by
      unfold readBufPure
      apply List.map_congr_left
      intro i hi
      rw [List.mem_range] at hi
      have hmin : min rem cfg.userData ≤ cfg.userData := Nat.min_le_right _ _
      have := hframe c (List.mem_cons_self c rest) (4 + i) (by omega)
      rw [show c * cfg.clusterSize + 4 + i = c * cfg.clusterSize + (4 + i)
        from by omega]
      exact this
    rw [hrb]

/-- A complete valid generation survives any change outside its
clusters. -/
theorem validChain_congr (cfg : Cfg) (mem1 mem2 : Nat → Nat) (s age : Nat)
    (chain : List Nat) (startLen : Nat) (hC : 7 ≤ cfg.clusterSize)
    (hchain : validChain cfg mem1 s age chain startLen)
    (hframe : ∀ c ∈ chain, ∀ off, off < cfg.clusterSize →
      mem2 (c * cfg.clusterSize + off) = mem1 (c * cfg.clusterSize + off)) :
    validChain cfg mem2 s age chain startLen := by
  obtain ⟨hne, hnodup, hlt, hlen0, hlenlo, hlenhi, hper⟩ := hchain
  have hlenpos : 0 < chain.length := List.length_pos.mpr hne
  refine ⟨hne, hnodup, hlt, ?_, hlenlo, hlenhi, ?_⟩
  · rw [hframe _ (getD_mem_of_lt chain 0 hlenpos) 3 (by omega)]
    exact hlen0
  · intro i hi
    obtain ⟨hslot, hvalid, hage, hstart, hlast, hlink⟩ := hper i hi
    have hmemi : chain.getD i 0 ∈ chain := getD_mem_of_lt chain i hi
    have hf0 := hframe _ hmemi 0 (by omega)
    rw [Nat.add_zero] at hf0
    have hf1 := hframe _ hmemi 1 (by omega)
    have hf2 := hframe _ hmemi 2 (by omega)
    refine ⟨by rw [hf0]; exact hslot, ?_, by rw [hf1]; exact hage,
      by rw [hf1]; exact hstart, by rw [hf1]; exact hlast,
      fun h => by rw [hf2]; exact hlink h⟩
    rw [clusterValid_congr cfg mem2 mem1 (chain.getD i 0) hC
      (fun off hoff => hframe _ hmemi off hoff)]
    exact hvalid

/-- Every cluster of a valid generation carries the slot number. -/
theorem chain_slot_byte (cfg : Cfg) (mem : Nat → Nat) (s age : Nat)
    (chain : List Nat) (startLen : Nat)
    (hchain : validChain cfg mem s age chain startLen) :
    ∀ m ∈ chain, mem (m * cfg.clusterSize) = s := by
  obtain ⟨-, -, -, -, -, -, hper⟩ := hchain
  intro m hm
  obtain ⟨i, hi, hgi⟩ := List.getElem_of_mem hm
  have hgd : chain.getD i 0 = m := by rw [List.getD_eq_getElem chain 0 hi, hgi]
  obtain ⟨hslot, -, -, -, -, -⟩ := hper i hi
  rw [hgd] at hslot
  exact hslot

/-- Within a valid generation, the chain head is the only cluster with
the start flag. -/
theorem chain_start_iff (cfg : Cfg) (mem : Nat → Nat) (s age : Nat)
    (chain : List Nat) (startLen : Nat)
    (hchain : validChain cfg mem s age chain startLen) :
    ∀ m ∈ chain,
      ((mem (m * cfg.clusterSize + 1) &&& 0x20) ≠ 0) ↔ m = chain.getD 0 0 := by
  obtain ⟨hne, hnodup, -, -, -, -, hper⟩ := hchain
  have hlenpos : 0 < chain.length := List.length_pos.mpr hne
  intro m hm
  obtain ⟨i, hi, hgi⟩ := List.getElem_of_mem hm
  have hgd : chain.getD i 0 = m := by rw [List.getD_eq_getElem chain 0 hi, hgi]
  obtain ⟨-, -, -, hstart, -, -⟩ := hper i hi
  rw [hgd] at hstart
  constructor
  · intro hflag
    have hsb : flagsStartB (mem (m * cfg.clusterSize + 1)) = true := by
      simpa [flagsStartB] using hflag
    rw [← hgd, hstart.mp hsb]
  · intro hmh
    have hi0 : i = 0 := by
      have he : chain.getD i 0 = chain.getD 0 0 := by rw [hgd, hmh]
      rw [List.getD_eq_getElem chain 0 hi,
        List.getD_eq_getElem chain 0 hlenpos] at he
      exact hnodup.getElem_inj_iff.mp he
    have hsb := hstart.mpr hi0
    simpa [flagsStartB] using hsb

/-- The fields of pass 1 run on a freshly constructed object. -/
theorem pass1_init_fields (cfg : Cfg) (mem : Nat → Nat) :
    (pass1 cfg (initSt mem)).mem = mem ∧
    (pass1 cfg (initSt mem)).trace = [] ∧
    (pass1 cfg (initSt mem)).initDone = false ∧
    (∀ j, (pass1 cfg (initSt mem)).usedCluster j
      = if j < cfg.clusterCnt ∧ clusterValid cfg mem j = true then true
        else false) ∧
    (∀ b, (pass1 cfg (initSt mem)).slotAvail b = true ↔
      ∃ c, c < cfg.clusterCnt ∧ clusterValid cfg mem c = true ∧
        mem (c * cfg.clusterSize) - 1 = b) := by
  obtain ⟨hmem, htr, hinit, hused, havail⟩ :=
    pass1_spec cfg (initSt mem) cfg.clusterCnt
  refine ⟨hmem, htr, hinit, fun j => hused j, fun b => ?_⟩
  rw [show (pass1 cfg (initSt mem)).slotAvail
    = ((List.range cfg.clusterCnt).foldl (pass1Step cfg)
      (initSt mem)).slotAvail from rfl, havail b]
  constructor
  · rintro (h | h)
    · exact absurd h (by simp [initSt])
    · exact h
  · exact fun h => Or.inr h

/-- A selection round whose attempt succeeds returns that attempt's
surviving set. -/
theorem selLoop_step_success (cfg : Cfg) (st : St) (scan : SlotScan)
    (fuel mask a : Nat) (v : Nat → Bool)
    (hfuel : 0 < fuel) (hmask : 0 < mask)
    (htm : tryMask cfg st scan mask = (v, false, a)) :
    selLoop cfg st scan fuel mask = some v := by
  cases fuel with
  | zero => omega
  | succ f =>
    cases mask with
    | zero => omega
    | succ m =>
      simp only [selLoop]
      rw [htm]
      simp

/-- A selection round whose attempt errs strips the attempted age bit and
retries with one round less. -/
theorem selLoop_step_fail (cfg : Cfg) (st : St) (scan : SlotScan)
    (fuel mask a : Nat) (v : Nat → Bool)
    (hfuel : 0 < fuel) (hmask : 0 < mask)
    (htm : tryMask cfg st scan mask = (v, true, a)) :
    selLoop cfg st scan fuel mask
      = selLoop cfg st scan (fuel - 1) (mask &&& (255 ^^^ (1 <<< a))) := by
  cases fuel with
  | zero => omega
  | succ f =>
    cases mask with
    | zero => omega
    | succ m =>
      simp only [selLoop]
      rw [htm]
      simp

/-- The effect of one pass-2 slot when a winner is selected: the
invalidation fold with the winner's surviving set, the slot stays
available. -/
theorem pass2Slot_run (cfg : Cfg) (st : St) (s : Nat) (v : Nat → Bool)
    (havail : isSlotBitSetF cfg st.slotAvail s = true)
    (hsel : selLoop cfg st (collectSlot cfg st s) 16 (collectSlot cfg st s).mask
      = some v) :
    pass2Slot cfg st s
      = (List.range cfg.clusterCnt).foldl
          (invalidateStep cfg (collectSlot cfg st s) true v) st := by
  simp only [pass2Slot]
  rw [if_neg (by rw [havail]; simp)]
  rw [hsel]
  simp only [Option.isSome_some, Option.getD_some, if_true]

/-- Splitting a range' at an interior point. -/
theorem range'_split : ∀ (m a n : Nat),
    List.range' a (m + n) = List.range' a m ++ List.range' (a + m) n := by
  intro m
  induction m with
  | zero => intro a n; simp
  | succ k ih =>
    intro a n
    rw [show k + 1 + n = (k + n) + 1 from by omega]
    rw [List.range'_succ, List.range'_succ, ih (a + 1) n, List.cons_append]
    rw [show a + 1 + k = a + (k + 1) from by omega]

/-- Folding pass 2 over all slots when only slot s is available: only the
s iteration acts. -/
theorem pass2_fold_run (cfg : Cfg) (st : St) (s : Nat) (stAfter : St)
    (hs1 : 1 ≤ s) (hs2 : s ≤ cfg.lastSlot)
    (havailOnly : ∀ b, st.slotAvail b = true ↔ b = s - 1)
    (hrun : pass2Slot cfg st s = stAfter)
    (havailAfter : stAfter.slotAvail = st.slotAvail) :
    (List.range' 1 cfg.lastSlot).foldl (pass2Slot cfg) st = stAfter := by
  have hskip : ∀ (st2 : St) (b : Nat), st2.slotAvail = st.slotAvail → b ≠ s →
      isSlotBitSetF cfg st2.slotAvail b = false := by
    intro st2 b hav hb
    unfold isSlotBitSetF
    split
    · rw [hav, Bool.eq_false_iff]
      intro h
      have := (havailOnly (b - 1)).mp h
      rename_i hrange
      omega
    · rfl
  rw [show cfg.lastSlot = (s - 1) + (1 + (cfg.lastSlot - s)) from by omega]
  rw [range'_split, List.foldl_append]
  rw [pass2_skip cfg (List.range' 1 (s - 1)) st
    (fun b hb => hskip st b rfl (by
      rw [List.mem_range'_1] at hb
      omega))]
  rw [show (1 + (s - 1)) = s from by omega]
  rw [show (1 + (cfg.lastSlot - s)) = (cfg.lastSlot - s) + 1 from by omega]
  rw [List.range'_succ, List.foldl_cons, hrun]
  exact pass2_skip cfg _ stAfter (fun b hb => hskip stAfter b havailAfter (by
    rw [List.mem_range'_1] at hb
    omega))

/-- readSlot on a state whose index holds exactly one complete valid
generation returns the generation's payload. -/
theorem readSlot_chain (cfg : Cfg) (st : St) (s age : Nat) (chain : List Nat)
    (startLen lenIn : Nat) (hC : 7 ≤ cfg.clusterSize)
    (hchain : validChain cfg st.mem s age chain startLen)
    (hinit : st.initDone = true)
    (hused : ∀ c, st.usedCluster c = true ↔ c ∈ chain)
    (hlenIn : startLen + 1 ≤ lenIn) :
    readSlot cfg st s false lenIn
      = (true, startLen + 1, chainBytes cfg st.mem chain (startLen + 1)) := by
  have hU1 : 1 ≤ cfg.userData := by unfold Cfg.userData; split <;> omega
  have hlenpos : 0 < chain.length := List.length_pos.mpr hchain.1
  have hheadmem : chain.getD 0 0 ∈ chain := getD_mem_of_lt chain 0 hlenpos
  have hheadlt : chain.getD 0 0 < cfg.clusterCnt := hchain.2.2.1 _ hheadmem
  have hslotm := chain_slot_byte cfg st.mem s age chain startLen hchain
  have hstartm := chain_start_iff cfg st.mem s age chain startLen hchain
  have hfind : findStartCluser cfg st s = some (chain.getD 0 0) := by
    unfold findStartCluser
    apply find_unique_list
    · rw [List.mem_range]
      exact hheadlt
    · rw [Bool.and_eq_true, Bool.and_eq_true]
      refine ⟨⟨?_, ?_⟩, ?_⟩
      · exact (hused _).mpr hheadmem
      · rw [beq_iff_eq]
        exact hslotm _ hheadmem
      · rw [bne_iff_ne]
        exact (hstartm _ hheadmem).mpr rfl
    · intro b hb hpb
      rw [Bool.and_eq_true, Bool.and_eq_true] at hpb
      obtain ⟨⟨hub, hsb⟩, hstb⟩ := hpb
      have hbmem : b ∈ chain := (hused b).mp hub
      rw [bne_iff_ne] at hstb
      exact (hstartm b hbmem).mp hstb
  have hlenle : chain.length ≤ startLen + 1 := by
    have h1 : chain.length - 1 ≤ (chain.length - 1) * cfg.userData :=
      Nat.le_mul_of_pos_right _ (by omega)
    have h2 : (chain.length - 1) * cfg.userData < startLen + 1 :=
      hchain.2.2.2.2.1
    omega
  have hrl := readLoop_chain cfg st s age chain startLen hchain hU1
    (startLen + 1) 0 [] hlenpos (by omega)
  rw [show startLen + 1 - 0 * cfg.userData = startLen + 1 from by omega,
    List.drop_zero, List.nil_append] at hrl
  unfold readSlot
  rw [if_neg (by rw [hinit]; simp)]
  simp only [hfind]
  rw [show st.mem (chain.getD 0 0 * cfg.clusterSize + 3) = startLen
    from hchain.2.2.2.1]
  rw [if_neg (by omega)]
  rw [if_neg (by simp)]
  rw [hrl]

/-- Every cluster of a valid generation passes pass-1 validation. -/
theorem chain_member_valid (cfg : Cfg) (mem : Nat → Nat) (s age : Nat)
    (chain : List Nat) (startLen : Nat)
    (hchain : validChain cfg mem s age chain startLen) :
    ∀ m ∈ chain, clusterValid cfg mem m = true := by
  obtain ⟨-, -, -, -, -, -, hper⟩ := hchain
  intro m hm
  obtain ⟨i, hi, hgi⟩ := List.getElem_of_mem hm
  have hgd : chain.getD i 0 = m := by rw [List.getD_eq_getElem chain 0 hi, hgi]
  obtain ⟨-, hvalid, -, -, -, -⟩ := hper i hi
  rw [hgd] at hvalid
  exact hvalid

/-- A duplicate-free chain of cluster indices has at most S_CLUSTER_CNT
entries. -/
theorem chain_length_le (cfg : Cfg) (chain : List Nat) (hnodup : chain.Nodup)
    (hlt : ∀ c ∈ chain, c < cfg.clusterCnt) :
    chain.length ≤ cfg.clusterCnt := by
  have hsub : chain ⊆ List.range cfg.clusterCnt :=
    fun c hc => List.mem_range.mpr (hlt c hc)
  have := (hnodup.subperm hsub).length_le
  rw [List.length_range] at this
  exact this

/-- Recovery on a medium holding one complete valid generation of slot s
and nothing else indexed: begin() succeeds, writes nothing, indexes
exactly the chain, and readSlot returns the generation's payload. -/
theorem c2_runA (cfg : Cfg) (mem : Nat → Nat) (s age : Nat)
    (chain : List Nat) (startLen lenIn : Nat)
    (hC : 7 ≤ cfg.clusterSize) (hN : cfg.clusterCnt ≤ 256)
    (hs1 : 1 ≤ s) (hs2 : s ≤ cfg.lastSlot)
    (hchain : validChain cfg mem s age chain startLen)
    (hage4 : age < 4)
    (hothers : ∀ c, c < cfg.clusterCnt → c ∉ chain →
      clusterValid cfg mem c = false)
    (hlenIn : startLen + 1 ≤ lenIn) :
    (begin cfg (initSt mem)).2 = true ∧
    (begin cfg (initSt mem)).1.mem = mem ∧
    (begin cfg (initSt mem)).1.trace = [] ∧
    (∀ c, (begin cfg (initSt mem)).1.usedCluster c = true ↔ c ∈ chain) ∧
    readSlot cfg (begin cfg (initSt mem)).1 s false lenIn
      = (true, startLen + 1, chainBytes cfg mem chain (startLen + 1)) := by
  obtain ⟨hmem1, htr1, hinit1, hused1, havail1⟩ := pass1_init_fields cfg mem
  have hlenpos : 0 < chain.length := List.length_pos.mpr hchain.1
  have hheadmem : chain.getD 0 0 ∈ chain := getD_mem_of_lt chain 0 hlenpos
  have hslotm := chain_slot_byte cfg mem s age chain startLen hchain
  have hvalidm := chain_member_valid cfg mem s age chain startLen hchain
  have husedIff : ∀ c, (pass1 cfg (initSt mem)).usedCluster c = true ↔
      c ∈ chain := by
    intro c
    rw [hused1 c]
    by_cases hcv : c < cfg.clusterCnt ∧ clusterValid cfg mem c = true
    · rw [if_pos hcv]
      refine ⟨fun _ => ?_, fun _ => rfl⟩
      by_contra hnot
      rw [hothers c hcv.1 hnot] at hcv
      exact absurd hcv.2 (by simp)
    · rw [if_neg hcv]
      constructor
      · intro h; exact absurd h (by simp)
      · intro hmemc
        exact absurd ⟨hchain.2.2.1 c hmemc, hvalidm c hmemc⟩ hcv
  have havailIff : ∀ b, (pass1 cfg (initSt mem)).slotAvail b = true ↔
      b = s - 1 := by
    intro b
    rw [havail1 b]
    constructor
    · rintro ⟨c, hc1, hc2, hc3⟩
      have hcmem : c ∈ chain := by
        by_contra hnot
        rw [hothers c hc1 hnot] at hc2
        exact absurd hc2 (by simp)
      rw [hslotm c hcmem] at hc3
      omega
    · intro hb
      refine ⟨chain.getD 0 0, hchain.2.2.1 _ hheadmem, hvalidm _ hheadmem, ?_⟩
      rw [hslotm _ hheadmem]
      omega
  have hchain1 : validChain cfg (pass1 cfg (initSt mem)).mem s age chain
      startLen := by
    rw [hmem1]; exact hchain
  obtain ⟨hcol1, hcol2, hcol3⟩ := collect_specA cfg (pass1 cfg (initSt mem))
    s age chain startLen hchain1 husedIff
  have htab : (S_AGE_BITS_TO_OLDEST.getD (1 <<< age) 0) &&& 0x03 = age := by
    interval_cases age <;> decide
  have hlen300 : chain.length ≤ 300 := by
    have := chain_length_le cfg chain hchain.2.1 hchain.2.2.1
    omega
  obtain ⟨v, htm, hv⟩ := tryMask_success cfg (pass1 cfg (initSt mem))
    (collectSlot cfg (pass1 cfg (initSt mem)) s) (1 <<< age) s age chain
    startLen hchain1 hlen300 htab hcol2 (fun c hc => (hcol1 c).mpr hc)
  have hmaskpos : 0 < 1 <<< age := by
    rw [Nat.one_shiftLeft]
    exact Nat.two_pow_pos age
  have hsel : selLoop cfg (pass1 cfg (initSt mem))
      (collectSlot cfg (pass1 cfg (initSt mem)) s) 16
      (collectSlot cfg (pass1 cfg (initSt mem)) s).mask = some v := by
    rw [hcol3]
    exact selLoop_step_success cfg _ _ 16 (1 <<< age) age v (by omega)
      hmaskpos htm
  have havailS : isSlotBitSetF cfg (pass1 cfg (initSt mem)).slotAvail s
      = true := by
    unfold isSlotBitSetF
    rw [if_pos ⟨hs1, hs2⟩]
    exact (havailIff (s - 1)).mpr rfl
  have hrun : pass2Slot cfg (pass1 cfg (initSt mem)) s
      = pass1 cfg (initSt mem) := by
    rw [pass2Slot_run cfg _ s v havailS hsel]
    exact invalidate_fold_id cfg _ v
      (fun c hc => (hv c).mpr ((hcol1 c).mp hc)) _ _
  have hfold : (List.range' 1 cfg.lastSlot).foldl (pass2Slot cfg)
      (pass1 cfg (initSt mem)) = pass1 cfg (initSt mem) :=
    pass2_fold_run cfg _ s _ hs1 hs2 havailIff hrun rfl
  have hbegin := begin_eq cfg (initSt mem) rfl
  rw [hfold] at hbegin
  rw [hbegin]
  have hmemF : ({ pass1 cfg (initSt mem) with initDone := true } : St).mem
      = mem := hmem1
  refine ⟨rfl, hmem1, htr1, fun c => husedIff c, ?_⟩
  rw [readSlot_chain cfg { pass1 cfg (initSt mem) with initDone := true }
    s age chain startLen lenIn hC hchain1 rfl (fun c => husedIff c) hlenIn]
  rw [hmemF]

/-- Winner selection when the table directly names the complete
generation's age. -/
theorem sel_resolve_direct (cfg : Cfg) (st : St) (scan : SlotScan)
    (s age : Nat) (chain : List Nat) (startLen : Nat)
    (hchain : validChain cfg st.mem s age chain startLen)
    (hlen300 : chain.length ≤ 300)
    (hMpos : 0 < scan.mask)
    (htab : (S_AGE_BITS_TO_OLDEST.getD scan.mask 0) &&& 0x03 = age)
    (hfirst : scan.firstCl age = chain.getD 0 0)
    (hu : ∀ c ∈ chain, scan.usedBySlot c = true) :
    ∃ v, selLoop cfg st scan 16 scan.mask = some v ∧
      (∀ c, v c = true ↔ c ∈ chain) := by
  obtain ⟨v, htm, hv⟩ := tryMask_success cfg st scan scan.mask s age chain
    startLen hchain hlen300 htab hfirst hu
  exact ⟨v, selLoop_step_success cfg st scan 16 scan.mask age v (by omega)
    hMpos htm, hv⟩

/-- Winner selection when the table first names the incomplete start
cluster's age: that walk errs, the bit is stripped, and the retry selects
the complete generation. -/
theorem sel_resolve_two (cfg : Cfg) (st : St) (scan : SlotScan)
    (s age xage x : Nat) (chain : List Nat) (startLen : Nat)
    (hchain : validChain cfg st.mem s age chain startLen)
    (hlen300 : chain.length ≤ 300)
    (hMpos : 0 < scan.mask)
    (htabx : (S_AGE_BITS_TO_OLDEST.getD scan.mask 0) &&& 0x03 = xage)
    (hfirstx : scan.firstCl xage = x)
    (hlastx : (st.mem (x * cfg.clusterSize + 1) &&& 0x10) = 0)
    (husedy : scan.usedBySlot (st.mem (x * cfg.clusterSize + 2)) = false)
    (hM2pos : 0 < scan.mask &&& (255 ^^^ (1 <<< xage)))
    (htab2 : (S_AGE_BITS_TO_OLDEST.getD
        (scan.mask &&& (255 ^^^ (1 <<< xage))) 0) &&& 0x03 = age)
    (hfirst : scan.firstCl age = chain.getD 0 0)
    (hu : ∀ c ∈ chain, scan.usedBySlot c = true) :
    ∃ v, selLoop cfg st scan 16 scan.mask = some v ∧
      (∀ c, v c = true ↔ c ∈ chain) := by
  obtain ⟨vx, htmx⟩ := tryMask_failx cfg st scan scan.mask xage x htabx
    hfirstx hlastx husedy
  obtain ⟨v, htm, hv⟩ := tryMask_success cfg st scan
    (scan.mask &&& (255 ^^^ (1 <<< xage))) s age chain startLen hchain
    hlen300 htab2 hfirst hu
  refine ⟨v, ?_, hv⟩
  rw [selLoop_step_fail cfg st scan 16 scan.mask xage vx (by omega) hMpos htmx]
  exact selLoop_step_success cfg st scan (16 - 1)
    (scan.mask &&& (255 ^^^ (1 <<< xage))) age v (by omega) hM2pos htm

/-- Recovery on a medium holding one complete valid generation of slot s
plus one additional indexed start cluster x of a different age whose link
target is not among the slot's clusters: begin() succeeds, invalidates
exactly x (one write of 0x00 to its slot byte), keeps the chain indexed,
and readSlot returns the complete generation's payload. -/
theorem c2_runB (cfg : Cfg) (mem : Nat → Nat) (s age xage x : Nat)
    (chain : List Nat) (startLen lenIn : Nat)
    (hC : 7 ≤ cfg.clusterSize) (hN : cfg.clusterCnt ≤ 256)
    (hs1 : 1 ≤ s) (hs2 : s ≤ cfg.lastSlot)
    (hchain : validChain cfg mem s age chain startLen)
    (hage4 : age < 4) (hxage4 : xage < 4) (hagene : xage ≠ age)
    (hx : x < cfg.clusterCnt) (hxnot : x ∉ chain)
    (hxvalid : clusterValid cfg mem x = true)
    (hxslot : mem (x * cfg.clusterSize) = s)
    (hxstart : flagsStartB (mem (x * cfg.clusterSize + 1)) = true)
    (hxagef : flagsAge (mem (x * cfg.clusterSize + 1)) = xage)
    (hxlast : flagsLastB (mem (x * cfg.clusterSize + 1)) = false)
    (hylink : mem (x * cfg.clusterSize + 2) ∉ chain)
    (hylinkx : mem (x * cfg.clusterSize + 2) ≠ x)
    (hothers : ∀ c, c < cfg.clusterCnt → c ∉ chain → c ≠ x →
      clusterValid cfg mem c = false)
    (hlenIn : startLen + 1 ≤ lenIn) :
    (begin cfg (initSt mem)).2 = true ∧
    (begin cfg (initSt mem)).1.mem = updN mem (x * cfg.clusterSize) 0 ∧
    (begin cfg (initSt mem)).1.trace = [(x * cfg.clusterSize, 0)] ∧
    (begin cfg (initSt mem)).1.usedCluster x = false ∧
    readSlot cfg (begin cfg (initSt mem)).1 s false lenIn
      = (true, startLen + 1, chainBytes cfg mem chain (startLen + 1)) := by
  have hU5 : cfg.userData + 5 ≤ cfg.clusterSize := by
    unfold Cfg.userData; split <;> omega
  obtain ⟨hmem1, htr1, hinit1, hused1, havail1⟩ := pass1_init_fields cfg mem
  have hlenpos : 0 < chain.length := List.length_pos.mpr hchain.1
  have hheadmem : chain.getD 0 0 ∈ chain := getD_mem_of_lt chain 0 hlenpos
  have hslotm := chain_slot_byte cfg mem s age chain startLen hchain
  have hvalidm := chain_member_valid cfg mem s age chain startLen hchain
  have husedIff : ∀ c, (pass1 cfg (initSt mem)).usedCluster c = true ↔
      (c ∈ chain ∨ c = x) := by
    intro c
    rw [hused1 c]
    by_cases hcv : c < cfg.clusterCnt ∧ clusterValid cfg mem c = true
    · rw [if_pos hcv]
      refine ⟨fun _ => ?_, fun _ => rfl⟩
      by_cases hcc : c ∈ chain
      · exact Or.inl hcc
      · by_cases hcx : c = x
        · exact Or.inr hcx
        · rw [hothers c hcv.1 hcc hcx] at hcv
          exact absurd hcv.2 (by simp)
    · rw [if_neg hcv]
      constructor
      · intro h; exact absurd h (by simp)
      · rintro (h | h)
        · exact absurd ⟨hchain.2.2.1 c h, hvalidm c h⟩ hcv
        · subst h
          exact absurd ⟨hx, hxvalid⟩ hcv
  have havailIff : ∀ b, (pass1 cfg (initSt mem)).slotAvail b = true ↔
      b = s - 1 := by
    intro b
    rw [havail1 b]
    constructor
    · rintro ⟨c, hc1, hc2, hc3⟩
      by_cases hcc : c ∈ chain
      · rw [hslotm c hcc] at hc3
        omega
      · by_cases hcx : c = x
        · subst hcx
          rw [hxslot] at hc3
          omega
        · rw [hothers c hc1 hcc hcx] at hc2
          exact absurd hc2 (by simp)
    · intro hb
      refine ⟨chain.getD 0 0, hchain.2.2.1 _ hheadmem, hvalidm _ hheadmem, ?_⟩
      rw [hslotm _ hheadmem]
      omega
  have hchain1 : validChain cfg (pass1 cfg (initSt mem)).mem s age chain
      startLen := by
    rw [hmem1]; exact hchain
  obtain ⟨hcol1, hcol2, hcol3, hcol4⟩ := collect_specB cfg
    (pass1 cfg (initSt mem)) s age xage x chain startLen hchain1 husedIff
    hx hxnot (by rw [hmem1]; exact hxslot)
    (by rw [hmem1]; simpa [flagsStartB] using hxstart)
    (by rw [hmem1]; exact hxagef) hagene
  have hlen300 : chain.length ≤ 300 := by
    have := chain_length_le cfg chain hchain.2.1 hchain.2.2.1
    omega
  have huB : ∀ c ∈ chain, (collectSlot cfg (pass1 cfg (initSt mem)) s).usedBySlot
      c = true := fun c hc => (hcol1 c).mpr (Or.inl hc)
  have hlastx1 : ((pass1 cfg (initSt mem)).mem (x * cfg.clusterSize + 1)
      &&& 0x10) = 0 := by
    rw [hmem1]
    simpa [flagsLastB] using hxlast
  have husedy1 : (collectSlot cfg (pass1 cfg (initSt mem)) s).usedBySlot
      ((pass1 cfg (initSt mem)).mem (x * cfg.clusterSize + 2)) = false := by
    rw [hmem1, Bool.eq_false_iff]
    intro h
    rcases (hcol1 _).mp h with h2 | h2
    · exact hylink h2
    · exact hylinkx h2
  have hselE : ∃ v, selLoop cfg (pass1 cfg (initSt mem))
      (collectSlot cfg (pass1 cfg (initSt mem)) s) 16
      (collectSlot cfg (pass1 cfg (initSt mem)) s).mask = some v ∧
      (∀ c, v c = true ↔ c ∈ chain) := by
    interval_cases age <;> interval_cases xage <;>
      first
        | exact absurd rfl hagene
        | exact sel_resolve_direct cfg (pass1 cfg (initSt mem)) _ s _ chain
            startLen hchain1 hlen300 (by rw [hcol4]; decide)
            (by rw [hcol4]; decide) hcol2 huB
        | exact sel_resolve_two cfg (pass1 cfg (initSt mem)) _ s _ _ x chain
            startLen hchain1 hlen300 (by rw [hcol4]; decide)
            (by rw [hcol4]; decide) hcol3 hlastx1 husedy1
            (by rw [hcol4]; decide) (by rw [hcol4]; decide) hcol2 huB
  obtain ⟨v, hsel, hv⟩ := hselE
  have havailS : isSlotBitSetF cfg (pass1 cfg (initSt mem)).slotAvail s
      = true := by
    unfold isSlotBitSetF
    rw [if_pos ⟨hs1, hs2⟩]
    exact (havailIff (s - 1)).mpr rfl
  have hrun : pass2Slot cfg (pass1 cfg (initSt mem)) s
      = clearCluster cfg (pass1 cfg (initSt mem)) x := by
    rw [pass2Slot_run cfg _ s v havailS hsel]
    exact invalidate_fold_single cfg _ v x
      ((hcol1 x).mpr (Or.inr rfl))
      (Bool.eq_false_iff.mpr (fun h => hxnot ((hv x).mp h)))
      (fun c hc hcu => (hv c).mpr (by
        rcases (hcol1 c).mp hcu with h2 | h2
        · exact h2
        · exact absurd h2 hc))
      cfg.clusterCnt _ hx
  have hfold : (List.range' 1 cfg.lastSlot).foldl (pass2Slot cfg)
      (pass1 cfg (initSt mem)) = clearCluster cfg (pass1 cfg (initSt mem)) x :=
    pass2_fold_run cfg _ s _ hs1 hs2 havailIff hrun rfl
  have hbegin := begin_eq cfg (initSt mem) rfl
  rw [hfold] at hbegin
  rw [hbegin]
  have hmemF : ({ clearCluster cfg (pass1 cfg (initSt mem)) x with
      initDone := true } : St).mem = updN mem (x * cfg.clusterSize) 0 := by
    show updN (pass1 cfg (initSt mem)).mem (x * cfg.clusterSize) 0
      = updN mem (x * cfg.clusterSize) 0
    rw [hmem1]
  have hframe : ∀ c ∈ chain, ∀ off, off < cfg.clusterSize →
      updN mem (x * cfg.clusterSize) 0 (c * cfg.clusterSize + off)
        = mem (c * cfg.clusterSize + off) := by
    intro c hc off hoff
    rw [updN_other]
    have := cluster_ranges_disjoint cfg.clusterSize c x off 0 hoff (by omega)
      (fun h => hxnot (h ▸ hc))
    omega
  have hchainF : validChain cfg (updN mem (x * cfg.clusterSize) 0) s age
      chain startLen :=
    validChain_congr cfg mem (updN mem (x * cfg.clusterSize) 0) s age chain
      startLen hC hchain hframe
  have husedF : ∀ c, ({ clearCluster cfg (pass1 cfg (initSt mem)) x with
      initDone := true } : St).usedCluster c = true ↔ c ∈ chain := by
    intro c
    show updB (pass1 cfg (initSt mem)).usedCluster x false c = true ↔ _
    by_cases hc : c = x
    · subst hc
      rw [updB_self]
      constructor
      · intro h; exact absurd h (by simp)
      · intro h; exact absurd h hxnot
    · rw [updB_other _ _ _ _ hc, husedIff c]
      constructor
      · rintro (h | h)
        · exact h
        · exact absurd h hc
      · exact fun h => Or.inl h
  refine ⟨rfl, hmemF, ?_, ?_, ?_⟩
  · show (pass1 cfg (initSt mem)).trace ++ [(x * cfg.clusterSize, 0)] = _
    rw [htr1]
    rfl
  · show updB (pass1 cfg (initSt mem)).usedCluster x false x = false
    rw [updB_self]
  · rw [readSlot_chain cfg
      { clearCluster cfg (pass1 cfg (initSt mem)) x with initDone := true }
      s age chain startLen lenIn hC (by rw [hmemF]; exact hchainF) rfl
      husedF hlenIn]
    rw [hmemF]
    rw [chainBytes_congr cfg (updN mem (x * cfg.clusterSize) 0) mem hU5
      chain (startLen + 1) (fun c hc off hoff => hframe c hc off hoff)]

/-- With valid arguments, an existing generation, enough credited space
and a successful allocation, writeSlot is the reverse cluster-write loop
followed by the removal of the old chain. -/
theorem writeSlot_eq_overwrite (cfg : Cfg) (rnd : Option Nat) (st : St) (slot : Nat)
    (d : List Nat) (len old : Nat) (cls : List Nat)
    (hInit : st.initDone = true) (hl1 : 1 ≤ len) (hl2 : len ≤ 256)
    (hs1 : 1 ≤ slot) (hs2 : slot ≤ cfg.lastSlot)
    (hfs : findStartCluser cfg st slot = some old)
    (hfree : ¬ creditedFree cfg st slot < len)
    (halloc : allocClusters cfg st (writeCnt cfg len) (writeSeed cfg rnd) = some cls) :
    writeSlot cfg rnd st slot (some d) len
      = ((clearClusters cfg
          (writeClustersLoop cfg slot d len
            (((st.mem (old * cfg.clusterSize + 1) &&& 0xC0) >>> 6 + 1) <<< 6 &&& 0xC0)
            (writeCnt cfg len) cls (writeCnt cfg len) st) old).1, true) := by
  have hmin : creditedFree cfg st slot = (if cfg.sProvision <
        (st.mem (old * cfg.clusterSize + 3) + cfg.userData - 1) / cfg.userData
          * cfg.userData then
      getFree cfg st + cfg.sProvision
    else getFree cfg st +
        (st.mem (old * cfg.clusterSize + 3) + cfg.userData - 1) / cfg.userData
          * cfg.userData) := by
    unfold creditedFree
    simp only [hfs]
    split <;> omega
  rw [hmin] at hfree
  unfold writeSlot
  rw [if_neg (by simp [hInit]), if_neg (by simp), if_neg (by omega),
    if_neg (by omega), if_neg (by omega)]
  simp only [hfs, Option.getD_some]
  unfold writeSlotCont
  rw [if_neg hfree]
  simp only [halloc]

/-- With valid arguments, no existing generation, enough free space and a
successful allocation, writeSlot is the reverse cluster-write loop
followed by marking the slot available. -/
theorem writeSlot_eq_fresh (cfg : Cfg) (rnd : Option Nat) (st : St) (slot : Nat)
    (d : List Nat) (len : Nat) (cls : List Nat)
    (hInit : st.initDone = true) (hl1 : 1 ≤ len) (hl2 : len ≤ 256)
    (hs1 : 1 ≤ slot) (hs2 : slot ≤ cfg.lastSlot)
    (hfs : findStartCluser cfg st slot = none)
    (hfree : ¬ creditedFree cfg st slot < len)
    (halloc : allocClusters cfg st (writeCnt cfg len) (writeSeed cfg rnd) = some cls) :
    writeSlot cfg rnd st slot (some d) len
      = ({ writeClustersLoop cfg slot d len 0 (writeCnt cfg len) cls
            (writeCnt cfg len) st with
          slotAvail := setSlotBitF cfg
            (writeClustersLoop cfg slot d len 0 (writeCnt cfg len) cls
              (writeCnt cfg len) st).slotAvail slot }, true) := by
  have hmin : creditedFree cfg st slot = getFree cfg st := by
    unfold creditedFree
    simp only [hfs]
  rw [hmin] at hfree
  unfold writeSlot
  rw [if_neg (by simp [hInit]), if_neg (by simp), if_neg (by omega),
    if_neg (by omega), if_neg (by omega)]
  simp only [hfs, Option.getD_some]
  unfold writeSlotCont
  rw [if_neg hfree]
  simp only [halloc]

/-- C3: every writeSlot execution that reaches the cluster-writing phase
emits, per allocated cluster in reverse order, one block in which the end
marker is the final byte written to that cluster, and the block begins by
zeroing the cluster's end-marker byte exactly when that byte holds the
valid S_END_BYTE value just before the block (in the medium obtained by
replaying all earlier blocks over the entry medium); no other block write
touches the end-marker offset or puts 0x00 into any slot byte, and all
old-generation invalidations (0x00 writes to slot bytes) happen strictly
after all blocks — in particular after the new START cluster's end-marker
write, which ends the last block. -/
theorem c3_write_ordering :
    ∀ (cfg : Cfg) (rnd : Option Nat) (st : St) (slot : Nat) (d : List Nat) (len : Nat),
      7 ≤ cfg.clusterSize →
      (writeSlot cfg rnd st slot (some d) len).2 = true →
      ∃ (cls : List Nat) (blocks : List (List WEvent)) (clearT : List WEvent),
        allocClusters cfg st (writeCnt cfg len) (writeSeed cfg rnd) = some cls ∧
        (writeSlot cfg rnd st slot (some d) len).1.trace
          = st.trace ++ blocks.flatten ++ clearT ∧
        blocks.length = writeCnt cfg len ∧
        (∀ j, j < writeCnt cfg len →
          blockShape cfg (cls.getD (writeCnt cfg len - 1 - j) 0)
            (replayW st.mem ((blocks.take j).flatten)
              (cls.getD (writeCnt cfg len - 1 - j) 0 * cfg.clusterSize
                + cfg.clusterSize - 1))
            (blocks.getD j [])) ∧
        (∀ e ∈ clearT, e.2 = 0 ∧ e.1 % cfg.clusterSize = 0) := by
  intro cfg rnd st slot d len hC hw
  cases hx : writeSlotArgsReject cfg st (some d) len slot with
  | true =>
    rw [writeSlot_rejected cfg rnd st slot (some d) len hx] at hw
    exact absurd hw (by simp)
  | false =>
    rw [writeSlotArgsReject] at hx
    simp only [Bool.or_eq_false_iff, Bool.not_eq_false', Option.isNone_some,
      decide_eq_false_iff_not] at hx
    obtain ⟨⟨⟨⟨hInit, _⟩, hlen1⟩, hlen2⟩, hslot⟩ := hx
    have hff := writeSlot_fails_iff cfg rnd st slot d len hInit (by omega)
      (by omega) (by omega) (by omega)
    have hnf : ¬ (writeSlot cfg rnd st slot (some d) len).2 = false := by
      simp [hw]
    have hnr : ¬ (creditedFree cfg st slot < len ∨
        allocClusters cfg st (writeCnt cfg len) (writeSeed cfg rnd) = none) :=
      fun hr => hnf (hff.1.mpr hr)
    obtain ⟨hfree, hne⟩ := not_or.mp hnr
    obtain ⟨cls, halloc⟩ := Option.ne_none_iff_exists'.mp hne
    cases hfs : findStartCluser cfg st slot with
    | some old =>
      rw [writeSlot_eq_overwrite cfg rnd st slot d len old cls hInit (by omega)
        (by omega) (by omega) (by omega) hfs hfree halloc]
      obtain ⟨blocks, hbl, hlen, _, hsh⟩ := writeClustersLoop_blocks cfg slot d len
        (((st.mem (old * cfg.clusterSize + 1) &&& 0xC0) >>> 6 + 1) <<< 6 &&& 0xC0)
        (writeCnt cfg len) cls hC (by omega) (writeCnt cfg len) st
      obtain ⟨evs, he1, he2⟩ := clearClusters_events cfg
        (writeClustersLoop cfg slot d len
          (((st.mem (old * cfg.clusterSize + 1) &&& 0xC0) >>> 6 + 1) <<< 6 &&& 0xC0)
          (writeCnt cfg len) cls (writeCnt cfg len) st) old
      refine ⟨cls, blocks, evs, halloc, ?_, hlen, hsh, he2⟩
      show (clearClusters cfg _ old).1.trace = _
      rw [he1, hbl]
    | none =>
      rw [writeSlot_eq_fresh cfg rnd st slot d len cls hInit (by omega)
        (by omega) (by omega) (by omega) hfs hfree halloc]
      obtain ⟨blocks, hbl, hlen, _, hsh⟩ := writeClustersLoop_blocks cfg slot d len
        0 (writeCnt cfg len) cls hC (by omega) (writeCnt cfg len) st
      refine ⟨cls, blocks, [], halloc, ?_, hlen, hsh, by simp⟩
      show (writeClustersLoop cfg slot d len 0 (writeCnt cfg len) cls
        (writeCnt cfg len) st).trace = _
      rw [hbl]
      simp

/-- C3 at a concrete input: the successful rewrite of slot 1 in the
recovered memC1 state reaches the cluster-writing phase and its trace
decomposes into marker-governed blocks followed by invalidations. -/
theorem c3_write_ordering_witness :
    ∃ (cls : List Nat) (blocks : List (List WEvent)) (clearT : List WEvent),
      allocClusters cfgP stC1 (writeCnt cfgP 4) (writeSeed cfgP (some 5)) = some cls ∧
      (writeSlot cfgP (some 5) stC1 1 (some [0xB1, 0xB2, 0xB3, 0xB4]) 4).1.trace
        = stC1.trace ++ blocks.flatten ++ clearT ∧
      blocks.length = writeCnt cfgP 4 ∧
      (∀ j, j < writeCnt cfgP 4 →
        blockShape cfgP (cls.getD (writeCnt cfgP 4 - 1 - j) 0)
          (replayW stC1.mem ((blocks.take j).flatten)
            (cls.getD (writeCnt cfgP 4 - 1 - j) 0 * cfgP.clusterSize
              + cfgP.clusterSize - 1))
          (blocks.getD j [])) ∧
      (∀ e ∈ clearT, e.2 = 0 ∧ e.1 % cfgP.clusterSize = 0) :=
  c3_write_ordering cfgP (some 5) stC1 1 [0xB1, 0xB2, 0xB3, 0xB4] 4
    (by decide) (by decide)

/-- C1 (code bug): the round-trip property fails on the code.  On a
recovered medium with getFree() = 0, PROVISION = 6 and an old five-byte
generation of slot 1, a rewrite of slot 1 with the four bytes
B1 B2 B3 B4 and random seed 5 passes the provision-credited space check,
but the allocator hands out cluster 0 twice (the seed-0 wrap of
nextFreeCluster), writeSlot still returns true, and the subsequent
readSlot returns true with the corrupted bytes B1 B2 B3 B1 instead of the
written bytes. -/
theorem c1_roundtrip_failing_input :
    (begin cfgP (initSt (memOf memC1))).2 = true ∧
    (writeSlot cfgP (some 5) stC1 1 (some [0xB1, 0xB2, 0xB3, 0xB4]) 4).2 = true ∧
    readSlot cfgP (writeSlot cfgP (some 5) stC1 1 (some [0xB1, 0xB2, 0xB3, 0xB4]) 4).1
        1 false 4
      = (true, 4, [0xB1, 0xB2, 0xB3, 0xB1]) ∧
    [0xB1, 0xB2, 0xB3, 0xB1] ≠ [0xB1, 0xB2, 0xB3, 0xB4] := by
  refine ⟨by decide, by decide, by decide, by decide⟩

/-- C5 (code bug): a non-contiguous age mask is not treated as a failure.
With two complete one-cluster generations of slot 1 at ages 0 and 2 (mask
0101, an error entry 0xF2 of the table), begin() masks the table entry
with 0x03, directly accepts the age-2 generation, keeps the slot
available, invalidates the age-0 cluster, and readSlot returns the age-2
payload. -/
theorem c5_gap_mask_failing_input :
    (begin cfgT (initSt (memOf memC5))).2 = true ∧
    isSlotAvailable cfgT stC5 1 = true ∧
    readSlot cfgT stC5 1 false 10 = (true, 2, [0x21, 0x22]) ∧
    stC5.mem 16 = 1 ∧
    stC5.mem 0 = 0 := by
  refine ⟨by decide, by decide, by decide, by decide, by decide⟩

/-- C2 counterexample: an interrupted start cluster whose end marker is
missing is not invalidated by begin().  Cluster 2 holds a start cluster of
slot 1 with age 1 and end byte 0xFF; begin() keeps the complete age-0
generation and readSlot returns its payload, but cluster 2's slot byte
still reads 1 afterwards and begin() performed no write at all (empty
trace), contradicting the claimed invalidation. -/
theorem c2_counterexample :
    (begin cfgT (initSt (memOf memC2x))).2 = true ∧
    readSlot cfgT stC2x 1 false 10 = (true, 2, [0x11, 0x12]) ∧
    stC2x.mem 16 = 1 ∧
    stC2x.trace = [] := by
  refine ⟨by decide, by decide, by decide, by decide⟩

/-- C4 counterexample, refuting the claimed failure condition in both
directions it gets wrong.  First: with all clusters used, PROVISION = 3
and a one-byte old generation of slot 1, the claim's credit
min(roundup(old payload length), S_PROVISION) = 3 makes
getFree() + credit = 3 ≥ len = 1, yet writeSlot fails (the code rounds
the stored length byte old-len − 1 = 0, crediting nothing).  Second: with
no old generation for slot 8, getFree() = 3 ≥ len = 1, yet writeSlot
fails (cluster allocation fails when the seed equals the only free
cluster); in both cases nothing is written (empty trace). -/
theorem c4_counterexample :
    ((writeSlot cfgP3 (some 0) stC4a 1 (some [0x77]) 1).2 = false ∧
      (writeSlot cfgP3 (some 0) stC4a 1 (some [0x77]) 1).1.trace = [] ∧
      findStartCluser cfgP3 stC4a 1 ≠ none ∧
      1 ≤ getFree cfgP3 stC4a +
        min (((1 + cfgP3.userData - 1) / cfgP3.userData) * cfgP3.userData)
          cfgP3.sProvision) ∧
    ((writeSlot cfgT (some 1) stC4b 8 (some [0x55]) 1).2 = false ∧
      (writeSlot cfgT (some 1) stC4b 8 (some [0x55]) 1).1.trace = [] ∧
      findStartCluser cfgT stC4b 8 = none ∧
      1 ≤ getFree cfgT stC4b) := by
  refine ⟨⟨by decide, by decide, by decide, by decide⟩,
    by decide, by decide, by decide, by decide⟩

/-- C2 (amended): for every medium holding, for one slot, a complete
valid generation (chain) plus one additional START cluster x of a
different age whose chain is incomplete, begin() returns true, keeps
every cluster of the complete generation, and a subsequent readSlot
returns the complete generation's payload; but only an incomplete-
generation cluster that itself passes per-cluster validation is
invalidated with 0x00 in its slot byte — a cluster rejected in pass 1
(first conjunct) is left untouched on the medium (identical bytes, no
write events), merely unindexed, while a pass-1-valid incomplete START
cluster (second conjunct) is invalidated with exactly one 0x00 write. -/
theorem c2_amended (cfg : Cfg) (mem : Nat → Nat) (s age x : Nat)
    (chain : List Nat) (startLen lenIn : Nat)
    (hC : 7 ≤ cfg.clusterSize) (hN : cfg.clusterCnt ≤ 256)
    (hs1 : 1 ≤ s) (hs2 : s ≤ cfg.lastSlot)
    (hchain : validChain cfg mem s age chain startLen)
    (hage4 : age < 4)
    (hx : x < cfg.clusterCnt) (hxnot : x ∉ chain)
    (hothers : ∀ c, c < cfg.clusterCnt → c ∉ chain → c ≠ x →
      clusterValid cfg mem c = false)
    (hlenIn : startLen + 1 ≤ lenIn) :
    (clusterValid cfg mem x = false →
      (begin cfg (initSt mem)).2 = true ∧
      (begin cfg (initSt mem)).1.mem = mem ∧
      (begin cfg (initSt mem)).1.trace = [] ∧
      (begin cfg (initSt mem)).1.usedCluster x = false ∧
      readSlot cfg (begin cfg (initSt mem)).1 s false lenIn
        = (true, startLen + 1, chainBytes cfg mem chain (startLen + 1))) ∧
    (∀ xage, clusterValid cfg mem x = true →
      mem (x * cfg.clusterSize) = s →
      flagsStartB (mem (x * cfg.clusterSize + 1)) = true →
      flagsAge (mem (x * cfg.clusterSize + 1)) = xage →
      flagsLastB (mem (x * cfg.clusterSize + 1)) = false →
      xage < 4 → xage ≠ age →
      mem (x * cfg.clusterSize + 2) ∉ chain →
      mem (x * cfg.clusterSize + 2) ≠ x →
      (begin cfg (initSt mem)).2 = true ∧
      (begin cfg (initSt mem)).1.mem = updN mem (x * cfg.clusterSize) 0 ∧
      (begin cfg (initSt mem)).1.trace = [(x * cfg.clusterSize, 0)] ∧
      (begin cfg (initSt mem)).1.usedCluster x = false ∧
      readSlot cfg (begin cfg (initSt mem)).1 s false lenIn
        = (true, startLen + 1, chainBytes cfg mem chain (startLen + 1))) := by
  constructor
  · intro hxinv
    obtain ⟨h1, h2, h3, h4, h5⟩ := c2_runA cfg mem s age chain startLen lenIn
      hC hN hs1 hs2 hchain hage4
      (fun c hc hnc => by
        by_cases hcx : c = x
        · subst hcx; exact hxinv
        · exact hothers c hc hnc hcx)
      hlenIn
    exact ⟨h1, h2, h3, Bool.eq_false_iff.mpr (fun h => hxnot ((h4 x).mp h)), h5⟩
  · intro xage hxvalid hxslot hxstart hxagef hxlast hxage4 hagene hylink
      hylinkx
    exact c2_runB cfg mem s age xage x chain startLen lenIn hC hN hs1 hs2
      hchain hage4 hxage4 hagene hx hxnot hxvalid hxslot hxstart hxagef
      hxlast hylink hylinkx hothers hlenIn

/-- Witness for C2 (amended) at the concrete 64-byte no-CRC
configuration: complete age-0 one-cluster generation of slot 1 on
cluster 0, plus an interrupted age-1 START cluster 2 whose end marker is
missing (pass-1-rejected): begin() keeps the medium byte-identical with
no write events, leaves cluster 2 unindexed, and readSlot returns the
complete generation's two bytes. -/
theorem c2_amended_witness :
    (begin cfgT (initSt (memOf memC2x))).2 = true ∧
    (begin cfgT (initSt (memOf memC2x))).1.mem = memOf memC2x ∧
    (begin cfgT (initSt (memOf memC2x))).1.trace = [] ∧
    (begin cfgT (initSt (memOf memC2x))).1.usedCluster 2 = false ∧
    readSlot cfgT (begin cfgT (initSt (memOf memC2x))).1 1 false 10
      = (true, 2, chainBytes cfgT (memOf memC2x) [0] 2) :=
  (c2_amended cfgT (memOf memC2x) 1 0 2 [0] 1 10 (by decide) (by decide)
    (by decide) (by decide) (by unfold validChain; decide) (by decide)
    (by decide) (by decide) (by decide) (by decide)).1 (by decide)

/-- C8: in-RAM index faithfulness.  For every configuration with cluster
size at least 7: after begin() on a freshly constructed object, the
m_usedCluster bit of every cluster index equals that cluster's on-medium
pass-1 validity (slot_no in [S_FIRST_SLOT, S_LAST_SLOT], correct
end_marker at offset C-1, and in CRC mode a verifying CRC byte); this
faithfulness is preserved by every writeSlot call and every eraseSlot
call, successful or not; and in every faithful state the count of set
bits equals the count of valid clusters on the medium. -/
theorem c8_index_faithful (cfg : Cfg) (hC : 7 ≤ cfg.clusterSize) :
    (∀ mem0 : Nat → Nat, indexFaithful cfg (begin cfg (initSt mem0)).1) ∧
    (∀ (st : St) (rnd : Option Nat) (slot : Nat) (data : Option (List Nat))
        (len : Nat), indexFaithful cfg st →
        indexFaithful cfg (writeSlot cfg rnd st slot data len).1) ∧
    (∀ (st : St) (slot : Nat), indexFaithful cfg st →
        indexFaithful cfg (eraseSlot cfg st slot).1) ∧
    (∀ st : St, indexFaithful cfg st →
        (List.range cfg.clusterCnt).countP (fun c => st.usedCluster c)
          = (List.range cfg.clusterCnt).countP
              (fun c => clusterValid cfg st.mem c)) :=
  ⟨fun mem0 => begin_initSt_faithful cfg hC mem0,
   fun st rnd slot data len hf => writeSlot_faithful cfg rnd st slot data len hC hf,
   fun st slot hf => eraseSlot_faithful cfg st slot hC hf,
   fun st hf => faithful_count cfg st hf⟩

/-- Witness for C8 at the concrete 64-byte no-CRC configuration: the
recovered state stC1 is faithful and stays faithful across a successful
four-byte rewrite of slot 1. -/
theorem c8_index_faithful_witness :
    (7 ≤ cfgT.clusterSize ∧ indexFaithful cfgT stC1) ∧
    indexFaithful cfgT
      (writeSlot cfgT (some 5) stC1 1 (some [0xB1, 0xB2, 0xB3, 0xB4]) 4).1 :=
  ⟨⟨by decide, by unfold indexFaithful; decide⟩,
   (c8_index_faithful cfgT (by decide)).2.1 stC1 (some 5) 1
     (some [0xB1, 0xB2, 0xB3, 0xB4]) 4 (by unfold indexFaithful; decide)⟩

/-- C10 counterexample: nextFreeCluster can return its seed.  In the
recovered state where clusters 1..7 are used and only cluster 0 is free,
probing from seed 0 wraps and returns cluster 0 itself. -/
theorem c10_counterexample :
    (begin cfgT (initSt (memOf memC10))).2 = true ∧
    stC10.usedCluster 0 = false ∧
    nextFreeCluster cfgT stC10 0 = some 0 := by
  refine ⟨by decide, by decide, by decide⟩

end SlotNVM
